import Mathlib

/-!
# Wavefront planner: C-space and dynamic-obstacle distance field

A shallow embedding of `src/wavefront/cpp/plan.cc`.

Numeric model.  `double` values (world coordinates, `scale`, `max_radius`) are exact
rationals.  `float` distances are exact reals of the form `±sqrt q` with `q` rational,
stored as their signed square (`Distance`); the only operations the program performs on
distances are assignment and comparison, and the signed square preserves both.
There is no rounding and no NaN in this model.

Memory model.  `cells` and `dist_kernel` are lists; a cell pointer is an integer offset
into `cells`, the kernel pointer a natural offset into `dist_kernel`.  Pointers are
carried through the loops and incremented exactly where the program increments them.
A read through a pointer outside the array yields `default`, a write there is dropped.

Layout.  All definitions come first: the embedding of the source, then the predicates and
specification-side functions the theorems are stated with, then the concrete grids.  The
theorems follow; each loop nest is analysed once (as a set of min-combines for
`compute_cspace`, as a trace of writes for `set_obstacles`) and the properties are read off.
-/

namespace Wavefront

/-! # Definitions -/

/-! ## Distances -/

/-- A `float` distance `d`, stored as its signed square `d * |d|`.
The map `d ↦ d * |d|` is a strictly increasing bijection of the reals, so comparing
signed squares is comparing distances. -/
structure Distance where
  sq : ℚ
deriving DecidableEq

namespace Distance

instance : LinearOrder Distance :=
  LinearOrder.lift' Distance.sq (fun a b h => by cases a; cases b; simp_all)

instance decLe (a b : Distance) : Decidable (a ≤ b) :=
  inferInstanceAs (Decidable (a.sq ≤ b.sq))

instance decLt (a b : Distance) : Decidable (a < b) :=
  inferInstanceAs (Decidable (a.sq < b.sq))

instance : Inhabited Distance := ⟨⟨0⟩⟩

/-- The distance with rational value `r`. -/
def ofRat (r : ℚ) : Distance := ⟨r * |r|⟩

/-- The literal `0.0`. -/
def zero : Distance := ofRat 0

/-- The value of `(float)(hypot(i, j) * scale)`: `sqrt (i² + j²) * scale`, whose signed
square is `(i² + j²) * (scale * |scale|)`. -/
def hypot_scaled (i j : Int) (scale : ℚ) : Distance :=
  ⟨((i : ℚ) * i + (j : ℚ) * j) * (scale * |scale|)⟩

end Distance

/-! ## Data model -/

/-- One grid cell (`plan_cell_t`); the fields are those the source reads and writes. -/
structure plan_cell_t where
  ci : Int
  cj : Int
  occ_state : Int
  occ_dist : Distance
  occ_state_dyn : Int
  occ_dist_dyn : Distance
  mark : Bool
  plan_cost : Distance
  plan_next : Option Nat
  lpathmark : Bool
deriving DecidableEq

instance : Inhabited plan_cell_t :=
  ⟨⟨0, 0, 0, default, 0, default, false, default, none, false⟩⟩

/-- The planner (`plan_t`). -/
structure plan_t where
  abs_min_radius : ℚ
  max_radius : ℚ
  dist_penalty : ℚ
  hysteresis_factor : ℚ
  min_x : Int
  min_y : Int
  max_x : Int
  max_y : Int
  size_x : Int
  size_y : Int
  origin_x : ℚ
  origin_y : ℚ
  scale : ℚ
  cells : List plan_cell_t
  dist_kernel : List Distance
  dist_kernel_width : Int
  dist_kernel_3x3 : List Distance
  waypoints : List Nat
deriving DecidableEq

/-! ## Memory access and loops -/

/-- Dereference the cell pointer `cells + k` for reading. -/
def cellAt (cells : List plan_cell_t) (k : Int) : plan_cell_t :=
  if 0 ≤ k then cells.getD k.toNat default else default

/-- Store `c` through the cell pointer `cells + k`. -/
def setCellAt (cells : List plan_cell_t) (k : Int) (c : plan_cell_t) : List plan_cell_t :=
  if 0 ≤ k then cells.set k.toNat c else cells

/-- The integers `lo, lo+1, ...` (`n` of them). -/
def loopFrom (lo : Int) : Nat → List Int
  | 0 => []
  | n + 1 => lo :: loopFrom (lo + 1) n

/-- The values taken by `d` in `for (int d = lo; d <= hi; d++)`. -/
def loopRange (lo hi : Int) : List Int := loopFrom lo (hi + 1 - lo).toNat

/-- The loop `for (int d = lo; d <= hi; d++) body`, as a state transformer. -/
def forRange {σ : Type} (lo hi : Int) (body : Int → σ → σ) (s : σ) : σ :=
  (loopRange lo hi).foldl (fun s d => body d s) s

/-- The C cast `(int)x`: truncation toward zero. -/
def trunc (x : ℚ) : Int := if 0 ≤ x then ⌊x⌋ else ⌈x⌉

/-! ## Coordinate helpers (`plan.cc` 736-768) -/

def plan_t.WXGX (plan : plan_t) (i : Int) : ℚ := plan.origin_x + i * plan.scale

def plan_t.WYGY (plan : plan_t) (j : Int) : ℚ := plan.origin_y + j * plan.scale

def plan_t.GXWX (plan : plan_t) (x : ℚ) : Int :=
  trunc ((x - plan.origin_x) / plan.scale + 1 / 2)

def plan_t.GYWY (plan : plan_t) (y : ℚ) : Int :=
  trunc ((y - plan.origin_y) / plan.scale + 1 / 2)

def plan_t.VALID (plan : plan_t) (i j : Int) : Bool :=
  decide (i ≥ 0) && decide (i < plan.size_x) && decide (j ≥ 0) && decide (j < plan.size_y)

def plan_t.VALID_BOUNDS (plan : plan_t) (i j : Int) : Bool :=
  decide (i ≥ plan.min_x) && decide (i ≤ plan.max_x) &&
    decide (j ≥ plan.min_y) && decide (j ≤ plan.max_y)

def plan_t.INDEX (plan : plan_t) (i j : Int) : Int := i + j * plan.size_x

/-! ## Kernel construction (`plan.cc` 189-216) -/

/-- The two nested fill loops `for j in lo..hi, for i in lo..hi, p++`, writing
`(float)(hypot(i,j) * scale)` through `p`; `p` starts at offset `0` of `buf`. -/
def fill_kernel (lo hi : Int) (scale : ℚ) (buf : List Distance) : List Distance :=
  (forRange lo hi (fun j st =>
    forRange lo hi (fun i (st : List Distance × Nat) =>
      (st.1.set st.2 (Distance.hypot_scaled i j scale), st.2 + 1)) st) (buf, 0)).1

/-- The function `plan_t::compute_dist_kernel`.  A freshly allocated buffer is modelled as
holding `default` in every slot. -/
def plan_t.compute_dist_kernel (plan : plan_t) : plan_t :=
  let w : Int := 1 + 2 * ⌈plan.max_radius / plan.scale⌉
  let buf : List Distance := List.replicate (w * w).toNat default
  { plan with
    dist_kernel_width := w
    dist_kernel := fill_kernel (Int.tdiv (-w) 2) (Int.tdiv w 2) plan.scale buf
    dist_kernel_3x3 := fill_kernel (-1) 1 plan.scale plan.dist_kernel_3x3 }

/-! ## Bounds (`plan.cc` 261-275) -/

/-- The function `plan_t::set_bounds`; `none` when one of the two assertions fails. -/
def plan_t.set_bounds (plan : plan_t) (min_x min_y max_x max_y : Int) : Option plan_t :=
  if ¬ min_x ≤ max_x then none
  else if ¬ min_y ≤ max_y then none
  else some { plan with
    min_x := min (plan.size_x - 1) (max 0 min_x)
    min_y := min (plan.size_y - 1) (max 0 min_y)
    max_x := min (plan.size_x - 1) (max 0 max_x)
    max_y := min (plan.size_y - 1) (max 0 max_y) }

/-! ## Initialisation (`plan.cc` 218-242) -/

/-- The cell loop of `plan_t::init`; `cell` starts at `cells` and is incremented once per
inner iteration.  `PLAN_MAX_COST` is declared in `plan.h`, which is not part of the
sources, and is taken as a parameter. -/
def init_cells (PLAN_MAX_COST : Distance) (size_x size_y : Int) (cells : List plan_cell_t) :
    List plan_cell_t :=
  (forRange 0 (size_y - 1) (fun j st =>
    forRange 0 (size_x - 1) (fun i (st : List plan_cell_t × Int) =>
      let cell := cellAt st.1 st.2
      let cell1 : plan_cell_t :=
        { cell with
          ci := i
          cj := j
          occ_state_dyn := cell.occ_state
          occ_dist_dyn := cell.occ_dist
          plan_cost := PLAN_MAX_COST
          plan_next := none
          lpathmark := false }
      (setCellAt st.1 st.2 cell1, st.2 + 1)) st) (cells, 0)).1

/-- The function `plan_t::init`. -/
def plan_t.init (PLAN_MAX_COST : Distance) (plan : plan_t) : Option plan_t :=
  let plan1 := { plan with
    cells := init_cells PLAN_MAX_COST plan.size_x plan.size_y plan.cells
    waypoints := [] }
  let plan2 := plan1.compute_dist_kernel
  plan2.set_bounds 0 0 (plan2.size_x - 1) (plan2.size_y - 1)

/-! ## Static C-space (`plan.cc` 353-387) -/

/-- The body of the innermost loop of `compute_cspace` for source indices `(i, j)`,
offset `(di, dj)`, kernel pointer `p` and neighbour pointer `ncell`. -/
def cspace_relax (plan : plan_t) (i j di dj : Int) (p : Nat) (ncell : Int) : plan_t :=
  if !plan.VALID_BOUNDS (i + di) (j + dj) then plan
  else
    let v := plan.dist_kernel.getD p default
    let nc := cellAt plan.cells ncell
    if v < nc.occ_dist then
      let nc1 : plan_cell_t := { nc with occ_dist := v, occ_dist_dyn := v }
      { plan with cells := setCellAt plan.cells ncell nc1 }
    else plan

/-- The two kernel loops of `compute_cspace` around the source pointer `cell`:
`p` starts at `dist_kernel`; each `dj` row starts `ncell` at
`cell + -dist_kernel_width/2 + dj*size.x`; `p` and `ncell` advance on every `di`. -/
def cspace_splat (plan : plan_t) (i j : Int) (cell : Int) : plan_t :=
  let lo := Int.tdiv (-plan.dist_kernel_width) 2
  let hi := Int.tdiv plan.dist_kernel_width 2
  (forRange lo hi (fun dj (st : plan_t × Nat) =>
    let ncell0 := cell + lo + dj * st.1.size_x
    let r := forRange lo hi (fun di (st : plan_t × Nat × Int) =>
        (cspace_relax st.1 i j di dj st.2.1 st.2.2, st.2.1 + 1, st.2.2 + 1))
      (st.1, st.2, ncell0)
    (r.1, r.2.1)) (plan, 0)).1

/-- The function `plan_t::compute_cspace`.  In each row `cell` starts at
`cells + INDEX(0, j)` and is incremented once per `i`, also when the cell is skipped. -/
def plan_t.compute_cspace (plan : plan_t) : plan_t :=
  forRange plan.min_y plan.max_y (fun j plan =>
    (forRange plan.min_x plan.max_x (fun i (st : plan_t × Int) =>
      if (cellAt st.1.cells st.2).occ_state < 0 then (st.1, st.2 + 1)
      else (cspace_splat st.1 i j st.2, st.2 + 1)) (plan, plan.INDEX 0 j)).1) plan

/-! ## Dynamic obstacles (`plan.cc` 133-187) -/

/-- The reset loop of `set_obstacles`: `cell` starts at `cells` and is incremented with `j`. -/
def reset_dyn (plan : plan_t) : plan_t :=
  (forRange 0 (plan.size_y * plan.size_x - 1) (fun _ (st : plan_t × Int) =>
    let cell := cellAt st.1.cells st.2
    let cell1 : plan_cell_t :=
      { cell with occ_state_dyn := cell.occ_state, occ_dist_dyn := cell.occ_dist, mark := false }
    ({ st.1 with cells := setCellAt st.1.cells st.2 cell1 }, st.2 + 1)) (plan, 0)).1

/-- The body of the innermost loop of `set_obstacles` around the obstacle pointer `cell`. -/
def obstacle_relax (plan : plan_t) (cell : Int) (di dj : Int) (p : Nat) (ncell : Int) : plan_t :=
  let c := cellAt plan.cells cell
  if !plan.VALID_BOUNDS (c.ci + di) (c.cj + dj) then plan
  else
    let v := plan.dist_kernel.getD p default
    let nc := cellAt plan.cells ncell
    if v < nc.occ_dist_dyn then
      let nc1 : plan_cell_t := { nc with occ_dist_dyn := v }
      { plan with cells := setCellAt plan.cells ncell nc1 }
    else plan

/-- The two kernel loops of `set_obstacles` around the obstacle pointer `cell`. -/
def obstacle_splat (plan : plan_t) (cell : Int) : plan_t :=
  let lo := Int.tdiv (-plan.dist_kernel_width) 2
  let hi := Int.tdiv plan.dist_kernel_width 2
  (forRange lo hi (fun dj (st : plan_t × Nat) =>
    let ncell0 := cell + lo + dj * st.1.size_x
    let r := forRange lo hi (fun di (st : plan_t × Nat × Int) =>
        (obstacle_relax st.1 cell di dj st.2.1 st.2.2, st.2.1 + 1, st.2.2 + 1))
      (st.1, st.2, ncell0)
    (r.1, r.2.1)) (plan, 0)).1

/-- One iteration of the obstacle loop of `set_obstacles`, for the point `(x, y)`. -/
def obstacle_point (plan : plan_t) (x y : ℚ) : plan_t :=
  let gx := plan.GXWX x
  let gy := plan.GYWY y
  if !plan.VALID gx gy then plan
  else
    let cell := plan.INDEX gx gy
    let c := cellAt plan.cells cell
    if c.mark then plan
    else
      let c1 : plan_cell_t :=
        { c with mark := true, occ_state_dyn := 1, occ_dist_dyn := Distance.zero }
      obstacle_splat { plan with cells := setCellAt plan.cells cell c1 } cell

/-- The function `plan_t::set_obstacles`; `obs` holds `2 * num` doubles. -/
def plan_t.set_obstacles (plan : plan_t) (obs : List ℚ) (num : Nat) : plan_t :=
  (List.range num).foldl (fun plan i =>
    obstacle_point plan (obs.getD (2 * i) 0) (obs.getD (2 * i + 1) 0)) (reset_dyn plan)

/-! ## Min-combine: the static layer -/

/-- The value `m` is the minimum of `a` and of the values satisfying `S`. -/
def IsMinOf (m a : Distance) (S : Distance → Prop) : Prop :=
  ∀ x, x ≤ m ↔ x ≤ a ∧ ∀ v, S v → x ≤ v

/-- The effect on one cell of min-combining the value `m` into its static distance, as the
innermost statement of `compute_cspace` does. -/
def relaxCell (c : plan_cell_t) (m : Distance) : plan_cell_t :=
  if m < c.occ_dist then { c with occ_dist := m, occ_dist_dyn := m } else c

/-- The array `c'` is `c` after min-combining into each cell `k` the values `v` with `R k v`. -/
structure CellsRelaxed (R : Int → Distance → Prop) (c c' : List plan_cell_t) : Prop where
  length_eq : c'.length = c.length
  cell : ∀ k : Int, 0 ≤ k → k < c.length →
    ∃ m, IsMinOf m (cellAt c k).occ_dist (R k) ∧ cellAt c' k = relaxCell (cellAt c k) m

/-- The planner `p'` is `p` with its static layer relaxed by `R`; nothing but `cells`
changes. -/
def PlanRelaxed (R : Int → Distance → Prop) (p p' : plan_t) : Prop :=
  ∃ c', p' = { p with cells := c' } ∧ CellsRelaxed R p.cells c'

/-! ## The kernel loops of `compute_cspace` -/

/-- The writes of one kernel row: `n` iterations starting at offset `lo`, kernel pointer `pk0`
and neighbour pointer `nc0`. -/
def RowOps (p : plan_t) (i j dj lo : Int) (n pk0 : Nat) (nc0 : Int) (k : Int) (v : Distance) :
    Prop :=
  ∃ a : Nat, a < n ∧ p.VALID_BOUNDS (i + (lo + a)) (j + dj) = true ∧ k = nc0 + a ∧
    v = p.dist_kernel.getD (pk0 + a) default

/-- The writes of the two kernel loops around the source pointer `cell`, with the bounds
test taken at `(i, j)`. -/
def SplatOps (p : plan_t) (i j cell : Int) (k : Int) (v : Distance) : Prop :=
  let lo := Int.tdiv (-p.dist_kernel_width) 2
  let n := (Int.tdiv p.dist_kernel_width 2 + 1 - lo).toNat
  ∃ b a : Nat, b < n ∧ a < n ∧ p.VALID_BOUNDS (i + (lo + a)) (j + (lo + b)) = true ∧
    k = cell + lo + (lo + b) * p.size_x + a ∧ v = p.dist_kernel.getD (b * n + a) default

/-! ## The source loops of `compute_cspace` -/

/-- The writes of one source row `j` of `compute_cspace`: `n` source iterations starting
at column `i0`, with the source pointer starting at `cell0`. -/
def SourceRowOps (p : plan_t) (j i0 : Int) (n : Nat) (cell0 : Int) (k : Int) (v : Distance) :
    Prop :=
  ∃ a : Nat, a < n ∧ ¬ (cellAt p.cells (cell0 + a)).occ_state < 0 ∧
    SplatOps p (i0 + a) j (cell0 + a) k v

/-- All writes of `compute_cspace`, read off the loops: source row `min_y + b`, source
column counter `min_x + a`, source pointer `INDEX(0, min_y + b) + a`. -/
def CspaceOps (p : plan_t) (k : Int) (v : Distance) : Prop :=
  ∃ b : Nat, b < (p.max_y + 1 - p.min_y).toNat ∧
    SourceRowOps p (p.min_y + b) p.min_x (p.max_x + 1 - p.min_x).toNat
      (p.INDEX 0 (p.min_y + b)) k v

/-- The source cells at which `compute_cspace` runs its kernel loops, in the order of the
code: for each row `j` of the bounds and each column counter `i`, the triple
`(i, j, cell)` of the loop variables when `cell->occ_state >= 0`. -/
def cspace_sources (p : plan_t) : List (Int × Int × Int) :=
  (loopRange p.min_y p.max_y).flatMap (fun j =>
    (loopFrom 0 (p.max_x + 1 - p.min_x).toNat).filterMap (fun a =>
      if (cellAt p.cells (p.INDEX 0 j + a)).occ_state < 0 then none
      else some (p.min_x + a, j, p.INDEX 0 j + a)))

/-! ## The distance kernel -/

/-- The kernel fields hold what `compute_dist_kernel` computes from `max_radius` and
`scale`. -/
def KernelBuilt (p : plan_t) : Prop :=
  p.dist_kernel_width = p.compute_dist_kernel.dist_kernel_width ∧
    p.dist_kernel = p.compute_dist_kernel.dist_kernel

instance (p : plan_t) : Decidable (KernelBuilt p) := by
  unfold KernelBuilt; infer_instance

/-! ## Static C-space on the full grid -/

/-- The data-model invariant `cells` has `width * height` entries. -/
def GridAllocated (p : plan_t) : Prop := (p.cells.length : Int) = p.size_x * p.size_y

instance (p : plan_t) : Decidable (GridAllocated p) := by
  unfold GridAllocated; infer_instance

/-- All in-grid coordinates `(i, j)`. -/
def grid_cells (p : plan_t) : List (Int × Int) :=
  (loopRange 0 (p.size_y - 1)).flatMap (fun j =>
    (loopRange 0 (p.size_x - 1)).map (fun i => (i, j)))

/-- The static distance the specification assigns to cell `(ci, cj)`: the minimum of its
previous `occ_dist` and of `hypot(ci - si, cj - sj) * scale` over the in-grid cells `(si, sj)`
with `occ_state >= 0` and `|ci - si| <= h`, `|cj - sj| <= h`, where `h = kernel_width / 2`. -/
def static_dist_spec (p : plan_t) (ci cj : Int) : Distance :=
  let h := Int.tdiv p.dist_kernel_width 2
  ((grid_cells p).filter (fun s =>
      decide (0 ≤ (cellAt p.cells (p.INDEX s.1 s.2)).occ_state) &&
        decide (|ci - s.1| ≤ h) && decide (|cj - s.2| ≤ h))).foldl
    (fun acc s => min acc (Distance.hypot_scaled (ci - s.1) (cj - s.2) p.scale))
    (cellAt p.cells (p.INDEX ci cj)).occ_dist

/-! ## Concrete grids -/

/-- A cell as the map loader leaves it: occupancy `s`, static distance with signed
square `d`. -/
def loaded_cell (s : Int) (d : ℚ) : plan_cell_t :=
  ⟨0, 0, s, ⟨d⟩, 0, ⟨d⟩, false, ⟨0⟩, none, false⟩

/-- The grid of the specification's scenario before `init()`: `10 × 10`, origin `(0, 0)`,
`scale = 1`, `max_radius = 2`, cell `(5, 5)` occupied and every other cell free, every
static distance at the sentinel `1000` (signed square `1000000`). -/
def scenario_loaded : plan_t :=
  { abs_min_radius := 0, max_radius := 2, dist_penalty := 0, hysteresis_factor := 0,
    min_x := 0, min_y := 0, max_x := 0, max_y := 0, size_x := 10, size_y := 10,
    origin_x := 0, origin_y := 0, scale := 1,
    cells := (List.range 100).map (fun k => loaded_cell (if k = 55 then 1 else -1) 1000000),
    dist_kernel := [], dist_kernel_width := 0,
    dist_kernel_3x3 := List.replicate 9 default, waypoints := [] }

/-- The scenario grid after `init()` (with `PLAN_MAX_COST = 1e9`). -/
def scenario : plan_t :=
  (scenario_loaded.init (Distance.ofRat 1000000000)).getD scenario_loaded

/-- A `3 × 1` grid before `init()`: `scale = 1`, `max_radius = 0` (a `1 × 1` kernel), cells
`(0,0)` and `(2,0)` occupied, `(1,0)` free, every static distance `9` (signed square `81`). -/
def strip_loaded : plan_t :=
  { abs_min_radius := 0, max_radius := 0, dist_penalty := 0, hysteresis_factor := 0,
    min_x := 0, min_y := 0, max_x := 0, max_y := 0, size_x := 3, size_y := 1,
    origin_x := 0, origin_y := 0, scale := 1,
    cells := [loaded_cell 1 81, loaded_cell (-1) 81, loaded_cell 1 81],
    dist_kernel := [], dist_kernel_width := 0,
    dist_kernel_3x3 := List.replicate 9 default, waypoints := [] }

/-- The strip after `init()`, with full-grid bounds. -/
def strip : plan_t := (strip_loaded.init (Distance.ofRat 100)).getD strip_loaded

/-- The strip after `init()` and `set_bounds(1, 0, 2, 0)`. -/
def strip_offset : plan_t := (strip.set_bounds 1 0 2 0).getD strip

/-! ## The dynamic layer as a sequence of writes -/

/-- The two kinds of write `set_obstacles` performs after its reset pass: marking the cell
an obstacle point falls in, and min-combining a kernel value into a neighbour. -/
inductive DynWrite where
  | hit (cell : Int)
  | relax (ncell : Int) (v : Distance)
deriving DecidableEq

/-- Execute one write of `set_obstacles` on the cell array. -/
def applyWrite (c : List plan_cell_t) : DynWrite → List plan_cell_t
  | DynWrite.hit cell =>
    setCellAt c cell
      { cellAt c cell with mark := true, occ_state_dyn := 1, occ_dist_dyn := Distance.zero }
  | DynWrite.relax ncell v =>
    if v < (cellAt c ncell).occ_dist_dyn then
      setCellAt c ncell { cellAt c ncell with occ_dist_dyn := v }
    else c

/-- The fields of a cell that belong to the static layer and to the search: everything but
`occ_state_dyn`, `occ_dist_dyn` and `mark`. -/
def staticPart (c : plan_cell_t) : plan_cell_t :=
  { c with occ_state_dyn := 0, occ_dist_dyn := default, mark := false }

/-- A list of writes consists of exactly the min-combines described by `R`. -/
def RelaxesOf (R : Int → Distance → Prop) (ops : List DynWrite) : Prop :=
  (∀ w ∈ ops, ∃ k v, w = DynWrite.relax k v ∧ R k v) ∧
    ∀ k v, R k v → DynWrite.relax k v ∈ ops

/-- The planner `p'` is `p` after executing a list of min-combines described by `R`. -/
def PlanWrites (R : Int → Distance → Prop) (p p' : plan_t) : Prop :=
  ∃ ops : List DynWrite, RelaxesOf R ops ∧ p' = { p with cells := ops.foldl applyWrite p.cells }

/-! ## The reset pass of `set_obstacles` -/

/-- The three assignments of the reset loop, on one cell. -/
def resetCell (c : plan_cell_t) : plan_cell_t :=
  { c with occ_state_dyn := c.occ_state, occ_dist_dyn := c.occ_dist, mark := false }

/-! ## The obstacle loop of `set_obstacles` -/

/-- Grid column `GXWX(obs[2*i])` of the `i`-th obstacle point. -/
def obstacle_gx (p : plan_t) (obs : List ℚ) (i : Nat) : Int := p.GXWX (obs.getD (2 * i) 0)

/-- Grid row `GYWY(obs[2*i+1])` of the `i`-th obstacle point. -/
def obstacle_gy (p : plan_t) (obs : List ℚ) (i : Nat) : Int := p.GYWY (obs.getD (2 * i + 1) 0)

/-- Whether the `i`-th obstacle point passes the `VALID` test. -/
def obstacle_valid (p : plan_t) (obs : List ℚ) (i : Nat) : Bool :=
  p.VALID (obstacle_gx p obs i) (obstacle_gy p obs i)

/-- The cell pointer `INDEX(gx, gy)` of the `i`-th obstacle point. -/
def obstacle_cell (p : plan_t) (obs : List ℚ) (i : Nat) : Int :=
  p.INDEX (obstacle_gx p obs i) (obstacle_gy p obs i)

/-- The list `tr` holds exactly the writes of the obstacle loop over the first `num` points,
started in state `q0`: one `hit` per in-grid point cell and the kernel min-combines around
each of them. -/
structure ObstacleTrace (q0 : plan_t) (obs : List ℚ) (num : Nat) (tr : List DynWrite) :
    Prop where
  hit_sound : ∀ c, DynWrite.hit c ∈ tr →
    ∃ i, i < num ∧ obstacle_valid q0 obs i = true ∧ c = obstacle_cell q0 obs i
  hit_complete : ∀ i, i < num → obstacle_valid q0 obs i = true →
    DynWrite.hit (obstacle_cell q0 obs i) ∈ tr
  relax_sound : ∀ k v, DynWrite.relax k v ∈ tr →
    ∃ i, i < num ∧ obstacle_valid q0 obs i = true ∧
      SplatOps q0 (cellAt q0.cells (obstacle_cell q0 obs i)).ci
        (cellAt q0.cells (obstacle_cell q0 obs i)).cj (obstacle_cell q0 obs i) k v
  relax_complete : ∀ i, i < num → obstacle_valid q0 obs i = true → ∀ k v,
    SplatOps q0 (cellAt q0.cells (obstacle_cell q0 obs i)).ci
      (cellAt q0.cells (obstacle_cell q0 obs i)).cj (obstacle_cell q0 obs i) k v →
    DynWrite.relax k v ∈ tr

/-! ## Initialised grids -/

/-- Every in-grid cell records its own coordinates in `ci`, `cj`, as `init()` leaves it. -/
def CellsIndexed (p : plan_t) : Prop :=
  ∀ s ∈ grid_cells p, (cellAt p.cells (p.INDEX s.1 s.2)).ci = s.1 ∧
    (cellAt p.cells (p.INDEX s.1 s.2)).cj = s.2

instance (p : plan_t) : Decidable (CellsIndexed p) := by
  unfold CellsIndexed; infer_instance

/-- The bounds rectangle is well formed and inside the grid. -/
def ValidBounds (p : plan_t) : Prop :=
  0 ≤ p.min_x ∧ p.min_x ≤ p.max_x ∧ p.max_x ≤ p.size_x - 1 ∧
    0 ≤ p.min_y ∧ p.min_y ≤ p.max_y ∧ p.max_y ≤ p.size_y - 1

instance (p : plan_t) : Decidable (ValidBounds p) := by
  unfold ValidBounds; infer_instance

/-! ## The dynamic distance inside the bounds -/

/-- The in-grid cells that some point of the list maps to. -/
def obstacle_cells (p : plan_t) (obs : List ℚ) (num : Nat) : List (Int × Int) :=
  ((List.range num).map (fun t => (obstacle_gx p obs t, obstacle_gy p obs t))).filter
    (fun s => p.VALID s.1 s.2)

/-- The dynamic distance the specification assigns to cell `(ci, cj)` inside the bounds: the
minimum of its static distance and of `hypot(ci - si, cj - sj) * scale` over the in-grid
point cells `(si, sj)` with `|ci - si| <= h`, `|cj - sj| <= h`, where
`h = kernel_width / 2`. -/
def dynamic_dist_spec (p : plan_t) (obs : List ℚ) (num : Nat) (ci cj : Int) : Distance :=
  let h := Int.tdiv p.dist_kernel_width 2
  ((obstacle_cells p obs num).filter (fun s =>
      decide (|ci - s.1| ≤ h) && decide (|cj - s.2| ≤ h))).foldl
    (fun acc s => min acc (Distance.hypot_scaled (ci - s.1) (cj - s.2) p.scale))
    (cellAt p.cells (p.INDEX ci cj)).occ_dist

/-! ## Concrete runs of `set_obstacles` -/

/-- A `3 × 1` strip initialised with `max_radius = -2`: `kernel_width = -3` and the kernel
loops of `set_obstacles` run from `1` to `-1`, that is, not at all. -/
def strip_negative_radius : plan_t :=
  (plan_t.init (Distance.ofRat 100) { strip_loaded with max_radius := -2 }).getD strip_loaded

/-! ## Bounds, statement by statement (`plan.cc` 261-275) -/

/-- An `assert`: when the condition fails the program stops in the state it is in, which
the error value records. -/
def assert_stmt (cond : Bool) (s : plan_t) : Except plan_t plan_t :=
  if cond then Except.ok s else Except.error s

/-- The function `plan_t::set_bounds` as the sequence of its six statements: two assertions,
then the four assignments in source order.  `Except.error s` is a failed assertion, with
`s` the planner at that moment. -/
def plan_t.set_bounds_steps (plan : plan_t) (min_x min_y max_x max_y : Int) :
    Except plan_t plan_t :=
  (assert_stmt (decide (min_x ≤ max_x)) plan).bind fun s1 =>
  (assert_stmt (decide (min_y ≤ max_y)) s1).bind fun s2 =>
  let s3 : plan_t := { s2 with min_x := min (s2.size_x - 1) (max 0 min_x) }
  let s4 : plan_t := { s3 with min_y := min (s3.size_y - 1) (max 0 min_y) }
  let s5 : plan_t := { s4 with max_x := min (s4.size_x - 1) (max 0 max_x) }
  let s6 : plan_t := { s5 with max_y := min (s5.size_y - 1) (max 0 max_y) }
  Except.ok s6

/-- The value `x` clamped into `[lo, hi]`, as the specification words it. -/
def clamp_into (lo hi x : Int) : Int :=
  if x < lo then lo else if hi < x then hi else x

/-! ## Reset (`plan.cc` 245-259) -/

/-- The function `plan_t::reset`.  `PLAN_MAX_COST` is declared in `plan.h`, which is not
part of the sources, and is taken as a parameter. -/
def plan_t.reset (PLAN_MAX_COST : Distance) (plan : plan_t) : plan_t :=
  let plan1 := forRange plan.min_y plan.max_y (fun j plan =>
    forRange plan.min_x plan.max_x (fun i plan =>
      let cell := plan.INDEX i j
      let c := cellAt plan.cells cell
      let c1 : plan_cell_t :=
        { c with plan_cost := PLAN_MAX_COST, plan_next := none, mark := false }
      { plan with cells := setCellAt plan.cells cell c1 }) plan) plan
  { plan1 with waypoints := [] }

/-- The function `plan_t::check_inbounds`. -/
def plan_t.check_inbounds (plan : plan_t) (x y : ℚ) : Bool :=
  decide (plan.GXWX x ≥ plan.min_x) && decide (plan.GXWX x ≤ plan.max_x) &&
    decide (plan.GYWY y ≥ plan.min_y) && decide (plan.GYWY y ≤ plan.max_y)

/-! ## Bounding box (`plan.cc` 287-351) -/

/-- One iteration of a box-growing `while` loop of `set_bbox` on the state
`(min, max, s)`: `d = gmin_size - s; min -= ceil(d / 2.0); max += ceil(d / 2.0);`
`min = max(min, 0); max = min(max, size - 1); s = max - min`. -/
def grow_step (gmin_size size : Int) (st : Int × Int × Int) : Int × Int × Int :=
  let d := gmin_size - st.2.2
  let min1 := st.1 - ⌈(d : ℚ) / 2⌉
  let max1 := st.2.1 + ⌈(d : ℚ) / 2⌉
  let min2 := max min1 0
  let max2 := min max1 (size - 1)
  (min2, max2, max2 - min2)

/-- The loop `while (s < gmin_size) grow_step`, run for at most `fuel` iterations; `none`
when the loop has not exited by then. -/
def grow_axis (gmin_size size : Int) : Nat → Int × Int × Int → Option (Int × Int × Int)
  | 0, st => if st.2.2 < gmin_size then none else some st
  | fuel + 1, st =>
    if st.2.2 < gmin_size then grow_axis gmin_size size fuel (grow_step gmin_size size st)
    else some st

/-- The clamped minimum size `gmin_size` of `set_bbox`. -/
def plan_t.gmin_size (plan : plan_t) (min_size : ℚ) : Int :=
  min ⌈min_size / plan.scale⌉ (min (plan.size_x - 1) (plan.size_y - 1))

/-- The box of `set_bbox` along one axis before the growing loop: the interval spanned by
the two grid coordinates `g0`, `g1`, padded by `gpadding / 2` and clamped. -/
def padded_axis (size gpadding g0 g1 : Int) : Int × Int × Int :=
  let min1 := max (min g0 g1 - Int.tdiv gpadding 2) 0
  let max1 := min (max g0 g1 + Int.tdiv gpadding 2) (size - 1)
  (min1, max1, max1 - min1)

/-- The rectangle `(min_x, min_y, max_x, max_y)` that `set_bbox` passes to `set_bounds`,
each `while` loop run for at most `fuel` iterations; `none` when a loop has not exited. -/
def plan_t.bbox_rect (plan : plan_t) (fuel : Nat) (padding min_size x0 y0 x1 y1 : ℚ) :
    Option (Int × Int × Int × Int) :=
  let gmin := plan.gmin_size min_size
  let gpadding := ⌈padding / plan.scale⌉
  match grow_axis gmin plan.size_x fuel
      (padded_axis plan.size_x gpadding (plan.GXWX x0) (plan.GXWX x1)) with
  | none => none
  | some rx =>
    match grow_axis gmin plan.size_y fuel
        (padded_axis plan.size_y gpadding (plan.GYWY y0) (plan.GYWY y1)) with
    | none => none
    | some ry => some (rx.1, ry.1, rx.2.1, ry.2.1)

/-- The function `plan_t::set_bbox`, each `while` loop run for at most `fuel` iterations. -/
def plan_t.set_bbox (plan : plan_t) (fuel : Nat) (padding min_size x0 y0 x1 y1 : ℚ) :
    Option plan_t :=
  match plan.bbox_rect fuel padding min_size x0 y0 x1 y1 with
  | none => none
  | some r => plan.set_bounds r.1 r.2.1 r.2.2.1 r.2.2.2

/-- The number of iterations after which the growing loop of one axis has exited: the
initial value of `min + (size - 1 - max)`. -/
def axis_fuel (size : Int) (st : Int × Int × Int) : Nat := (st.1 + (size - 1 - st.2.1)).toNat

/-- A number of iterations that suffices for both growing loops of `set_bbox`. -/
def plan_t.bbox_fuel (plan : plan_t) (padding x0 y0 x1 y1 : ℚ) : Nat :=
  max
    (axis_fuel plan.size_x
      (padded_axis plan.size_x ⌈padding / plan.scale⌉ (plan.GXWX x0) (plan.GXWX x1)))
    (axis_fuel plan.size_y
      (padded_axis plan.size_y ⌈padding / plan.scale⌉ (plan.GYWY y0) (plan.GYWY y1)))

/-- A `10 × 3` grid before `init()`: origin `(0, 0)`, `scale = 1`, `max_radius = 0`, every
cell free. -/
def wide_loaded : plan_t :=
  { abs_min_radius := 0, max_radius := 0, dist_penalty := 0, hysteresis_factor := 0,
    min_x := 0, min_y := 0, max_x := 0, max_y := 0, size_x := 10, size_y := 3,
    origin_x := 0, origin_y := 0, scale := 1,
    cells := (List.range 30).map (fun _ => loaded_cell (-1) 81),
    dist_kernel := [], dist_kernel_width := 0,
    dist_kernel_3x3 := List.replicate 9 default, waypoints := [] }

/-- The `10 × 3` grid after `init()`. -/
def wide : plan_t := (wide_loaded.init (Distance.ofRat 100)).getD wide_loaded

/-! ## The kernel as a function of the offset -/

/-- The entry `dist_kernel[(dj + h) * kernel_width + (di + h)]`, `h = kernel_width / 2`. -/
def plan_t.kernel_at (p : plan_t) (di dj : Int) : Distance :=
  p.dist_kernel.getD
    ((dj + Int.tdiv p.dist_kernel_width 2) * p.dist_kernel_width +
      (di + Int.tdiv p.dist_kernel_width 2)).toNat default

/-- The entry `dist_kernel_3x3[(dj + 1) * 3 + (di + 1)]`. -/
def plan_t.kernel_3x3_at (p : plan_t) (di dj : Int) : Distance :=
  p.dist_kernel_3x3.getD ((dj + 1) * 3 + (di + 1)).toNat default

/-! ## Reset as a set of cleared cells -/

/-- The three assignments of `reset` on one cell. -/
def clearCell (PLAN_MAX_COST : Distance) (c : plan_cell_t) : plan_cell_t :=
  { c with plan_cost := PLAN_MAX_COST, plan_next := none, mark := false }

/-- The array `c'` is `c` with the planning fields cleared in the cells `k` with `T k`, and
nothing else changed. -/
structure ClearedOn (M : Distance) (T : Int → Prop) (c c' : List plan_cell_t) : Prop where
  length_eq : c'.length = c.length
  cleared : ∀ k : Int, T k → 0 ≤ k → k < c.length → cellAt c' k = clearCell M (cellAt c k)
  kept : ∀ k : Int, ¬ T k → cellAt c' k = cellAt c k

/-- The planner `p'` is `p` with the planning fields cleared in the cells `T`; nothing but
`cells` changes. -/
def PlanCleared (M : Distance) (T : Int → Prop) (p p' : plan_t) : Prop :=
  ∃ c', p' = { p with cells := c' } ∧ ClearedOn M T p.cells c'

/-! ## The dynamic layer as a function of the set of writes -/

/-- The three assignments `set_obstacles` makes to the cell an obstacle point falls in. -/
def hitCell (c : plan_cell_t) : plan_cell_t :=
  { c with mark := true, occ_state_dyn := 1, occ_dist_dyn := Distance.zero }

/-! ## Checked memory access -/

/-- Dereference the cell pointer `cells + k` for reading; `none` unless `k` is the index of
one of the `size_x * size_y` cells and lies inside the array. -/
def plan_t.cell_read (plan : plan_t) (k : Int) : Option plan_cell_t :=
  if 0 ≤ k ∧ k < plan.size_x * plan.size_y then plan.cells[k.toNat]? else none

/-- Store `c` through the cell pointer `cells + k`; `none` unless `k` is the index of one
of the `size_x * size_y` cells and lies inside the array. -/
def plan_t.cell_write (plan : plan_t) (k : Int) (c : plan_cell_t) : Option plan_t :=
  if 0 ≤ k ∧ k < plan.size_x * plan.size_y ∧ k.toNat < plan.cells.length then
    some { plan with cells := plan.cells.set k.toNat c }
  else none

/-- Dereference the kernel pointer `dist_kernel + p` for reading; `none` unless `p` is the
index of one of the `dist_kernel_width * dist_kernel_width` entries and lies inside the
array. -/
def plan_t.kernel_read (plan : plan_t) (p : Nat) : Option Distance :=
  if (p : Int) < plan.dist_kernel_width * plan.dist_kernel_width then plan.dist_kernel[p]?
  else none

/-- The loop `for (int d = lo; d <= hi; d++) body` with a body that may fail. -/
def forRangeOpt {σ : Type} (lo hi : Int) (body : Int → σ → Option σ) (s : σ) : Option σ :=
  (loopRange lo hi).foldl (fun s d => s.bind (body d)) (some s)

/-! ## Static C-space with checked accesses (`plan.cc` 353-387) -/

/-- The body of the innermost loop of `compute_cspace`, every dereference checked: `*p`,
and `ncell` for reading and for writing. -/
def cspace_relax_checked (plan : plan_t) (i j di dj : Int) (p : Nat) (ncell : Int) :
    Option plan_t :=
  if !plan.VALID_BOUNDS (i + di) (j + dj) then some plan
  else
    (plan.kernel_read p).bind fun v =>
    (plan.cell_read ncell).bind fun nc =>
    if v < nc.occ_dist then
      plan.cell_write ncell { nc with occ_dist := v, occ_dist_dyn := v }
    else some plan

/-- The two kernel loops of `compute_cspace` around the source pointer `cell`, every
dereference checked. -/
def cspace_splat_checked (plan : plan_t) (i j : Int) (cell : Int) : Option plan_t :=
  let lo := Int.tdiv (-plan.dist_kernel_width) 2
  let hi := Int.tdiv plan.dist_kernel_width 2
  (forRangeOpt lo hi (fun dj (st : plan_t × Nat) =>
    let ncell0 := cell + lo + dj * st.1.size_x
    (forRangeOpt lo hi (fun di (st : plan_t × Nat × Int) =>
        (cspace_relax_checked st.1 i j di dj st.2.1 st.2.2).map fun q =>
          (q, st.2.1 + 1, st.2.2 + 1))
      (st.1, st.2, ncell0)).map fun r => (r.1, r.2.1)) (plan, 0)).map Prod.fst

/-- The function `plan_t::compute_cspace`, every dereference checked: the source cell
`cell->occ_state` and the accesses of the kernel loops. -/
def plan_t.compute_cspace_checked (plan : plan_t) : Option plan_t :=
  forRangeOpt plan.min_y plan.max_y (fun j plan =>
    (forRangeOpt plan.min_x plan.max_x (fun i (st : plan_t × Int) =>
      (st.1.cell_read st.2).bind fun c =>
      if c.occ_state < 0 then some (st.1, st.2 + 1)
      else (cspace_splat_checked st.1 i j st.2).map fun q => (q, st.2 + 1))
      (plan, plan.INDEX 0 j)).map Prod.fst) plan

/-! ## Dynamic obstacles with checked accesses (`plan.cc` 133-187) -/

/-- The reset loop of `set_obstacles`, every dereference checked. -/
def reset_dyn_checked (plan : plan_t) : Option plan_t :=
  (forRangeOpt 0 (plan.size_y * plan.size_x - 1) (fun _ (st : plan_t × Int) =>
    (st.1.cell_read st.2).bind fun cell =>
    let cell1 : plan_cell_t :=
      { cell with occ_state_dyn := cell.occ_state, occ_dist_dyn := cell.occ_dist, mark := false }
    (st.1.cell_write st.2 cell1).map fun q => (q, st.2 + 1)) (plan, 0)).map Prod.fst

/-- The body of the innermost loop of `set_obstacles`, every dereference checked:
`cell->ci`, `cell->cj`, `*p`, and `ncell` for reading and for writing. -/
def obstacle_relax_checked (plan : plan_t) (cell : Int) (di dj : Int) (p : Nat) (ncell : Int) :
    Option plan_t :=
  (plan.cell_read cell).bind fun c =>
  if !plan.VALID_BOUNDS (c.ci + di) (c.cj + dj) then some plan
  else
    (plan.kernel_read p).bind fun v =>
    (plan.cell_read ncell).bind fun nc =>
    if v < nc.occ_dist_dyn then
      plan.cell_write ncell { nc with occ_dist_dyn := v }
    else some plan

/-- The two kernel loops of `set_obstacles` around the obstacle pointer `cell`, every
dereference checked. -/
def obstacle_splat_checked (plan : plan_t) (cell : Int) : Option plan_t :=
  let lo := Int.tdiv (-plan.dist_kernel_width) 2
  let hi := Int.tdiv plan.dist_kernel_width 2
  (forRangeOpt lo hi (fun dj (st : plan_t × Nat) =>
    let ncell0 := cell + lo + dj * st.1.size_x
    (forRangeOpt lo hi (fun di (st : plan_t × Nat × Int) =>
        (obstacle_relax_checked st.1 cell di dj st.2.1 st.2.2).map fun q =>
          (q, st.2.1 + 1, st.2.2 + 1))
      (st.1, st.2, ncell0)).map fun r => (r.1, r.2.1)) (plan, 0)).map Prod.fst

/-- One iteration of the obstacle loop of `set_obstacles`, every dereference of a cell or
kernel pointer checked. -/
def obstacle_point_checked (plan : plan_t) (x y : ℚ) : Option plan_t :=
  let gx := plan.GXWX x
  let gy := plan.GYWY y
  if !plan.VALID gx gy then some plan
  else
    let cell := plan.INDEX gx gy
    (plan.cell_read cell).bind fun c =>
    if c.mark then some plan
    else
      let c1 : plan_cell_t :=
        { c with mark := true, occ_state_dyn := 1, occ_dist_dyn := Distance.zero }
      (plan.cell_write cell c1).bind fun q => obstacle_splat_checked q cell

/-- The function `plan_t::set_obstacles`, every dereference of a cell or kernel pointer
checked. -/
def plan_t.set_obstacles_checked (plan : plan_t) (obs : List ℚ) (num : Nat) : Option plan_t :=
  (List.range num).foldl (fun plan i => plan.bind fun q =>
    obstacle_point_checked q (obs.getD (2 * i) 0) (obs.getD (2 * i + 1) 0))
    (reset_dyn_checked plan)

/-! ## What the splat loops keep -/

/-- The planner `q` is `p` with other cell contents: the same number of cells, each with
the `ci`, `cj` it has in `p`. -/
def SameGrid (p q : plan_t) : Prop :=
  ∃ c', q = { p with cells := c' } ∧ c'.length = p.cells.length ∧
    ∀ k : Int, (cellAt c' k).ci = (cellAt p.cells k).ci ∧
      (cellAt c' k).cj = (cellAt p.cells k).cj

/-! # Theorems -/

/-! ## Loop reasoning -/

theorem mem_loopFrom (n : Nat) : ∀ (lo d : Int), d ∈ loopFrom lo n ↔ lo ≤ d ∧ d < lo + n := by
  induction n with
  | zero => intro lo d; simp [loopFrom]
  | succ n ih =>
    intro lo d
    simp only [loopFrom, List.mem_cons, ih]
    push_cast
    omega

theorem mem_loopRange (lo hi d : Int) : d ∈ loopRange lo hi ↔ lo ≤ d ∧ d ≤ hi := by
  unfold loopRange
  rw [mem_loopFrom]
  omega

/-- Loop-invariant rule for `for (d = lo; ...; d++)` running `n` times: an invariant indexed
by the number of completed iterations. -/
theorem loopFrom_foldl_inv {σ : Type} (body : Int → σ → σ) (n : Nat) :
    ∀ (Inv : Nat → σ → Prop) (lo : Int) (s : σ), Inv 0 s →
      (∀ a : Nat, a < n → ∀ s, Inv a s → Inv (a + 1) (body (lo + a) s)) →
      Inv n ((loopFrom lo n).foldl (fun s d => body d s) s) := by
  induction n with
  | zero => intro Inv lo s h0 _; simpa [loopFrom] using h0
  | succ n ih =>
    intro Inv lo s h0 hstep
    simp only [loopFrom, List.foldl_cons]
    apply ih (fun a s => Inv (a + 1) s) (lo + 1) (body lo s)
    · have := hstep 0 (Nat.succ_pos n) s h0
      simpa using this
    · intro a ha s hs
      have := hstep (a + 1) (Nat.succ_lt_succ ha) s hs
      have e : lo + ((a + 1 : Nat) : Int) = lo + 1 + (a : Int) := by push_cast; ring
      rw [e] at this
      exact this

theorem forRange_inv {σ : Type} (lo hi : Int) (body : Int → σ → σ) (Inv : Nat → σ → Prop)
    (s : σ) (h0 : Inv 0 s)
    (hstep : ∀ a : Nat, a < (hi + 1 - lo).toNat → ∀ s, Inv a s → Inv (a + 1) (body (lo + a) s)) :
    Inv (hi + 1 - lo).toNat (forRange lo hi body s) :=
  loopFrom_foldl_inv body _ Inv lo s h0 hstep

/-! ## Cell access -/

theorem cellAt_of_nat (cells : List plan_cell_t) (k : Nat) (h : k < cells.length) :
    cellAt cells k = cells[k] := by
  simp [cellAt, List.getD_eq_getElem?_getD, List.getElem?_eq_getElem h]

theorem length_setCellAt (cells : List plan_cell_t) (k : Int) (c : plan_cell_t) :
    (setCellAt cells k c).length = cells.length := by
  unfold setCellAt
  split <;> simp

theorem cellAt_setCellAt_same (cells : List plan_cell_t) (k : Int) (c : plan_cell_t)
    (h0 : 0 ≤ k) (h1 : k < cells.length) : cellAt (setCellAt cells k c) k = c := by
  have h2 : k.toNat < cells.length := by omega
  simp [cellAt, setCellAt, h0, List.getD_eq_getElem?_getD, List.getElem?_set, h2]

theorem cellAt_setCellAt_ne (cells : List plan_cell_t) (k k' : Int) (c : plan_cell_t)
    (h : k ≠ k') : cellAt (setCellAt cells k c) k' = cellAt cells k' := by
  unfold cellAt setCellAt
  by_cases h0 : 0 ≤ k <;> by_cases h1 : 0 ≤ k' <;> simp [h0, h1]
  have : k.toNat ≠ k'.toNat := by omega
  simp [List.getD_eq_getElem?_getD, List.getElem?_set, this]

theorem setCellAt_out_of_range (cells : List plan_cell_t) (k : Int) (c : plan_cell_t)
    (h : ¬ (0 ≤ k ∧ k < cells.length)) : setCellAt cells k c = cells := by
  unfold setCellAt
  split
  · apply List.set_eq_of_length_le
    omega
  · rfl

theorem setCellAt_cellAt (cells : List plan_cell_t) (k : Int) :
    setCellAt cells k (cellAt cells k) = cells := by
  by_cases h : 0 ≤ k ∧ k < cells.length
  · apply List.ext_getElem (length_setCellAt _ _ _)
    intro n h1 h2
    have h3 : n < cells.length := by rw [length_setCellAt] at h1; exact h1
    have e1 := cellAt_of_nat _ n h1
    have e2 := cellAt_of_nat _ n h3
    rw [← e1, ← e2]
    by_cases hk : k = n
    · rw [← hk, cellAt_setCellAt_same _ _ _ h.1 h.2]
    · rw [cellAt_setCellAt_ne _ _ _ _ hk]
  · exact setCellAt_out_of_range _ _ _ h

/-- Two cell arrays of the same length that agree at every valid pointer are equal. -/
theorem cells_ext (c c' : List plan_cell_t) (hl : c'.length = c.length)
    (h : ∀ k : Int, 0 ≤ k → k < c.length → cellAt c' k = cellAt c k) : c' = c := by
  apply List.ext_getElem hl
  intro n h1 h2
  have := h n (by omega) (by exact_mod_cast h2)
  rw [cellAt_of_nat _ n h1, cellAt_of_nat _ n h2] at this
  exact this

/-! ## Min-combine: the static layer -/

theorem IsMinOf.le {m a : Distance} {S : Distance → Prop} (h : IsMinOf m a S) : m ≤ a :=
  ((h m).1 le_rfl).1

theorem IsMinOf.le_of {m a : Distance} {S : Distance → Prop} (h : IsMinOf m a S) {v : Distance}
    (hv : S v) : m ≤ v :=
  ((h m).1 le_rfl).2 v hv

theorem IsMinOf.unique_min {m m' a : Distance} {S S' : Distance → Prop} (h : IsMinOf m a S)
    (h' : IsMinOf m' a S') (hS : ∀ v, S v ↔ S' v) : m = m' := by
  apply le_antisymm
  · rw [h' m]
    exact ⟨h.le, fun v hv => h.le_of ((hS v).2 hv)⟩
  · rw [h m']
    exact ⟨h'.le, fun v hv => h'.le_of ((hS v).1 hv)⟩

theorem IsMinOf.refl_min (a : Distance) : IsMinOf a a (fun _ => False) := by
  intro x; simp

theorem IsMinOf.single (a v : Distance) : IsMinOf (min a v) a (fun u => u = v) := by
  intro x; simp [le_min_iff]

theorem IsMinOf.trans_min {m1 m2 a : Distance} {S1 S2 S : Distance → Prop} (h1 : IsMinOf m1 a S1)
    (h2 : IsMinOf m2 m1 S2) (hS : ∀ v, S v ↔ S1 v ∨ S2 v) : IsMinOf m2 a S := by
  intro x
  rw [h2 x, h1 x]
  constructor
  · rintro ⟨⟨ha, hs1⟩, hs2⟩
    refine ⟨ha, fun v hv => ?_⟩
    rcases (hS v).1 hv with h | h
    · exact hs1 v h
    · exact hs2 v h
  · rintro ⟨ha, hs⟩
    exact ⟨⟨ha, fun v hv => hs v ((hS v).2 (Or.inl hv))⟩, fun v hv => hs v ((hS v).2 (Or.inr hv))⟩

theorem relaxCell_occ_dist (c : plan_cell_t) (m : Distance) (h : m ≤ c.occ_dist) :
    (relaxCell c m).occ_dist = m := by
  unfold relaxCell
  split
  · rfl
  · exact le_antisymm (not_lt.1 ‹_›) h

theorem relaxCell_self (c : plan_cell_t) : relaxCell c c.occ_dist = c := by
  simp [relaxCell]

theorem relaxCell_relaxCell (c : plan_cell_t) (m1 m2 : Distance) (h1 : m1 ≤ c.occ_dist)
    (h2 : m2 ≤ m1) : relaxCell (relaxCell c m1) m2 = relaxCell c m2 := by
  rcases lt_or_eq_of_le h1 with h | h
  · rcases lt_or_eq_of_le h2 with h' | h'
    · simp [relaxCell, h, h', lt_trans h' h]
    · subst h'
      simp [relaxCell, h]
  · subst h
    rw [relaxCell_self]

theorem CellsRelaxed.refl_cells (c : List plan_cell_t) : CellsRelaxed (fun _ _ => False) c c :=
  ⟨rfl, fun _ _ _ => ⟨_, IsMinOf.refl_min _, (relaxCell_self _).symm⟩⟩

theorem CellsRelaxed.trans_cells {R1 R2 R : Int → Distance → Prop} {c c' c'' : List plan_cell_t}
    (h1 : CellsRelaxed R1 c c') (h2 : CellsRelaxed R2 c' c'')
    (hR : ∀ k v, R k v ↔ R1 k v ∨ R2 k v) : CellsRelaxed R c c'' := by
  refine ⟨h2.length_eq.trans h1.length_eq, fun k hk0 hk1 => ?_⟩
  obtain ⟨m1, hm1, e1⟩ := h1.cell k hk0 hk1
  obtain ⟨m2, hm2, e2⟩ := h2.cell k hk0 (by rw [h1.length_eq]; exact hk1)
  rw [e1, relaxCell_occ_dist _ _ hm1.le] at hm2
  refine ⟨m2, hm1.trans_min hm2 (hR k), ?_⟩
  rw [e2, e1, relaxCell_relaxCell _ _ _ hm1.le hm2.le]

theorem CellsRelaxed.congr_cells {R R' : Int → Distance → Prop} {c c' : List plan_cell_t}
    (h : CellsRelaxed R c c') (hR : ∀ k v, R' k v ↔ R k v) : CellsRelaxed R' c c' := by
  exact CellsRelaxed.trans_cells h (CellsRelaxed.refl_cells c') (by simpa using hR)

/-- The relaxed array is determined by the set of values combined into each cell. -/
theorem CellsRelaxed.unique_cells {R R' : Int → Distance → Prop} {c c' c'' : List plan_cell_t}
    (h1 : CellsRelaxed R c c') (h2 : CellsRelaxed R' c c'')
    (hR : ∀ (k : Int) (v : Distance), 0 ≤ k → k < c.length → (R k v ↔ R' k v)) : c' = c'' := by
  apply cells_ext _ _ (h1.length_eq.trans h2.length_eq.symm)
  intro k hk0 hk1
  rw [h2.length_eq] at hk1
  obtain ⟨m1, hm1, e1⟩ := h1.cell k hk0 hk1
  obtain ⟨m2, hm2, e2⟩ := h2.cell k hk0 hk1
  rw [e1, e2, hm1.unique_min hm2 (fun v => hR k v hk0 hk1)]

/-- One guarded min-combine through the pointer `k`. -/
theorem CellsRelaxed.step (c : List plan_cell_t) (k : Int) (v : Distance) :
    CellsRelaxed (fun k' v' => k' = k ∧ v' = v) c
      (if v < (cellAt c k).occ_dist then
        setCellAt c k { cellAt c k with occ_dist := v, occ_dist_dyn := v } else c) := by
  constructor
  · split
    · exact length_setCellAt _ _ _
    · rfl
  · intro k' hk0 hk1
    by_cases hk : k' = k
    · subst hk
      refine ⟨min (cellAt c k').occ_dist v, ?_, ?_⟩
      · intro x; simp [le_min_iff]
      · by_cases hv : v < (cellAt c k').occ_dist
        · simp only [hv, if_true]
          rw [cellAt_setCellAt_same _ _ _ hk0 hk1, min_eq_right (le_of_lt hv)]
          simp [relaxCell, hv]
        · simp only [hv, if_false]
          rw [min_eq_left (not_lt.1 hv), relaxCell_self]
    · refine ⟨(cellAt c k').occ_dist, ?_, ?_⟩
      · intro x; simp [hk]
      · rw [relaxCell_self]
        split
        · exact cellAt_setCellAt_ne _ _ _ _ (Ne.symm hk)
        · rfl

theorem PlanRelaxed.refl_plan (p : plan_t) : PlanRelaxed (fun _ _ => False) p p :=
  ⟨p.cells, rfl, CellsRelaxed.refl_cells _⟩

theorem PlanRelaxed.trans_plan {R1 R2 R : Int → Distance → Prop} {p p' p'' : plan_t}
    (h1 : PlanRelaxed R1 p p') (h2 : PlanRelaxed R2 p' p'')
    (hR : ∀ k v, R k v ↔ R1 k v ∨ R2 k v) : PlanRelaxed R p p'' := by
  obtain ⟨c1, rfl, hc1⟩ := h1
  obtain ⟨c2, rfl, hc2⟩ := h2
  exact ⟨c2, rfl, hc1.trans_cells hc2 hR⟩

theorem PlanRelaxed.congr_plan {R R' : Int → Distance → Prop} {p p' : plan_t}
    (h : PlanRelaxed R p p') (hR : ∀ k v, R' k v ↔ R k v) : PlanRelaxed R' p p' := by
  obtain ⟨c1, rfl, hc1⟩ := h
  exact ⟨c1, rfl, hc1.congr_cells hR⟩

/-! ## The kernel loops of `compute_cspace` -/

theorem cspace_relax_relaxed (p : plan_t) (i j di dj : Int) (pk : Nat) (nc : Int) :
    PlanRelaxed (fun k v => p.VALID_BOUNDS (i + di) (j + dj) = true ∧ k = nc ∧
        v = p.dist_kernel.getD pk default) p (cspace_relax p i j di dj pk nc) := by
  unfold cspace_relax
  by_cases hb : p.VALID_BOUNDS (i + di) (j + dj) = true
  · simp only [hb, Bool.not_true, Bool.false_eq_true, if_false, true_and]
    refine ⟨_, ?_, CellsRelaxed.step p.cells nc (p.dist_kernel.getD pk default)⟩
    split <;> rfl
  · simp only [hb, Bool.not_eq_true] at hb ⊢
    simp only [hb, Bool.not_false, if_true]
    exact (PlanRelaxed.refl_plan p).congr_plan (by simp)

theorem cspace_row (p0 : plan_t) (i j dj lo hi : Int) (pk0 : Nat) (nc0 : Int) :
    let r := forRange lo hi (fun di (st : plan_t × Nat × Int) =>
        (cspace_relax st.1 i j di dj st.2.1 st.2.2, st.2.1 + 1, st.2.2 + 1)) (p0, pk0, nc0)
    r.2.1 = pk0 + (hi + 1 - lo).toNat ∧
      PlanRelaxed (RowOps p0 i j dj lo (hi + 1 - lo).toNat pk0 nc0) p0 r.1 := by
  intro r
  have key := forRange_inv lo hi (fun di (st : plan_t × Nat × Int) =>
        (cspace_relax st.1 i j di dj st.2.1 st.2.2, st.2.1 + 1, st.2.2 + 1))
    (fun a st => st.2.1 = pk0 + a ∧ st.2.2 = nc0 + a ∧
      PlanRelaxed (RowOps p0 i j dj lo a pk0 nc0) p0 st.1) (p0, pk0, nc0)
    ⟨rfl, by simp, (PlanRelaxed.refl_plan p0).congr_plan (by simp [RowOps])⟩
    (by
      rintro a _ ⟨p, pk, nc⟩ ⟨h1, h2, h3⟩
      simp only at h1 h2 h3 ⊢
      subst h1 h2
      refine ⟨by omega, by push_cast; ring, ?_⟩
      have hs := cspace_relax_relaxed p i j (lo + a) dj (pk0 + a) (nc0 + a)
      obtain ⟨c, rfl, hc⟩ := h3
      refine PlanRelaxed.trans_plan ⟨c, rfl, hc⟩ hs ?_
      intro k v
      simp only [RowOps, plan_t.VALID_BOUNDS]
      constructor
      · rintro ⟨a', ha', hb, hk, hv⟩
        rcases Nat.lt_succ_iff_lt_or_eq.1 ha' with h | h
        · exact Or.inl ⟨a', h, hb, hk, hv⟩
        · subst h; exact Or.inr ⟨hb, hk, hv⟩
      · rintro (⟨a', ha', hb, hk, hv⟩ | ⟨hb, hk, hv⟩)
        · exact ⟨a', Nat.lt_succ_of_lt ha', hb, hk, hv⟩
        · exact ⟨a, Nat.lt_succ_self a, hb, hk, hv⟩)
  exact ⟨key.1, key.2.2⟩

theorem cspace_splat_relaxed (p0 : plan_t) (i j cell : Int) :
    PlanRelaxed (SplatOps p0 i j cell) p0 (cspace_splat p0 i j cell) := by
  unfold cspace_splat
  generalize hlo : Int.tdiv (-p0.dist_kernel_width) 2 = lo
  generalize hhi : Int.tdiv p0.dist_kernel_width 2 = hi
  simp only
  have key := forRange_inv lo hi (fun dj (st : plan_t × Nat) =>
      ((forRange lo hi (fun di (st : plan_t × Nat × Int) =>
        (cspace_relax st.1 i j di dj st.2.1 st.2.2, st.2.1 + 1, st.2.2 + 1))
        (st.1, st.2, cell + lo + dj * st.1.size_x)).1,
       (forRange lo hi (fun di (st : plan_t × Nat × Int) =>
        (cspace_relax st.1 i j di dj st.2.1 st.2.2, st.2.1 + 1, st.2.2 + 1))
        (st.1, st.2, cell + lo + dj * st.1.size_x)).2.1))
    (fun b st => st.2 = b * (hi + 1 - lo).toNat ∧
      PlanRelaxed (fun k v => ∃ b' a : Nat, b' < b ∧ a < (hi + 1 - lo).toNat ∧
        p0.VALID_BOUNDS (i + (lo + a)) (j + (lo + b')) = true ∧
        k = cell + lo + (lo + b') * p0.size_x + a ∧
        v = p0.dist_kernel.getD (b' * (hi + 1 - lo).toNat + a) default) p0 st.1) (p0, 0)
    ⟨by simp, (PlanRelaxed.refl_plan p0).congr_plan (by simp)⟩
    (by
      rintro b _ ⟨p, pk⟩ ⟨h1, h2⟩
      simp only at h1 h2 ⊢
      subst h1
      obtain ⟨hr1, hr2⟩ := cspace_row p i j (lo + b) lo hi (b * (hi + 1 - lo).toNat)
        (cell + lo + (lo + b) * p.size_x)
      refine ⟨by rw [hr1]; ring, ?_⟩
      obtain ⟨c, rfl, hc⟩ := h2
      refine PlanRelaxed.trans_plan ⟨c, rfl, hc⟩ hr2 ?_
      intro k v
      simp only [RowOps, plan_t.VALID_BOUNDS]
      constructor
      · rintro ⟨b', a', hb', ha', hb, hk, hv⟩
        rcases Nat.lt_succ_iff_lt_or_eq.1 hb' with h | h
        · exact Or.inl ⟨b', a', h, ha', hb, hk, hv⟩
        · subst h; exact Or.inr ⟨a', ha', hb, hk, hv⟩
      · rintro (⟨b', a', hb', ha', hb, hk, hv⟩ | ⟨a', ha', hb, hk, hv⟩)
        · exact ⟨b', a', Nat.lt_succ_of_lt hb', ha', hb, hk, hv⟩
        · exact ⟨b, a', Nat.lt_succ_self b, ha', hb, hk, hv⟩)
  refine key.2.congr_plan ?_
  intro k v
  simp only [SplatOps, hlo, hhi]

/-! ## The source loops of `compute_cspace` -/

theorem relaxCell_occ_state (c : plan_cell_t) (m : Distance) :
    (relaxCell c m).occ_state = c.occ_state := by
  unfold relaxCell; split <;> rfl

theorem cellAt_out_of_range (c : List plan_cell_t) (k : Int) (h : ¬ (0 ≤ k ∧ k < c.length)) :
    cellAt c k = default := by
  unfold cellAt
  split
  · apply List.getD_eq_default
    omega
  · rfl

theorem CellsRelaxed.occ_state {R : Int → Distance → Prop} {c c' : List plan_cell_t}
    (h : CellsRelaxed R c c') (k : Int) :
    (cellAt c' k).occ_state = (cellAt c k).occ_state := by
  by_cases hk : 0 ≤ k ∧ k < c.length
  · obtain ⟨m, _, e⟩ := h.cell k hk.1 hk.2
    rw [e, relaxCell_occ_state]
  · rw [cellAt_out_of_range _ _ hk, cellAt_out_of_range _ _ (by rw [h.length_eq]; exact hk)]

theorem cspace_source_row (p0 : plan_t) (j lo hi cell0 : Int) :
    PlanRelaxed (SourceRowOps p0 j lo (hi + 1 - lo).toNat cell0) p0
      (forRange lo hi (fun i (st : plan_t × Int) =>
        if (cellAt st.1.cells st.2).occ_state < 0 then (st.1, st.2 + 1)
        else (cspace_splat st.1 i j st.2, st.2 + 1)) (p0, cell0)).1 := by
  have key := forRange_inv lo hi (fun i (st : plan_t × Int) =>
        if (cellAt st.1.cells st.2).occ_state < 0 then (st.1, st.2 + 1)
        else (cspace_splat st.1 i j st.2, st.2 + 1))
    (fun a st => st.2 = cell0 + a ∧ PlanRelaxed (SourceRowOps p0 j lo a cell0) p0 st.1)
    (p0, cell0) ⟨by simp, (PlanRelaxed.refl_plan p0).congr_plan (by simp [SourceRowOps])⟩
    (by
      rintro a _ ⟨p, cell⟩ ⟨h1, h2⟩
      simp only at h1 h2 ⊢
      subst h1
      obtain ⟨c, rfl, hc⟩ := h2
      have hocc := hc.occ_state (cell0 + a)
      simp only [hocc]
      have hsplit : ∀ k v, SourceRowOps p0 j lo (a + 1) cell0 k v ↔
          SourceRowOps p0 j lo a cell0 k v ∨
            (¬ (cellAt p0.cells (cell0 + a)).occ_state < 0 ∧
              SplatOps p0 (lo + a) j (cell0 + a) k v) := by
        intro k v
        simp only [SourceRowOps]
        constructor
        · rintro ⟨a', ha', ho, hs⟩
          rcases Nat.lt_succ_iff_lt_or_eq.1 ha' with h | h
          · exact Or.inl ⟨a', h, ho, hs⟩
          · subst h; exact Or.inr ⟨ho, hs⟩
        · rintro (⟨a', ha', ho, hs⟩ | ⟨ho, hs⟩)
          · exact ⟨a', Nat.lt_succ_of_lt ha', ho, hs⟩
          · exact ⟨a, Nat.lt_succ_self a, ho, hs⟩
      by_cases ho : (cellAt p0.cells (cell0 + a)).occ_state < 0
      · simp only [ho, if_true]
        refine ⟨by push_cast; ring, ?_⟩
        refine PlanRelaxed.congr_plan ⟨c, rfl, hc⟩ ?_
        intro k v
        rw [hsplit]
        simp [ho]
      · simp only [ho, if_false]
        refine ⟨by push_cast; ring, ?_⟩
        have hs := cspace_splat_relaxed { p0 with cells := c } (lo + a) j (cell0 + a)
        refine PlanRelaxed.trans_plan ⟨c, rfl, hc⟩ hs ?_
        intro k v
        rw [hsplit]
        simp only [ho, not_false_eq_true, true_and]
        rfl)
  exact key.2

theorem compute_cspace_relaxed (p0 : plan_t) :
    PlanRelaxed (CspaceOps p0) p0 p0.compute_cspace := by
  unfold plan_t.compute_cspace
  have key := forRange_inv p0.min_y p0.max_y (fun j plan =>
    (forRange plan.min_x plan.max_x (fun i (st : plan_t × Int) =>
      if (cellAt st.1.cells st.2).occ_state < 0 then (st.1, st.2 + 1)
      else (cspace_splat st.1 i j st.2, st.2 + 1)) (plan, plan.INDEX 0 j)).1)
    (fun b p => PlanRelaxed (fun k v => ∃ b' : Nat, b' < b ∧
      SourceRowOps p0 (p0.min_y + b') p0.min_x (p0.max_x + 1 - p0.min_x).toNat
        (p0.INDEX 0 (p0.min_y + b')) k v) p0 p) p0
    ((PlanRelaxed.refl_plan p0).congr_plan (by simp))
    (by
      intro b _ p h
      simp only at h ⊢
      obtain ⟨c, rfl, hc⟩ := h
      have hs := cspace_source_row { p0 with cells := c } (p0.min_y + b) p0.min_x p0.max_x
        (p0.INDEX 0 (p0.min_y + b))
      refine PlanRelaxed.trans_plan ⟨c, rfl, hc⟩ hs ?_
      intro k v
      have hrow : SourceRowOps { p0 with cells := c } (p0.min_y + b) p0.min_x
          (p0.max_x + 1 - p0.min_x).toNat (p0.INDEX 0 (p0.min_y + b)) k v ↔
          SourceRowOps p0 (p0.min_y + b) p0.min_x
          (p0.max_x + 1 - p0.min_x).toNat (p0.INDEX 0 (p0.min_y + b)) k v := by
        simp only [SourceRowOps, hc.occ_state]
        rfl
      rw [hrow]
      constructor
      · rintro ⟨b', hb', hr⟩
        rcases Nat.lt_succ_iff_lt_or_eq.1 hb' with h | h
        · exact Or.inl ⟨b', h, hr⟩
        · subst h; exact Or.inr hr
      · rintro (⟨b', hb', hr⟩ | hr)
        · exact ⟨b', Nat.lt_succ_of_lt hb', hr⟩
        · exact ⟨b, Nat.lt_succ_self b, hr⟩)
  exact key

theorem PlanRelaxed.unique_plan {R R' : Int → Distance → Prop} {p p' p'' : plan_t}
    (h1 : PlanRelaxed R p p') (h2 : PlanRelaxed R' p p'')
    (hR : ∀ (k : Int) (v : Distance), 0 ≤ k → k < p.cells.length → (R k v ↔ R' k v)) :
    p' = p'' := by
  obtain ⟨c1, rfl, hc1⟩ := h1
  obtain ⟨c2, rfl, hc2⟩ := h2
  rw [hc1.unique_cells hc2 hR]

/-- The set of writes of `compute_cspace` depends on the cells only through `occ_state`. -/
theorem CspaceOps_congr (p : plan_t) (c : List plan_cell_t)
    (h : ∀ k, (cellAt c k).occ_state = (cellAt p.cells k).occ_state) (k : Int) (v : Distance) :
    CspaceOps { p with cells := c } k v ↔ CspaceOps p k v := by
  simp only [CspaceOps, SourceRowOps, h]
  rfl

theorem foldl_splat_relaxed (l : List (Int × Int × Int)) : ∀ q : plan_t,
    PlanRelaxed (fun k v => ∃ s ∈ l, SplatOps q s.1 s.2.1 s.2.2 k v) q
      (l.foldl (fun q s => cspace_splat q s.1 s.2.1 s.2.2) q) := by
  induction l with
  | nil => intro q; exact (PlanRelaxed.refl_plan q).congr_plan (by simp)
  | cons s l ih =>
    intro q
    simp only [List.foldl_cons]
    have h1 := cspace_splat_relaxed q s.1 s.2.1 s.2.2
    have h2 := ih (cspace_splat q s.1 s.2.1 s.2.2)
    obtain ⟨c, hc, hc'⟩ := h1
    rw [hc] at h2 ⊢
    refine PlanRelaxed.trans_plan ⟨c, rfl, hc'⟩ h2 ?_
    intro k v
    simp only [List.mem_cons, exists_eq_or_imp]
    rfl

theorem foldl_splat_perm (q : plan_t) (l1 l2 : List (Int × Int × Int)) (h : l1.Perm l2) :
    l1.foldl (fun q s => cspace_splat q s.1 s.2.1 s.2.2) q =
      l2.foldl (fun q s => cspace_splat q s.1 s.2.1 s.2.2) q := by
  apply (foldl_splat_relaxed l1 q).unique_plan (foldl_splat_relaxed l2 q)
  intro k v _ _
  simp only [h.mem_iff]

theorem mem_cspace_sources (p : plan_t) (s : Int × Int × Int) :
    s ∈ cspace_sources p ↔ ∃ b a : Nat, b < (p.max_y + 1 - p.min_y).toNat ∧
      a < (p.max_x + 1 - p.min_x).toNat ∧
      ¬ (cellAt p.cells (p.INDEX 0 (p.min_y + b) + a)).occ_state < 0 ∧
      s = (p.min_x + a, p.min_y + b, p.INDEX 0 (p.min_y + b) + a) := by
  simp only [cspace_sources, List.mem_flatMap, List.mem_filterMap, mem_loopRange, mem_loopFrom]
  constructor
  · rintro ⟨j, ⟨hj0, hj1⟩, a, ⟨ha0, ha1⟩, hs⟩
    have e1 : p.min_y + ((j - p.min_y).toNat : Int) = j := by omega
    have e2 : ((a.toNat : Nat) : Int) = a := by omega
    refine ⟨(j - p.min_y).toNat, a.toNat, by omega, by omega, ?_⟩
    rw [e1, e2]
    by_cases ho : (cellAt p.cells (p.INDEX 0 j + a)).occ_state < 0
    · simp [ho] at hs
    · simp only [ho, if_false, Option.some.injEq] at hs
      exact ⟨ho, hs.symm⟩
  · rintro ⟨b, a, hb, ha, ho, rfl⟩
    refine ⟨p.min_y + b, by omega, a, by omega, ?_⟩
    simp [ho]

theorem compute_cspace_eq_foldl (p : plan_t) :
    p.compute_cspace =
      (cspace_sources p).foldl (fun q s => cspace_splat q s.1 s.2.1 s.2.2) p := by
  apply (compute_cspace_relaxed p).unique_plan (foldl_splat_relaxed (cspace_sources p) p)
  intro k v _ _
  simp only [CspaceOps, SourceRowOps, mem_cspace_sources]
  constructor
  · rintro ⟨b, hb, a, ha, ho, hs⟩
    exact ⟨_, ⟨b, a, hb, ha, ho, rfl⟩, hs⟩
  · rintro ⟨s, ⟨b, a, hb, ha, ho, rfl⟩, hs⟩
    exact ⟨b, hb, a, ha, ho, hs⟩

/-! ## The distance kernel -/

theorem getD_set_dist (l : List Distance) (p idx : Nat) (v : Distance) :
    (l.set p v).getD idx default = if p = idx ∧ p < l.length then v else l.getD idx default := by
  simp only [List.getD_eq_getElem?_getD, List.getElem?_set]
  by_cases h : p = idx
  · subst h
    by_cases h2 : p < l.length
    · simp [h2]
    · simp [h2, List.getElem?_eq_none (not_lt.1 h2)]
  · simp [h]

theorem fill_row (lo hi j : Int) (scale : ℚ) (buf : List Distance) (pk0 : Nat) :
    let r := forRange lo hi (fun i (st : List Distance × Nat) =>
      (st.1.set st.2 (Distance.hypot_scaled i j scale), st.2 + 1)) (buf, pk0)
    r.2 = pk0 + (hi + 1 - lo).toNat ∧ r.1.length = buf.length ∧
      ∀ idx, r.1.getD idx default =
        if pk0 ≤ idx ∧ idx < pk0 + (hi + 1 - lo).toNat ∧ idx < buf.length then
          Distance.hypot_scaled (lo + ((idx - pk0 : Nat) : Int)) j scale
        else buf.getD idx default := by
  intro r
  exact forRange_inv lo hi (fun i (st : List Distance × Nat) =>
      (st.1.set st.2 (Distance.hypot_scaled i j scale), st.2 + 1))
    (fun a st => st.2 = pk0 + a ∧ st.1.length = buf.length ∧
      ∀ idx, st.1.getD idx default =
        if pk0 ≤ idx ∧ idx < pk0 + a ∧ idx < buf.length then
          Distance.hypot_scaled (lo + ((idx - pk0 : Nat) : Int)) j scale
        else buf.getD idx default) (buf, pk0)
    ⟨rfl, rfl, fun idx => by
      have : ¬ (pk0 ≤ idx ∧ idx < pk0 + 0 ∧ idx < buf.length) := by omega
      simp only [this, if_false]⟩
    (by
      rintro a _ ⟨l, pk⟩ ⟨h1, h2, h3⟩
      simp only at h1 h2 h3 ⊢
      subst h1
      refine ⟨by omega, by simp [h2], fun idx => ?_⟩
      rw [getD_set_dist, h3 idx, h2]
      by_cases e : pk0 + a = idx
      · subst e
        by_cases hl : pk0 + a < buf.length
        · have c1 : pk0 ≤ pk0 + a ∧ pk0 + a < pk0 + (a + 1) ∧ pk0 + a < buf.length := by omega
          simp only [hl, and_self, if_true, c1]
          congr 2
          omega
        · have c1 : ¬ (pk0 ≤ pk0 + a ∧ pk0 + a < pk0 + (a + 1) ∧ pk0 + a < buf.length) := by
            omega
          have c2 : ¬ (pk0 ≤ pk0 + a ∧ pk0 + a < pk0 + a ∧ pk0 + a < buf.length) := by omega
          simp only [hl, and_false, if_false, c1, c2]
      · have c : (pk0 ≤ idx ∧ idx < pk0 + (a + 1) ∧ idx < buf.length) ↔
            (pk0 ≤ idx ∧ idx < pk0 + a ∧ idx < buf.length) := by omega
        simp only [e, false_and, if_false, c])

theorem fill_kernel_getD (lo hi : Int) (scale : ℚ) (buf : List Distance) (a b : Nat)
    (ha : a < (hi + 1 - lo).toNat) (hb : b < (hi + 1 - lo).toNat)
    (hlen : (hi + 1 - lo).toNat * (hi + 1 - lo).toNat ≤ buf.length) :
    (fill_kernel lo hi scale buf).getD (b * (hi + 1 - lo).toNat + a) default =
      Distance.hypot_scaled (lo + a) (lo + b) scale := by
  unfold fill_kernel
  generalize hn : (hi + 1 - lo).toNat = n at ha hb hlen ⊢
  have key := forRange_inv lo hi (fun j (st : List Distance × Nat) =>
      forRange lo hi (fun i (st : List Distance × Nat) =>
        (st.1.set st.2 (Distance.hypot_scaled i j scale), st.2 + 1)) st)
    (fun c st => st.2 = c * n ∧ st.1.length = buf.length ∧
      ∀ b' a' : Nat, b' < c → a' < n →
        st.1.getD (b' * n + a') default = Distance.hypot_scaled (lo + a') (lo + b') scale) (buf, 0)
    ⟨by simp, rfl, fun b' a' hb' => absurd hb' (Nat.not_lt_zero _)⟩
    (by
      rintro c hc ⟨l, pk⟩ ⟨h1, h2, h3⟩
      simp only at h1 h2 h3 ⊢
      subst h1
      obtain ⟨r1, r2, r3⟩ := fill_row lo hi (lo + c) scale l (c * n)
      rw [hn] at r1 r3 hc
      refine ⟨by rw [r1]; ring, r2.trans h2, fun b' a' hb' ha' => ?_⟩
      rw [r3]
      have hcn : c * n + n ≤ n * n := by
        have : (c + 1) * n ≤ n * n := Nat.mul_le_mul_right n hc
        linarith
      rcases Nat.lt_succ_iff_lt_or_eq.1 hb' with h | h
      · have hlt : b' * n + a' < c * n := by
          have : (b' + 1) * n ≤ c * n := Nat.mul_le_mul_right n h
          linarith
        have c1 : ¬ (c * n ≤ b' * n + a' ∧ b' * n + a' < c * n + n ∧ b' * n + a' < l.length) := by
          omega
        simp only [c1, if_false]
        exact h3 b' a' h ha'
      · subst h
        have c1 : b' * n ≤ b' * n + a' ∧ b' * n + a' < b' * n + n ∧ b' * n + a' < l.length := by
          omega
        simp only [c1, and_self, if_true]
        congr 2
        omega)
  rw [hn] at key
  exact key.2.2 b a hb ha

theorem tdiv_neg_odd (c : Int) (h : 0 ≤ c) : Int.tdiv (-(1 + 2 * c)) 2 = -c := by
  rw [Int.neg_tdiv, Int.tdiv_eq_ediv (by omega) (by omega)]; omega

theorem tdiv_odd (c : Int) (h : 0 ≤ c) : Int.tdiv (1 + 2 * c) 2 = c := by
  rw [Int.tdiv_eq_ediv (by omega) (by omega)]; omega

theorem ceil_radius_nonneg (p : plan_t) (hr : 0 ≤ p.max_radius) (hs : 0 < p.scale) :
    0 ≤ ⌈p.max_radius / p.scale⌉ :=
  Int.ceil_nonneg (div_nonneg hr (le_of_lt hs))

/-- With `max_radius >= 0` and `scale > 0` the built kernel has half-width
`c = ceil(max_radius / scale)` and holds `hypot(di, dj) * scale` at row `dj + c`,
column `di + c`. -/
theorem kernel_built_getD (p : plan_t) (hk : KernelBuilt p) (hr : 0 ≤ p.max_radius)
    (hs : 0 < p.scale) (a b : Nat) (ha : (a : Int) < 1 + 2 * ⌈p.max_radius / p.scale⌉)
    (hb : (b : Int) < 1 + 2 * ⌈p.max_radius / p.scale⌉) :
    p.dist_kernel.getD (b * (1 + 2 * ⌈p.max_radius / p.scale⌉).toNat + a) default =
      Distance.hypot_scaled (-⌈p.max_radius / p.scale⌉ + a) (-⌈p.max_radius / p.scale⌉ + b)
        p.scale := by
  have hc := ceil_radius_nonneg p hr hs
  rw [hk.2]
  simp only [plan_t.compute_dist_kernel]
  generalize ⌈p.max_radius / p.scale⌉ = c at *
  rw [tdiv_neg_odd c hc, tdiv_odd c hc]
  have hn : (c + 1 - -c).toNat = (1 + 2 * c).toNat := by congr 1; ring
  have := fill_kernel_getD (-c) c p.scale
    (List.replicate ((1 + 2 * c) * (1 + 2 * c)).toNat default) a b (by omega) (by omega)
    (by
      rw [List.length_replicate, hn]
      apply le_of_eq
      zify
      rw [Int.toNat_of_nonneg (by omega), Int.toNat_of_nonneg (by positivity)])
  rw [hn] at this
  exact this

/-! ## Static C-space on the full grid -/

theorem mem_grid_cells (p : plan_t) (s : Int × Int) :
    s ∈ grid_cells p ↔ (0 ≤ s.1 ∧ s.1 < p.size_x) ∧ (0 ≤ s.2 ∧ s.2 < p.size_y) := by
  rcases s with ⟨si, sj⟩
  simp only [grid_cells, List.mem_flatMap, List.mem_map, mem_loopRange, Prod.mk.injEq]
  constructor
  · rintro ⟨j, hj, i, hi, rfl, rfl⟩
    omega
  · rintro ⟨hi, hj⟩
    exact ⟨sj, by omega, si, by omega, rfl, rfl⟩

theorem foldl_min_isMinOf {α : Type} (f : α → Distance) (l : List α) : ∀ a : Distance,
    IsMinOf (l.foldl (fun acc s => min acc (f s)) a) a (fun v => ∃ s ∈ l, v = f s) := by
  induction l with
  | nil => intro a x; simp
  | cons s l ih =>
    intro a x
    simp only [List.foldl_cons]
    rw [ih (min a (f s)) x, le_min_iff]
    simp only [List.mem_cons, exists_eq_or_imp]
    constructor
    · rintro ⟨⟨h1, h2⟩, h3⟩
      refine ⟨h1, ?_⟩
      rintro v (rfl | h)
      · exact h2
      · exact h3 v h
    · rintro ⟨h1, h2⟩
      exact ⟨⟨h1, h2 _ (Or.inl rfl)⟩, fun v hv => h2 v (Or.inr hv)⟩

theorem index_inj (w x y x' y' : Int) (hx : 0 ≤ x ∧ x < w) (hx' : 0 ≤ x' ∧ x' < w)
    (h : x + y * w = x' + y' * w) : x = x' ∧ y = y' := by
  have hw : 0 < w := by omega
  have e1 : (x + y * w) % w = x := by
    rw [Int.add_mul_emod_self, Int.emod_eq_of_lt hx.1 hx.2]
  have e2 : (x' + y' * w) % w = x' := by
    rw [Int.add_mul_emod_self, Int.emod_eq_of_lt hx'.1 hx'.2]
  have hxx : x = x' := by rw [← e1, ← e2, h]
  subst hxx
  refine ⟨rfl, ?_⟩
  have : y * w = y' * w := by omega
  exact Int.eq_of_mul_eq_mul_right (by omega) this

theorem index_in_range (w h x y : Int) (hx : 0 ≤ x ∧ x < w) (hy : 0 ≤ y ∧ y < h) :
    0 ≤ x + y * w ∧ x + y * w < w * h := by
  have h1 : 0 ≤ y * w := mul_nonneg hy.1 (by omega)
  have h2 : y * w ≤ (h - 1) * w := mul_le_mul_of_nonneg_right (by omega) (by omega)
  constructor
  · omega
  · have : (h - 1) * w = w * h - w := by ring
    omega

theorem VALID_iff (p : plan_t) (i j : Int) :
    p.VALID i j = true ↔ (0 ≤ i ∧ i < p.size_x) ∧ (0 ≤ j ∧ j < p.size_y) := by
  simp [plan_t.VALID, and_assoc]

theorem VALID_BOUNDS_iff (p : plan_t) (i j : Int) :
    p.VALID_BOUNDS i j = true ↔ (p.min_x ≤ i ∧ i ≤ p.max_x) ∧ (p.min_y ≤ j ∧ j ≤ p.max_y) := by
  simp [plan_t.VALID_BOUNDS, and_assoc]

theorem kernel_width_built (p : plan_t) (hk : KernelBuilt p) :
    p.dist_kernel_width = 1 + 2 * ⌈p.max_radius / p.scale⌉ := hk.1

/-- With the kernel built and the bounds `(i0, j0, i1, j1)`, the writes of the kernel loops
around a source `(i, j)` with pointer `cell`, in terms of offsets `(di, dj)`. -/
theorem splatOps_built (p : plan_t) (hk : KernelBuilt p) (hr : 0 ≤ p.max_radius)
    (hs : 0 < p.scale) (i j cell k : Int) (v : Distance) :
    SplatOps p i j cell k v ↔ ∃ di dj : Int,
      (-⌈p.max_radius / p.scale⌉ ≤ di ∧ di ≤ ⌈p.max_radius / p.scale⌉) ∧
      (-⌈p.max_radius / p.scale⌉ ≤ dj ∧ dj ≤ ⌈p.max_radius / p.scale⌉) ∧
      p.VALID_BOUNDS (i + di) (j + dj) = true ∧ k = cell + di + dj * p.size_x ∧
      v = Distance.hypot_scaled di dj p.scale := by
  have hc := ceil_radius_nonneg p hr hs
  have hget := kernel_built_getD p hk hr hs
  simp only [SplatOps, kernel_width_built p hk]
  generalize ⌈p.max_radius / p.scale⌉ = c at *
  rw [tdiv_neg_odd c hc, tdiv_odd c hc]
  have hn : (c + 1 - -c).toNat = (1 + 2 * c).toNat := by congr 1; ring
  rw [hn]
  constructor
  · rintro ⟨b, a, hb, ha, hvb, hk', hv'⟩
    refine ⟨-c + a, -c + b, by omega, by omega, hvb, ?_, ?_⟩
    · rw [hk']; ring
    · rw [hv', hget a b (by omega) (by omega)]
  · rintro ⟨di, dj, hdi, hdj, hvb, hk', hv'⟩
    have e1 : -c + (((di + c).toNat : Nat) : Int) = di := by omega
    have e2 : -c + (((dj + c).toNat : Nat) : Int) = dj := by omega
    refine ⟨(dj + c).toNat, (di + c).toNat, by omega, by omega, ?_, ?_, ?_⟩
    · rw [e1, e2]; exact hvb
    · rw [e2, hk']
      have : (((di + c).toNat : Nat) : Int) = di + c := by omega
      rw [this]; ring
    · rw [hget _ _ (by omega) (by omega), e1, e2, hv']

theorem cspaceOps_full_grid (p : plan_t) (hs : 0 < p.scale) (hr : 0 ≤ p.max_radius)
    (hk : KernelBuilt p)
    (hb : p.min_x = 0 ∧ p.min_y = 0 ∧ p.max_x = p.size_x - 1 ∧ p.max_y = p.size_y - 1)
    (i j : Int) (hv : p.VALID i j = true) (v : Distance) :
    CspaceOps p (p.INDEX i j) v ↔
      ∃ s ∈ (grid_cells p).filter (fun s =>
        decide (0 ≤ (cellAt p.cells (p.INDEX s.1 s.2)).occ_state) &&
          decide (|i - s.1| ≤ Int.tdiv p.dist_kernel_width 2) &&
          decide (|j - s.2| ≤ Int.tdiv p.dist_kernel_width 2)),
        v = Distance.hypot_scaled (i - s.1) (j - s.2) p.scale := by
  have hc := ceil_radius_nonneg p hr hs
  obtain ⟨hb1, hb2, hb3, hb4⟩ := hb
  rw [VALID_iff] at hv
  simp only [CspaceOps, SourceRowOps, splatOps_built p hk hr hs, VALID_BOUNDS_iff,
    List.mem_filter, mem_grid_cells, kernel_width_built p hk, Bool.and_eq_true,
    decide_eq_true_eq, abs_le, plan_t.INDEX, hb1, hb2, hb3, hb4]
  generalize ⌈p.max_radius / p.scale⌉ = c at *
  rw [tdiv_odd c hc]
  constructor
  · rintro ⟨b, hb, a, ha, ho, di, dj, hdi, hdj, hvb, hk', hv'⟩
    have hinj := index_inj p.size_x i j (a + di) (b + dj) hv.1 (by omega)
      (by rw [hk']; ring)
    refine ⟨((a : Int), (b : Int)), ⟨⟨⟨by omega, by omega⟩, by omega, by omega⟩, ⟨?_, ?_⟩, ?_⟩, ?_⟩
    · have e : (a : Int) + b * p.size_x = 0 + (0 + b) * p.size_x + a := by ring
      rw [e]; omega
    · simp only; omega
    · simp only; omega
    · simp only
      rw [hv']
      congr 1 <;> omega
  · rintro ⟨⟨si, sj⟩, ⟨⟨hsi, hsj⟩, ⟨ho, hdi⟩, hdj⟩, hv'⟩
    simp only at hsi hsj ho hdi hdj hv'
    have e1 : ((si.toNat : Nat) : Int) = si := by omega
    have e2 : ((sj.toNat : Nat) : Int) = sj := by omega
    refine ⟨sj.toNat, by omega, si.toNat, by omega, ?_, i - si, j - sj, by omega, by omega,
      by omega, ?_, hv'⟩
    · rw [e1, e2]
      have e : 0 + (0 + sj) * p.size_x + si = si + sj * p.size_x := by ring
      rw [e]; omega
    · rw [e1, e2]; ring

/-- C1. Static C-space with full-grid bounds: on a grid with `width, height >= 1`,
`scale > 0`, `max_radius >= 0`, the kernel built by `compute_dist_kernel` and
bounds `(0, 0, width-1, height-1)`, after `compute_cspace` the static distance of every
in-grid cell is the minimum of its old value and of `hypot(di, dj) * scale` over the
occupied in-grid cells within the kernel half-width. -/
theorem compute_cspace_full_grid (p : plan_t) (hal : GridAllocated p)
    (hs : 0 < p.scale) (hr : 0 ≤ p.max_radius)
    (hk : KernelBuilt p)
    (hb : p.min_x = 0 ∧ p.min_y = 0 ∧ p.max_x = p.size_x - 1 ∧ p.max_y = p.size_y - 1)
    (i j : Int) (hv : p.VALID i j = true) :
    (cellAt p.compute_cspace.cells (p.INDEX i j)).occ_dist = static_dist_spec p i j := by
  obtain ⟨c', hp', hc'⟩ := compute_cspace_relaxed p
  have hv' := (VALID_iff p i j).1 hv
  have hrange := index_in_range p.size_x p.size_y i j hv'.1 hv'.2
  unfold GridAllocated at hal
  obtain ⟨m, hm, e⟩ := hc'.cell (p.INDEX i j) hrange.1 (by rw [hal]; exact hrange.2)
  rw [hp']
  simp only
  rw [e, relaxCell_occ_dist _ _ hm.le]
  exact hm.unique_min (foldl_min_isMinOf _ _ _) (cspaceOps_full_grid p hs hr hk hb i j hv)

/-! ## Concrete grids -/

set_option maxRecDepth 10000 in
theorem scenario_facts : GridAllocated scenario ∧ KernelBuilt scenario ∧
    scenario.dist_kernel_width = 5 ∧ 0 < scenario.scale ∧ 0 ≤ scenario.max_radius ∧
    (scenario.min_x = 0 ∧ scenario.min_y = 0 ∧ scenario.max_x = scenario.size_x - 1 ∧
      scenario.max_y = scenario.size_y - 1) := by
  with_unfolding_all decide

set_option maxRecDepth 10000 in
/-- Witness for C1: the specification's scenario.  After `compute_cspace` cell `(5,5)` has
distance `0`, `(5,6)` distance `1`, `(6,6)` distance `hypot(1,1)`, and `(5,8)` keeps its
previous value. -/
theorem compute_cspace_full_grid_witness :
    (cellAt scenario.compute_cspace.cells (scenario.INDEX 5 5)).occ_dist = Distance.zero ∧
    (cellAt scenario.compute_cspace.cells (scenario.INDEX 5 6)).occ_dist = Distance.ofRat 1 ∧
    (cellAt scenario.compute_cspace.cells (scenario.INDEX 6 6)).occ_dist =
      Distance.hypot_scaled 1 1 1 ∧
    (cellAt scenario.compute_cspace.cells (scenario.INDEX 5 8)).occ_dist =
      (cellAt scenario.cells (scenario.INDEX 5 8)).occ_dist :=
  ⟨(compute_cspace_full_grid scenario scenario_facts.1 scenario_facts.2.2.2.1
      scenario_facts.2.2.2.2.1 scenario_facts.2.1 scenario_facts.2.2.2.2.2 5 5
      (by with_unfolding_all decide)).trans (by with_unfolding_all rfl),
   (compute_cspace_full_grid scenario scenario_facts.1 scenario_facts.2.2.2.1
      scenario_facts.2.2.2.2.1 scenario_facts.2.1 scenario_facts.2.2.2.2.2 5 6
      (by with_unfolding_all decide)).trans (by with_unfolding_all rfl),
   (compute_cspace_full_grid scenario scenario_facts.1 scenario_facts.2.2.2.1
      scenario_facts.2.2.2.2.1 scenario_facts.2.1 scenario_facts.2.2.2.2.2 6 6
      (by with_unfolding_all decide)).trans (by with_unfolding_all rfl),
   (compute_cspace_full_grid scenario scenario_facts.1 scenario_facts.2.2.2.1
      scenario_facts.2.2.2.2.1 scenario_facts.2.1 scenario_facts.2.2.2.2.2 5 8
      (by with_unfolding_all decide)).trans (by with_unfolding_all rfl)⟩

/-- C2 (code defect). On the `3 × 1` strip with bounds `(1,0)-(2,0)`, all distances
non-negative and the kernel built, cell `(2,0)` is inside the bounds and occupied, yet
`compute_cspace` leaves its static distance at `9`: the source pointer starts at
`INDEX(0, j)` while the column counter starts at `min_x`, so the occupancy read for
column `i` is that of column `i - min_x`. -/
theorem compute_cspace_misses_occupied_cell :
    (0 ≤ strip_offset.min_x ∧ strip_offset.min_x ≤ strip_offset.max_x ∧
      strip_offset.max_x ≤ strip_offset.size_x - 1 ∧ 0 ≤ strip_offset.min_y ∧
      strip_offset.min_y ≤ strip_offset.max_y ∧ strip_offset.max_y ≤ strip_offset.size_y - 1) ∧
    KernelBuilt strip_offset ∧
    (∀ c ∈ strip_offset.cells, Distance.zero ≤ c.occ_dist) ∧
    strip_offset.VALID_BOUNDS 2 0 = true ∧
    0 ≤ (cellAt strip_offset.cells (strip_offset.INDEX 2 0)).occ_state ∧
    (cellAt strip_offset.compute_cspace.cells (strip_offset.INDEX 2 0)).occ_dist =
      Distance.ofRat 9 ∧
    (cellAt strip_offset.compute_cspace.cells (strip_offset.INDEX 2 0)).occ_dist ≠
      Distance.zero := by
  with_unfolding_all decide

/-- C3 (code defect). On the same strip, cell `(0,0)` lies outside the bounds `(1,0)-(2,0)`,
yet `compute_cspace` lowers its static and dynamic distance from `9` to `0`: the neighbour
pointer is taken relative to the source pointer, which is `min_x` columns to the left of
the column the bounds test is made for. -/
theorem compute_cspace_writes_outside_bounds :
    strip_offset.VALID_BOUNDS 0 0 = false ∧
    (cellAt strip_offset.cells (strip_offset.INDEX 0 0)).occ_dist = Distance.ofRat 9 ∧
    (cellAt strip_offset.cells (strip_offset.INDEX 0 0)).occ_dist_dyn = Distance.ofRat 9 ∧
    (cellAt strip_offset.compute_cspace.cells (strip_offset.INDEX 0 0)).occ_dist =
      Distance.zero ∧
    (cellAt strip_offset.compute_cspace.cells (strip_offset.INDEX 0 0)).occ_dist_dyn =
      Distance.zero := by
  with_unfolding_all decide

/-- C4. `compute_cspace` is idempotent: a second run changes nothing, in any cell and in
any field. -/
theorem compute_cspace_idempotent (p : plan_t) :
    p.compute_cspace.compute_cspace = p.compute_cspace := by
  obtain ⟨c1, h1, hc1⟩ := compute_cspace_relaxed p
  have h2 := compute_cspace_relaxed p.compute_cspace
  rw [h1] at h2 ⊢
  have h12 : PlanRelaxed (CspaceOps p) p
      (plan_t.compute_cspace { p with cells := c1 }) :=
    PlanRelaxed.trans_plan ⟨c1, rfl, hc1⟩ h2 (fun k v => by
      rw [CspaceOps_congr p c1 hc1.occ_state]; simp)
  exact h12.unique_plan ⟨c1, rfl, hc1⟩ (fun _ _ _ _ => Iff.rfl)

/-- C5. The static build does not depend on the order of the source cells: running the
kernel loops of `compute_cspace` over any permutation of the source cells the code visits
gives the state the code computes, and the kernel loops of any two source cells
commute. -/
theorem compute_cspace_order_independent (p : plan_t) (l : List (Int × Int × Int))
    (h : l.Perm (cspace_sources p)) :
    l.foldl (fun q s => cspace_splat q s.1 s.2.1 s.2.2) p = p.compute_cspace ∧
    ∀ (q : plan_t) (s1 s2 : Int × Int × Int),
      cspace_splat (cspace_splat q s1.1 s1.2.1 s1.2.2) s2.1 s2.2.1 s2.2.2 =
        cspace_splat (cspace_splat q s2.1 s2.2.1 s2.2.2) s1.1 s1.2.1 s1.2.2 :=
  ⟨(foldl_splat_perm p l _ h).trans (compute_cspace_eq_foldl p).symm,
    fun q s1 s2 => foldl_splat_perm q [s1, s2] [s2, s1] (List.Perm.swap s2 s1 [])⟩

/-- Witness for C5: on the strip the code visits the sources `(0,0)` then `(2,0)`;
visiting them in the opposite order gives the same state. -/
theorem compute_cspace_order_independent_witness :
    cspace_sources strip = [(0, 0, 0), (2, 0, 2)] ∧
    [((2 : Int), (0 : Int), (2 : Int)), (0, 0, 0)].foldl
      (fun q s => cspace_splat q s.1 s.2.1 s.2.2) strip = strip.compute_cspace :=
  ⟨by with_unfolding_all rfl,
    (compute_cspace_order_independent strip [(2, 0, 2), (0, 0, 0)]
      (by
        have e : cspace_sources strip = [(0, 0, 0), (2, 0, 2)] := by with_unfolding_all rfl
        rw [e]
        exact List.Perm.swap _ _ [])).1⟩

/-! ## The dynamic layer as a sequence of writes -/

theorem length_applyWrite (c : List plan_cell_t) (w : DynWrite) :
    (applyWrite c w).length = c.length := by
  cases w with
  | hit cell => exact length_setCellAt _ _ _
  | relax k v =>
    simp only [applyWrite]
    split
    · exact length_setCellAt _ _ _
    · rfl

theorem cellAt_setCellAt (c : List plan_cell_t) (k k' : Int) (x : plan_cell_t) :
    cellAt (setCellAt c k x) k' =
      if k = k' ∧ 0 ≤ k ∧ k < c.length then x else cellAt c k' := by
  by_cases h : k = k'
  · subst h
    by_cases hr : 0 ≤ k ∧ k < c.length
    · simp only [hr, and_self, if_true]
      exact cellAt_setCellAt_same _ _ _ hr.1 hr.2
    · rw [if_neg (fun h => hr h.2), setCellAt_out_of_range _ _ _ hr]
  · simp only [h, false_and, if_false]
    exact cellAt_setCellAt_ne _ _ _ _ h

theorem staticPart_applyWrite (c : List plan_cell_t) (w : DynWrite) (k : Int) :
    staticPart (cellAt (applyWrite c w) k) = staticPart (cellAt c k) := by
  cases w with
  | hit cell =>
    simp only [applyWrite, cellAt_setCellAt]
    split
    · rename_i h; rw [← h.1]; rfl
    · rfl
  | relax k' v =>
    simp only [applyWrite]
    split
    · rw [cellAt_setCellAt]
      split
      · rename_i h; rw [← h.1]; rfl
      · rfl
    · rfl

theorem length_foldl_applyWrite (tr : List DynWrite) : ∀ c : List plan_cell_t,
    (tr.foldl applyWrite c).length = c.length := by
  induction tr with
  | nil => intro c; rfl
  | cons w tr ih => intro c; simp only [List.foldl_cons]; rw [ih, length_applyWrite]

theorem staticPart_foldl_applyWrite (tr : List DynWrite) : ∀ (c : List plan_cell_t) (k : Int),
    staticPart (cellAt (tr.foldl applyWrite c) k) = staticPart (cellAt c k) := by
  induction tr with
  | nil => intro c k; rfl
  | cons w tr ih =>
    intro c k
    simp only [List.foldl_cons]
    rw [ih, staticPart_applyWrite]

theorem ci_foldl_applyWrite (tr : List DynWrite) (c : List plan_cell_t) (k : Int) :
    (cellAt (tr.foldl applyWrite c) k).ci = (cellAt c k).ci := by
  have h := congrArg plan_cell_t.ci (staticPart_foldl_applyWrite tr c k)
  exact h

theorem cj_foldl_applyWrite (tr : List DynWrite) (c : List plan_cell_t) (k : Int) :
    (cellAt (tr.foldl applyWrite c) k).cj = (cellAt c k).cj := by
  have h := congrArg plan_cell_t.cj (staticPart_foldl_applyWrite tr c k)
  exact h

theorem obstacle_relax_eq (p : plan_t) (cell di dj : Int) (pk : Nat) (nc : Int) :
    obstacle_relax p cell di dj pk nc =
      if p.VALID_BOUNDS ((cellAt p.cells cell).ci + di) ((cellAt p.cells cell).cj + dj) = true
      then
        { p with cells :=
            applyWrite p.cells (DynWrite.relax nc (p.dist_kernel.getD pk default)) }
      else p := by
  unfold obstacle_relax
  by_cases hb : p.VALID_BOUNDS ((cellAt p.cells cell).ci + di) ((cellAt p.cells cell).cj + dj)
      = true
  · simp only [hb, Bool.not_true, Bool.false_eq_true, if_false, if_true, applyWrite]
    split <;> rfl
  · simp only [hb, if_false]
    simp only [Bool.not_eq_true] at hb
    simp [hb]

theorem RelaxesOf.nil {R : Int → Distance → Prop} (h : ∀ k v, ¬ R k v) : RelaxesOf R [] :=
  ⟨fun _ hw => absurd hw (List.not_mem_nil _), fun k v hr => absurd hr (h k v)⟩

theorem RelaxesOf.append {R1 R2 R : Int → Distance → Prop} {l1 l2 : List DynWrite}
    (h1 : RelaxesOf R1 l1) (h2 : RelaxesOf R2 l2) (hR : ∀ k v, R k v ↔ R1 k v ∨ R2 k v) :
    RelaxesOf R (l1 ++ l2) := by
  constructor
  · intro w hw
    rcases List.mem_append.1 hw with h | h
    · obtain ⟨k, v, e, hr⟩ := h1.1 w h
      exact ⟨k, v, e, (hR k v).2 (Or.inl hr)⟩
    · obtain ⟨k, v, e, hr⟩ := h2.1 w h
      exact ⟨k, v, e, (hR k v).2 (Or.inr hr)⟩
  · intro k v hr
    rcases (hR k v).1 hr with h | h
    · exact List.mem_append.2 (Or.inl (h1.2 k v h))
    · exact List.mem_append.2 (Or.inr (h2.2 k v h))

theorem RelaxesOf.congr_ops {R R' : Int → Distance → Prop} {l : List DynWrite}
    (h : RelaxesOf R l) (hR : ∀ k v, R' k v ↔ R k v) : RelaxesOf R' l :=
  ⟨fun w hw => by
      obtain ⟨k, v, e, hr⟩ := h.1 w hw
      exact ⟨k, v, e, (hR k v).2 hr⟩,
    fun k v hr => h.2 k v ((hR k v).1 hr)⟩

theorem PlanWrites.refl_writes (p : plan_t) : PlanWrites (fun _ _ => False) p p :=
  ⟨[], RelaxesOf.nil (fun _ _ h => h), rfl⟩

theorem PlanWrites.trans_writes {R1 R2 R : Int → Distance → Prop} {p p' p'' : plan_t}
    (h1 : PlanWrites R1 p p') (h2 : PlanWrites R2 p' p'')
    (hR : ∀ k v, R k v ↔ R1 k v ∨ R2 k v) : PlanWrites R p p'' := by
  obtain ⟨l1, hl1, rfl⟩ := h1
  obtain ⟨l2, hl2, rfl⟩ := h2
  exact ⟨l1 ++ l2, hl1.append hl2 hR, by simp only [List.foldl_append]⟩

theorem PlanWrites.congr_writes {R R' : Int → Distance → Prop} {p p' : plan_t}
    (h : PlanWrites R p p') (hR : ∀ k v, R' k v ↔ R k v) : PlanWrites R' p p' := by
  obtain ⟨l, hl, rfl⟩ := h
  exact ⟨l, hl.congr_ops hR, rfl⟩

/-! ## The kernel loops of `set_obstacles` -/

theorem obstacle_relax_writes (p : plan_t) (cell di dj : Int) (pk : Nat) (nc : Int) :
    PlanWrites (fun k v =>
        p.VALID_BOUNDS ((cellAt p.cells cell).ci + di) ((cellAt p.cells cell).cj + dj) = true ∧
          k = nc ∧ v = p.dist_kernel.getD pk default) p
      (obstacle_relax p cell di dj pk nc) := by
  rw [obstacle_relax_eq]
  by_cases hb : p.VALID_BOUNDS ((cellAt p.cells cell).ci + di) ((cellAt p.cells cell).cj + dj)
      = true
  · simp only [hb, if_true, true_and]
    refine ⟨[DynWrite.relax nc (p.dist_kernel.getD pk default)], ⟨?_, ?_⟩, rfl⟩
    · intro w hw
      rw [List.mem_singleton] at hw
      exact ⟨_, _, hw, rfl, rfl⟩
    · rintro k v ⟨rfl, rfl⟩
      exact List.mem_singleton.2 rfl
  · rw [if_neg hb]
    exact (PlanWrites.refl_writes p).congr_writes (fun k v => by simp [hb])

theorem PlanWrites.ci_writes {R : Int → Distance → Prop} {p p' : plan_t} (h : PlanWrites R p p')
    (k : Int) : (cellAt p'.cells k).ci = (cellAt p.cells k).ci := by
  obtain ⟨l, _, rfl⟩ := h
  exact ci_foldl_applyWrite l _ k

theorem PlanWrites.cj_writes {R : Int → Distance → Prop} {p p' : plan_t} (h : PlanWrites R p p')
    (k : Int) : (cellAt p'.cells k).cj = (cellAt p.cells k).cj := by
  obtain ⟨l, _, rfl⟩ := h
  exact cj_foldl_applyWrite l _ k

theorem PlanWrites.VALID_BOUNDS_writes {R : Int → Distance → Prop} {p p' : plan_t}
    (h : PlanWrites R p p') (i j : Int) : p'.VALID_BOUNDS i j = p.VALID_BOUNDS i j := by
  obtain ⟨l, _, rfl⟩ := h
  rfl

theorem PlanWrites.dist_kernel_writes {R : Int → Distance → Prop} {p p' : plan_t}
    (h : PlanWrites R p p') : p'.dist_kernel = p.dist_kernel := by
  obtain ⟨l, _, rfl⟩ := h
  rfl

theorem PlanWrites.size_x_writes {R : Int → Distance → Prop} {p p' : plan_t}
    (h : PlanWrites R p p') : p'.size_x = p.size_x := by
  obtain ⟨l, _, rfl⟩ := h
  rfl

theorem obstacle_row (p0 : plan_t) (cell dj lo hi : Int) (pk0 : Nat) (nc0 : Int) :
    let r := forRange lo hi (fun di (st : plan_t × Nat × Int) =>
        (obstacle_relax st.1 cell di dj st.2.1 st.2.2, st.2.1 + 1, st.2.2 + 1)) (p0, pk0, nc0)
    r.2.1 = pk0 + (hi + 1 - lo).toNat ∧
      PlanWrites (RowOps p0 (cellAt p0.cells cell).ci (cellAt p0.cells cell).cj dj lo
        (hi + 1 - lo).toNat pk0 nc0) p0 r.1 := by
  intro r
  have key := forRange_inv lo hi (fun di (st : plan_t × Nat × Int) =>
        (obstacle_relax st.1 cell di dj st.2.1 st.2.2, st.2.1 + 1, st.2.2 + 1))
    (fun a st => st.2.1 = pk0 + a ∧ st.2.2 = nc0 + a ∧
      PlanWrites (RowOps p0 (cellAt p0.cells cell).ci (cellAt p0.cells cell).cj dj lo a
        pk0 nc0) p0 st.1) (p0, pk0, nc0)
    ⟨rfl, by simp, (PlanWrites.refl_writes p0).congr_writes (by simp [RowOps])⟩
    (by
      rintro a _ ⟨p, pk, nc⟩ ⟨h1, h2, h3⟩
      simp only at h1 h2 h3 ⊢
      subst h1 h2
      refine ⟨by omega, by push_cast; ring, ?_⟩
      have hs := obstacle_relax_writes p cell (lo + a) dj (pk0 + a) (nc0 + a)
      rw [h3.ci_writes, h3.cj_writes, h3.VALID_BOUNDS_writes, h3.dist_kernel_writes] at hs
      refine PlanWrites.trans_writes h3 hs ?_
      intro k v
      simp only [RowOps]
      constructor
      · rintro ⟨a', ha', hb, hk, hv⟩
        rcases Nat.lt_succ_iff_lt_or_eq.1 ha' with h | h
        · exact Or.inl ⟨a', h, hb, hk, hv⟩
        · subst h; exact Or.inr ⟨hb, hk, hv⟩
      · rintro (⟨a', ha', hb, hk, hv⟩ | ⟨hb, hk, hv⟩)
        · exact ⟨a', Nat.lt_succ_of_lt ha', hb, hk, hv⟩
        · exact ⟨a, Nat.lt_succ_self a, hb, hk, hv⟩)
  exact ⟨key.1, key.2.2⟩

theorem obstacle_splat_writes (p0 : plan_t) (cell : Int) :
    PlanWrites (SplatOps p0 (cellAt p0.cells cell).ci (cellAt p0.cells cell).cj cell) p0
      (obstacle_splat p0 cell) := by
  unfold obstacle_splat
  generalize hlo : Int.tdiv (-p0.dist_kernel_width) 2 = lo
  generalize hhi : Int.tdiv p0.dist_kernel_width 2 = hi
  simp only
  have key := forRange_inv lo hi (fun dj (st : plan_t × Nat) =>
      ((forRange lo hi (fun di (st : plan_t × Nat × Int) =>
        (obstacle_relax st.1 cell di dj st.2.1 st.2.2, st.2.1 + 1, st.2.2 + 1))
        (st.1, st.2, cell + lo + dj * st.1.size_x)).1,
       (forRange lo hi (fun di (st : plan_t × Nat × Int) =>
        (obstacle_relax st.1 cell di dj st.2.1 st.2.2, st.2.1 + 1, st.2.2 + 1))
        (st.1, st.2, cell + lo + dj * st.1.size_x)).2.1))
    (fun b st => st.2 = b * (hi + 1 - lo).toNat ∧
      PlanWrites (fun k v => ∃ b' a : Nat, b' < b ∧ a < (hi + 1 - lo).toNat ∧
        p0.VALID_BOUNDS ((cellAt p0.cells cell).ci + (lo + a))
          ((cellAt p0.cells cell).cj + (lo + b')) = true ∧
        k = cell + lo + (lo + b') * p0.size_x + a ∧
        v = p0.dist_kernel.getD (b' * (hi + 1 - lo).toNat + a) default) p0 st.1) (p0, 0)
    ⟨by simp, (PlanWrites.refl_writes p0).congr_writes (by simp)⟩
    (by
      rintro b _ ⟨p, pk⟩ ⟨h1, h2⟩
      simp only at h1 h2 ⊢
      subst h1
      obtain ⟨hr1, hr2⟩ := obstacle_row p cell (lo + b) lo hi (b * (hi + 1 - lo).toNat)
        (cell + lo + (lo + b) * p.size_x)
      refine ⟨by rw [hr1]; ring, ?_⟩
      refine PlanWrites.trans_writes h2 hr2 ?_
      intro k v
      simp only [RowOps, h2.ci_writes, h2.cj_writes, h2.VALID_BOUNDS_writes, h2.dist_kernel_writes, h2.size_x_writes]
      constructor
      · rintro ⟨b', a', hb', ha', hb, hk, hv⟩
        rcases Nat.lt_succ_iff_lt_or_eq.1 hb' with h | h
        · exact Or.inl ⟨b', a', h, ha', hb, hk, hv⟩
        · subst h; exact Or.inr ⟨a', ha', hb, hk, hv⟩
      · rintro (⟨b', a', hb', ha', hb, hk, hv⟩ | ⟨a', ha', hb, hk, hv⟩)
        · exact ⟨b', a', Nat.lt_succ_of_lt hb', ha', hb, hk, hv⟩
        · exact ⟨b, a', Nat.lt_succ_self b, ha', hb, hk, hv⟩)
  refine key.2.congr_writes ?_
  intro k v
  simp only [SplatOps, hlo, hhi]

/-! ## The reset pass of `set_obstacles` -/

theorem reset_dyn_spec (p : plan_t) :
    ∃ c', reset_dyn p = { p with cells := c' } ∧ c'.length = p.cells.length ∧
      ∀ k : Int, cellAt c' k =
        if 0 ≤ k ∧ k < p.size_y * p.size_x ∧ k < p.cells.length then resetCell (cellAt p.cells k)
        else cellAt p.cells k := by
  unfold reset_dyn
  have key := forRange_inv 0 (p.size_y * p.size_x - 1) (fun _ (st : plan_t × Int) =>
      ({ st.1 with cells := setCellAt st.1.cells st.2 (resetCell (cellAt st.1.cells st.2)) },
        st.2 + 1))
    (fun a st => st.2 = a ∧ ∃ c', st.1 = { p with cells := c' } ∧ c'.length = p.cells.length ∧
      ∀ k : Int, cellAt c' k =
        if 0 ≤ k ∧ k < a ∧ k < p.cells.length then resetCell (cellAt p.cells k)
        else cellAt p.cells k) (p, 0)
    ⟨rfl, p.cells, rfl, rfl, fun k => by
      have : ¬ (0 ≤ k ∧ k < ((0 : Nat) : Int) ∧ k < (p.cells.length : Int)) := by omega
      rw [if_neg this]⟩
    (by
      rintro a _ ⟨q, cell⟩ ⟨h1, c', h2, h3, h4⟩
      simp only at h1 h2 h3 h4 ⊢
      subst h1 h2
      refine ⟨by push_cast; ring, _, rfl, by rw [length_setCellAt, h3], fun k => ?_⟩
      rw [cellAt_setCellAt, h3]
      have ha : cellAt c' (a : Int) = cellAt p.cells a := by
        rw [h4]
        have : ¬ (0 ≤ (a : Int) ∧ (a : Int) < a ∧ (a : Int) < p.cells.length) := by omega
        rw [if_neg this]
      by_cases hk : (a : Int) = k
      · subst hk
        by_cases hr : (a : Int) < p.cells.length
        · have c1 : (a : Int) = a ∧ 0 ≤ (a : Int) ∧ (a : Int) < p.cells.length := by omega
          have c2 : 0 ≤ (a : Int) ∧ (a : Int) < ((a + 1 : Nat) : Int) ∧
              (a : Int) < p.cells.length := by omega
          rw [if_pos c1, if_pos c2, ha]
        · have c1 : ¬ ((a : Int) = a ∧ 0 ≤ (a : Int) ∧ (a : Int) < p.cells.length) := by omega
          have c2 : ¬ (0 ≤ (a : Int) ∧ (a : Int) < ((a + 1 : Nat) : Int) ∧
              (a : Int) < p.cells.length) := by omega
          rw [if_neg c1, if_neg c2, ha]
      · have c1 : ¬ ((a : Int) = k ∧ 0 ≤ (a : Int) ∧ (a : Int) < p.cells.length) := by omega
        rw [if_neg c1, h4]
        have c2 : (0 ≤ k ∧ k < ((a + 1 : Nat) : Int) ∧ k < (p.cells.length : Int)) ↔
            (0 ≤ k ∧ k < (a : Int) ∧ k < (p.cells.length : Int)) := by omega
        simp only [c2])
  obtain ⟨_, c', h2, h3, h4⟩ := key
  refine ⟨c', h2, h3, fun k => ?_⟩
  rw [h4]
  have c2 : (0 ≤ k ∧ k < (((p.size_y * p.size_x - 1 + 1 - 0).toNat : Nat) : Int) ∧
      k < (p.cells.length : Int)) ↔
      (0 ≤ k ∧ k < p.size_y * p.size_x ∧ k < (p.cells.length : Int)) := by omega
  simp only [c2]

theorem forall_mem_cells (cells : List plan_cell_t) (P : plan_cell_t → Prop) :
    (∀ c ∈ cells, P c) ↔ ∀ k : Int, 0 ≤ k → k < cells.length → P (cellAt cells k) := by
  constructor
  · intro h k hk0 hk1
    have hlt : k.toNat < cells.length := by omega
    have e : k = (k.toNat : Int) := by omega
    rw [e, cellAt_of_nat _ _ hlt]
    exact h _ (List.getElem_mem _)
  · intro h c hc
    obtain ⟨n, hn, rfl⟩ := List.getElem_of_mem hc
    rw [← cellAt_of_nat _ _ hn]
    exact h n (by omega) (by exact_mod_cast hn)

/-! ## The obstacle loop of `set_obstacles` -/

theorem mark_applyWrite (c : List plan_cell_t) (w : DynWrite) (k : Int)
    (h : (cellAt (applyWrite c w) k).mark = true) :
    (cellAt c k).mark = true ∨ w = DynWrite.hit k := by
  cases w with
  | hit cell =>
    simp only [applyWrite, cellAt_setCellAt] at h
    split at h
    · rename_i hc; right; rw [hc.1]
    · left; exact h
  | relax k' v =>
    left
    simp only [applyWrite] at h
    split at h
    · rw [cellAt_setCellAt] at h
      split at h
      · rename_i hc; rw [← hc.1]; exact h
      · exact h
    · exact h

theorem mark_foldl_applyWrite (tr : List DynWrite) : ∀ (c : List plan_cell_t) (k : Int),
    (cellAt (tr.foldl applyWrite c) k).mark = true →
      (cellAt c k).mark = true ∨ DynWrite.hit k ∈ tr := by
  induction tr with
  | nil => intro c k h; exact Or.inl h
  | cons w tr ih =>
    intro c k h
    simp only [List.foldl_cons] at h
    rcases ih _ k h with h1 | h1
    · rcases mark_applyWrite c w k h1 with h2 | h2
      · exact Or.inl h2
      · exact Or.inr (by rw [h2]; exact List.mem_cons_self _ _)
    · exact Or.inr (List.mem_cons_of_mem _ h1)

theorem obstacle_point_eq (q0 : plan_t) (C : List plan_cell_t) (x y : ℚ) :
    obstacle_point { q0 with cells := C } x y =
      if q0.VALID (q0.GXWX x) (q0.GYWY y) = true then
        if (cellAt C (q0.INDEX (q0.GXWX x) (q0.GYWY y))).mark = true then { q0 with cells := C }
        else
          obstacle_splat
            { q0 with cells := applyWrite C (DynWrite.hit (q0.INDEX (q0.GXWX x) (q0.GYWY y))) }
            (q0.INDEX (q0.GXWX x) (q0.GYWY y))
      else { q0 with cells := C } := by
  unfold obstacle_point
  have e1 : plan_t.VALID { q0 with cells := C } = q0.VALID := rfl
  have e2 : plan_t.GXWX { q0 with cells := C } = q0.GXWX := rfl
  have e3 : plan_t.GYWY { q0 with cells := C } = q0.GYWY := rfl
  have e4 : plan_t.INDEX { q0 with cells := C } = q0.INDEX := rfl
  simp only [e1, e2, e3, e4]
  by_cases hv : q0.VALID (q0.GXWX x) (q0.GYWY y) = true
  · simp only [hv, Bool.not_true, Bool.false_eq_true, if_false, if_true]
    rfl
  · rw [if_neg hv]
    simp only [Bool.not_eq_true] at hv
    simp [hv]

theorem reset_dyn_mark (p : plan_t) (i j : Int) (hv : p.VALID i j = true) :
    (cellAt (reset_dyn p).cells ((reset_dyn p).INDEX i j)).mark = false := by
  obtain ⟨c', h1, h2, h3⟩ := reset_dyn_spec p
  rw [h1]
  show (cellAt c' (p.INDEX i j)).mark = false
  rw [h3]
  have hv' := (VALID_iff p i j).1 hv
  have hr := index_in_range p.size_x p.size_y i j hv'.1 hv'.2
  by_cases hl : p.INDEX i j < p.cells.length
  · have : 0 ≤ p.INDEX i j ∧ p.INDEX i j < p.size_y * p.size_x ∧
        p.INDEX i j < p.cells.length := by
      refine ⟨hr.1, ?_, hl⟩
      rw [mul_comm]; exact hr.2
    rw [if_pos this]
    rfl
  · rw [if_neg (fun h => hl h.2.2), cellAt_out_of_range _ _ (fun h => hl h.2)]
    rfl

theorem ObstacleTrace.zero (q0 : plan_t) (obs : List ℚ) : ObstacleTrace q0 obs 0 [] :=
  ⟨fun _ h => absurd h (List.not_mem_nil _), fun _ h => absurd h (Nat.not_lt_zero _),
    fun _ _ h => absurd h (List.not_mem_nil _), fun _ h => absurd h (Nat.not_lt_zero _)⟩

/-- A point that is out of the grid, or whose cell an earlier point already marked, adds
no write. -/
theorem ObstacleTrace.skip {q0 : plan_t} {obs : List ℚ} {n : Nat} {tr : List DynWrite}
    (h : ObstacleTrace q0 obs n tr)
    (hs : obstacle_valid q0 obs n = true → DynWrite.hit (obstacle_cell q0 obs n) ∈ tr) :
    ObstacleTrace q0 obs (n + 1) tr := by
  constructor
  · intro c hc
    obtain ⟨i, hi, hv, e⟩ := h.hit_sound c hc
    exact ⟨i, Nat.lt_succ_of_lt hi, hv, e⟩
  · intro i hi hv
    rcases Nat.lt_succ_iff_lt_or_eq.1 hi with h1 | h1
    · exact h.hit_complete i h1 hv
    · subst h1; exact hs hv
  · intro k v hk
    obtain ⟨i, hi, hv, e⟩ := h.relax_sound k v hk
    exact ⟨i, Nat.lt_succ_of_lt hi, hv, e⟩
  · intro i hi hv k v hsp
    rcases Nat.lt_succ_iff_lt_or_eq.1 hi with h1 | h1
    · exact h.relax_complete i h1 hv k v hsp
    · subst h1
      obtain ⟨i0, hi0, hv0, e0⟩ := h.hit_sound _ (hs hv)
      rw [e0] at hsp
      exact h.relax_complete i0 hi0 hv0 k v hsp

/-- A new in-grid point adds its `hit` and the kernel min-combines around its cell. -/
theorem ObstacleTrace.extend {q0 : plan_t} {obs : List ℚ} {n : Nat} {tr ops : List DynWrite}
    (h : ObstacleTrace q0 obs n tr) (hv : obstacle_valid q0 obs n = true)
    (hops : RelaxesOf (SplatOps q0 (cellAt q0.cells (obstacle_cell q0 obs n)).ci
      (cellAt q0.cells (obstacle_cell q0 obs n)).cj (obstacle_cell q0 obs n)) ops) :
    ObstacleTrace q0 obs (n + 1) (tr ++ [DynWrite.hit (obstacle_cell q0 obs n)] ++ ops) := by
  constructor
  · intro c hc
    simp only [List.mem_append, List.mem_singleton] at hc
    rcases hc with (hc | hc) | hc
    · obtain ⟨i, hi, hv', e⟩ := h.hit_sound c hc
      exact ⟨i, Nat.lt_succ_of_lt hi, hv', e⟩
    · exact ⟨n, Nat.lt_succ_self n, hv, by injection hc⟩
    · obtain ⟨k, v, e, _⟩ := hops.1 _ hc
      cases e
  · intro i hi hv'
    simp only [List.mem_append, List.mem_singleton]
    rcases Nat.lt_succ_iff_lt_or_eq.1 hi with h1 | h1
    · exact Or.inl (Or.inl (h.hit_complete i h1 hv'))
    · subst h1; exact Or.inl (Or.inr rfl)
  · intro k v hk
    simp only [List.mem_append, List.mem_singleton] at hk
    rcases hk with (hk | hk) | hk
    · obtain ⟨i, hi, hv', e⟩ := h.relax_sound k v hk
      exact ⟨i, Nat.lt_succ_of_lt hi, hv', e⟩
    · cases hk
    · obtain ⟨k', v', e, hsp⟩ := hops.1 _ hk
      injection e with e1 e2
      subst e1 e2
      exact ⟨n, Nat.lt_succ_self n, hv, hsp⟩
  · intro i hi hv' k v hsp
    simp only [List.mem_append, List.mem_singleton]
    rcases Nat.lt_succ_iff_lt_or_eq.1 hi with h1 | h1
    · exact Or.inl (Or.inl (h.relax_complete i h1 hv' k v hsp))
    · subst h1; exact Or.inr (hops.2 k v hsp)

/-- The obstacle loop of `set_obstacles`, started in a state `q0` whose in-grid cells are
unmarked, executes a trace of writes described by `ObstacleTrace`. -/
theorem obstacle_loop_trace (q0 : plan_t) (obs : List ℚ)
    (hmark : ∀ i j, q0.VALID i j = true → (cellAt q0.cells (q0.INDEX i j)).mark = false)
    (num : Nat) :
    ∃ tr, ObstacleTrace q0 obs num tr ∧
      (List.range num).foldl (fun plan i =>
        obstacle_point plan (obs.getD (2 * i) 0) (obs.getD (2 * i + 1) 0)) q0 =
        { q0 with cells := tr.foldl applyWrite q0.cells } := by
  induction num with
  | zero => exact ⟨[], ObstacleTrace.zero q0 obs, rfl⟩
  | succ n ih =>
    obtain ⟨tr, htr, hst⟩ := ih
    rw [List.range_succ, List.foldl_append, hst]
    simp only [List.foldl_cons, List.foldl_nil]
    rw [obstacle_point_eq]
    have hcell : q0.INDEX (q0.GXWX (obs.getD (2 * n) 0)) (q0.GYWY (obs.getD (2 * n + 1) 0)) =
        obstacle_cell q0 obs n := rfl
    have hval : q0.VALID (q0.GXWX (obs.getD (2 * n) 0)) (q0.GYWY (obs.getD (2 * n + 1) 0)) =
        obstacle_valid q0 obs n := rfl
    rw [hcell, hval]
    generalize hC : tr.foldl applyWrite q0.cells = C
    by_cases hv : obstacle_valid q0 obs n = true
    · rw [if_pos hv]
      by_cases hm : (cellAt C (obstacle_cell q0 obs n)).mark = true
      · rw [if_pos hm]
        refine ⟨tr, htr.skip (fun _ => ?_), by rw [hC]⟩
        rw [← hC] at hm
        rcases mark_foldl_applyWrite tr _ _ hm with h1 | h1
        · rw [← hcell, hmark _ _ (hval.trans hv)] at h1
          exact absurd h1 (by decide)
        · exact h1
      · rw [if_neg hm]
        generalize hC1 : applyWrite C (DynWrite.hit (obstacle_cell q0 obs n)) = C1
        obtain ⟨ops, hops, hres⟩ :=
          obstacle_splat_writes { q0 with cells := C1 } (obstacle_cell q0 obs n)
        have hfold : (tr ++ [DynWrite.hit (obstacle_cell q0 obs n)]).foldl applyWrite q0.cells
            = C1 := by
          rw [List.foldl_append, hC]
          simpa using hC1
        refine ⟨tr ++ [DynWrite.hit (obstacle_cell q0 obs n)] ++ ops,
          htr.extend hv (hops.congr_ops ?_), ?_⟩
        · intro k v
          have e1 := ci_foldl_applyWrite (tr ++ [DynWrite.hit (obstacle_cell q0 obs n)])
            q0.cells (obstacle_cell q0 obs n)
          have e2 := cj_foldl_applyWrite (tr ++ [DynWrite.hit (obstacle_cell q0 obs n)])
            q0.cells (obstacle_cell q0 obs n)
          rw [hfold] at e1 e2
          rw [← e1, ← e2]
          rfl
        · rw [hres, List.foldl_append, hfold]
    · rw [if_neg hv]
      exact ⟨tr, htr.skip (fun h => absurd h hv), by rw [hC]⟩

theorem set_obstacles_trace (p : plan_t) (obs : List ℚ) (num : Nat) :
    ∃ tr, ObstacleTrace (reset_dyn p) obs num tr ∧
      p.set_obstacles obs num =
        { reset_dyn p with cells := tr.foldl applyWrite (reset_dyn p).cells } := by
  have hmark : ∀ i j, (reset_dyn p).VALID i j = true →
      (cellAt (reset_dyn p).cells ((reset_dyn p).INDEX i j)).mark = false := by
    intro i j hv
    apply reset_dyn_mark
    obtain ⟨c', h1, _⟩ := reset_dyn_spec p
    rw [h1] at hv
    exact hv
  exact obstacle_loop_trace (reset_dyn p) obs hmark num

/-! ## Frame and monotonicity of `set_obstacles` -/

theorem staticPart_resetCell (c : plan_cell_t) : staticPart (resetCell c) = staticPart c := rfl

theorem eq_of_staticPart {a b : plan_cell_t} (h : staticPart a = staticPart b) :
    a = { b with occ_state_dyn := a.occ_state_dyn, occ_dist_dyn := a.occ_dist_dyn,
                 mark := a.mark } := by
  cases a; cases b
  simp only [staticPart, plan_cell_t.mk.injEq] at h ⊢
  simp [h]

theorem staticPart_reset_dyn (p : plan_t) (k : Int) :
    staticPart (cellAt (reset_dyn p).cells k) = staticPart (cellAt p.cells k) := by
  obtain ⟨c', h1, _, h3⟩ := reset_dyn_spec p
  rw [h1]
  show staticPart (cellAt c' k) = _
  rw [h3]
  split
  · exact staticPart_resetCell _
  · rfl

theorem set_obstacles_frame (p : plan_t) (obs : List ℚ) (num : Nat) :
    p.set_obstacles obs num = { p with cells := (p.set_obstacles obs num).cells } ∧
    (p.set_obstacles obs num).cells.length = p.cells.length ∧
    ∀ k : Int, staticPart (cellAt (p.set_obstacles obs num).cells k) =
      staticPart (cellAt p.cells k) := by
  obtain ⟨tr, _, hq⟩ := set_obstacles_trace p obs num
  obtain ⟨c', h1, h2, _⟩ := reset_dyn_spec p
  have hs := staticPart_reset_dyn p
  rw [hq]
  rw [h1] at hs ⊢
  refine ⟨rfl, ?_, fun k => ?_⟩
  · show (tr.foldl applyWrite c').length = _
    rw [length_foldl_applyWrite, h2]
  · show staticPart (cellAt (tr.foldl applyWrite c') k) = _
    rw [staticPart_foldl_applyWrite]
    exact hs k

/-- After the reset pass of an allocated grid every cell holds `resetCell` of its old
value. -/
theorem reset_dyn_cells (p : plan_t) (hal : GridAllocated p) (k : Int) :
    cellAt (reset_dyn p).cells k = resetCell (cellAt p.cells k) := by
  obtain ⟨c', h1, _, h3⟩ := reset_dyn_spec p
  rw [h1]
  show cellAt c' k = _
  rw [h3]
  unfold GridAllocated at hal
  by_cases hk : 0 ≤ k ∧ k < p.cells.length
  · have : 0 ≤ k ∧ k < p.size_y * p.size_x ∧ k < p.cells.length := by
      refine ⟨hk.1, ?_, hk.2⟩
      rw [mul_comm, ← hal]; exact hk.2
    rw [if_pos this]
  · rw [if_neg (fun h => hk ⟨h.1, h.2.2⟩), cellAt_out_of_range _ _ hk]
    rfl

theorem GridAllocated_set_obstacles (p : plan_t) (hal : GridAllocated p) (obs : List ℚ)
    (num : Nat) : GridAllocated (p.set_obstacles obs num) := by
  obtain ⟨h1, h2, _⟩ := set_obstacles_frame p obs num
  unfold GridAllocated at hal ⊢
  rw [h2, h1]
  exact hal

theorem reset_dyn_mem (p : plan_t) (hal : GridAllocated p) :
    ∀ c ∈ (reset_dyn p).cells,
      c.occ_dist_dyn = c.occ_dist ∧ c.occ_state_dyn = c.occ_state ∧ c.mark = false := by
  rw [forall_mem_cells]
  intro k _ _
  rw [reset_dyn_cells p hal k]
  exact ⟨rfl, rfl, rfl⟩

/-- C6. Dynamic reset fidelity: on an allocated grid, `set_obstacles` with an empty point
list leaves every cell of the grid with `occ_dist_dyn = occ_dist`,
`occ_state_dyn = occ_state` and `mark = false`; this also holds when the state is the one
left by an earlier `set_obstacles` call with arbitrary points. -/
theorem set_obstacles_empty_resets (p : plan_t) (hal : GridAllocated p) (obs : List ℚ)
    (num : Nat) :
    (∀ c ∈ (p.set_obstacles [] 0).cells,
      c.occ_dist_dyn = c.occ_dist ∧ c.occ_state_dyn = c.occ_state ∧ c.mark = false) ∧
    (∀ c ∈ ((p.set_obstacles obs num).set_obstacles [] 0).cells,
      c.occ_dist_dyn = c.occ_dist ∧ c.occ_state_dyn = c.occ_state ∧ c.mark = false) :=
  ⟨reset_dyn_mem p hal, reset_dyn_mem _ (GridAllocated_set_obstacles p hal obs num)⟩

theorem dyn_le_applyWrite (c : List plan_cell_t) (w : DynWrite)
    (h0 : ∀ k, Distance.zero ≤ (cellAt c k).occ_dist)
    (k : Int) :
    (cellAt (applyWrite c w) k).occ_dist_dyn ≤ (cellAt c k).occ_dist_dyn ∨
      (cellAt (applyWrite c w) k).occ_dist_dyn ≤ (cellAt c k).occ_dist := by
  cases w with
  | hit cell =>
    simp only [applyWrite, cellAt_setCellAt]
    split
    · rename_i hc
      right
      rw [← hc.1]
      exact h0 cell
    · left; exact le_rfl
  | relax k' v =>
    left
    simp only [applyWrite]
    split
    · rename_i hv
      rw [cellAt_setCellAt]
      split
      · rename_i hc
        rw [← hc.1]
        exact le_of_lt hv
      · exact le_rfl
    · exact le_rfl

theorem occ_dist_applyWrite (c : List plan_cell_t) (w : DynWrite) (k : Int) :
    (cellAt (applyWrite c w) k).occ_dist = (cellAt c k).occ_dist := by
  have h := congrArg plan_cell_t.occ_dist (staticPart_applyWrite c w k)
  exact h

theorem dyn_le_foldl_applyWrite (tr : List DynWrite) : ∀ (c : List plan_cell_t),
    (∀ k, Distance.zero ≤ (cellAt c k).occ_dist) → ∀ k : Int,
    (cellAt (tr.foldl applyWrite c) k).occ_dist_dyn ≤ (cellAt c k).occ_dist_dyn ∨
      (cellAt (tr.foldl applyWrite c) k).occ_dist_dyn ≤ (cellAt c k).occ_dist := by
  induction tr with
  | nil => intro c _ k; exact Or.inl le_rfl
  | cons w tr ih =>
    intro c h0 k
    simp only [List.foldl_cons]
    have h0' : ∀ k, Distance.zero ≤ (cellAt (applyWrite c w) k).occ_dist := by
      intro k; rw [occ_dist_applyWrite]; exact h0 k
    rcases ih (applyWrite c w) h0' k with h | h
    · rcases dyn_le_applyWrite c w h0 k with h' | h'
      · exact Or.inl (le_trans h h')
      · exact Or.inr (le_trans h h')
    · rw [occ_dist_applyWrite] at h
      exact Or.inr h

theorem cellAt_nonneg_of_mem (cells : List plan_cell_t)
    (hd : ∀ c ∈ cells, Distance.zero ≤ c.occ_dist) (k : Int) :
    Distance.zero ≤ (cellAt cells k).occ_dist := by
  by_cases hk : 0 ≤ k ∧ k < cells.length
  · exact (forall_mem_cells cells _).1 hd k hk.1 hk.2
  · rw [cellAt_out_of_range _ _ hk]
    exact le_of_eq (by with_unfolding_all rfl)

/-- C7. Dynamic tightening only: on an allocated grid whose static distances are
non-negative, after `set_obstacles` no cell's dynamic distance exceeds the value it held
right after the reset pass, which is its static distance. -/
theorem set_obstacles_tightens (p : plan_t) (hal : GridAllocated p)
    (hd : ∀ c ∈ p.cells, Distance.zero ≤ c.occ_dist) (obs : List ℚ) (num : Nat) :
    (∀ c ∈ (p.set_obstacles obs num).cells, c.occ_dist_dyn ≤ c.occ_dist) ∧
    ∀ k : Int, (cellAt (p.set_obstacles obs num).cells k).occ_dist_dyn ≤
      (cellAt (p.set_obstacles [] 0).cells k).occ_dist_dyn := by
  obtain ⟨tr, _, hq⟩ := set_obstacles_trace p obs num
  have hreset := reset_dyn_cells p hal
  have h0 : ∀ k, Distance.zero ≤ (cellAt (reset_dyn p).cells k).occ_dist := by
    intro k
    rw [hreset]
    exact cellAt_nonneg_of_mem p.cells hd k
  have key : ∀ k : Int, (cellAt (p.set_obstacles obs num).cells k).occ_dist_dyn ≤
      (cellAt (reset_dyn p).cells k).occ_dist_dyn := by
    intro k
    rw [hq]
    show (cellAt (tr.foldl applyWrite (reset_dyn p).cells) k).occ_dist_dyn ≤ _
    rcases dyn_le_foldl_applyWrite tr _ h0 k with h | h
    · exact h
    · rw [hreset] at h ⊢
      exact h
  refine ⟨?_, key⟩
  rw [forall_mem_cells]
  intro k _ _
  have hs := congrArg plan_cell_t.occ_dist ((set_obstacles_frame p obs num).2.2 k)
  have hk := key k
  rw [hreset] at hk
  exact le_of_le_of_eq hk hs.symm

/-- C10. The dynamic update never touches the static layer: `set_obstacles` changes nothing
but `cells`, keeps the number of cells, and in every cell changes at most `occ_state_dyn`,
`occ_dist_dyn` and `mark`; so `occ_state`, `occ_dist`, `plan_cost`, `plan_next`, the
bounds and the kernel are what they were. -/
theorem set_obstacles_static_layer_unchanged (p : plan_t) (obs : List ℚ) (num : Nat) :
    p.set_obstacles obs num = { p with cells := (p.set_obstacles obs num).cells } ∧
    (p.set_obstacles obs num).cells.length = p.cells.length ∧
    ∀ k : Int, cellAt (p.set_obstacles obs num).cells k =
      { cellAt p.cells k with
        occ_state_dyn := (cellAt (p.set_obstacles obs num).cells k).occ_state_dyn
        occ_dist_dyn := (cellAt (p.set_obstacles obs num).cells k).occ_dist_dyn
        mark := (cellAt (p.set_obstacles obs num).cells k).mark } :=
  ⟨(set_obstacles_frame p obs num).1, (set_obstacles_frame p obs num).2.1,
    fun k => eq_of_staticPart ((set_obstacles_frame p obs num).2.2 k)⟩

/-! ## Initialised grids -/

theorem CellsIndexed.ci_indexed {p : plan_t} (h : CellsIndexed p) (i j : Int)
    (hv : p.VALID i j = true) : (cellAt p.cells (p.INDEX i j)).ci = i :=
  (h (i, j) ((mem_grid_cells p (i, j)).2 ((VALID_iff p i j).1 hv))).1

theorem CellsIndexed.cj_indexed {p : plan_t} (h : CellsIndexed p) (i j : Int)
    (hv : p.VALID i j = true) : (cellAt p.cells (p.INDEX i j)).cj = j :=
  (h (i, j) ((mem_grid_cells p (i, j)).2 ((VALID_iff p i j).1 hv))).2

theorem VALID_of_VALID_BOUNDS (p : plan_t) (hb : ValidBounds p) (i j : Int)
    (h : p.VALID_BOUNDS i j = true) : p.VALID i j = true := by
  rw [VALID_BOUNDS_iff] at h
  rw [VALID_iff]
  unfold ValidBounds at hb
  omega

/-- The trace of `set_obstacles p`, with the point cells and the kernel writes read off `p`
itself rather than off the state after the reset pass. -/
theorem set_obstacles_trace_of (p : plan_t) (obs : List ℚ) (num : Nat) :
    ∃ tr, ObstacleTrace p obs num tr ∧
      (p.set_obstacles obs num).cells = tr.foldl applyWrite (reset_dyn p).cells := by
  obtain ⟨tr, htr, hq⟩ := set_obstacles_trace p obs num
  have hs := staticPart_reset_dyn p
  obtain ⟨c', h1, _, _⟩ := reset_dyn_spec p
  refine ⟨tr, ?_, by rw [hq]⟩
  rw [h1] at htr hs
  have hci : ∀ k, (cellAt c' k).ci = (cellAt p.cells k).ci := by
    intro k
    have h := congrArg plan_cell_t.ci (hs k)
    exact h
  have hcj : ∀ k, (cellAt c' k).cj = (cellAt p.cells k).cj := by
    intro k
    have h := congrArg plan_cell_t.cj (hs k)
    exact h
  constructor
  · exact htr.hit_sound
  · exact htr.hit_complete
  · intro k v hk
    obtain ⟨i, hi, hv, hsp⟩ := htr.relax_sound k v hk
    refine ⟨i, hi, hv, ?_⟩
    have e1 := hci (obstacle_cell p obs i)
    have e2 := hcj (obstacle_cell p obs i)
    rw [← e1, ← e2]
    exact hsp
  · intro i hi hv k v hsp
    apply htr.relax_complete i hi hv k v
    have e1 := hci (obstacle_cell p obs i)
    have e2 := hcj (obstacle_cell p obs i)
    rw [← e1, ← e2] at hsp
    exact hsp

/-- Every kernel write around an in-grid source lands on the cell the bounds test was made
for, when the source cell records its own coordinates. -/
theorem splatOps_target (p : plan_t) (i0 j0 k : Int) (v : Distance)
    (h : SplatOps p i0 j0 (p.INDEX i0 j0) k v) :
    ∃ ti tj, p.VALID_BOUNDS ti tj = true ∧ k = p.INDEX ti tj := by
  simp only [SplatOps] at h
  obtain ⟨b, a, _, _, hvb, hk, _⟩ := h
  refine ⟨_, _, hvb, ?_⟩
  rw [hk]
  simp only [plan_t.INDEX]
  ring

theorem cellAt_applyWrite_untouched (c : List plan_cell_t) (w : DynWrite) (k : Int)
    (h1 : w ≠ DynWrite.hit k) (h2 : ∀ v, w ≠ DynWrite.relax k v) :
    cellAt (applyWrite c w) k = cellAt c k := by
  cases w with
  | hit cell =>
    simp only [applyWrite]
    apply cellAt_setCellAt_ne
    intro e; exact h1 (by rw [e])
  | relax k' v =>
    simp only [applyWrite]
    split
    · apply cellAt_setCellAt_ne
      intro e; exact h2 v (by rw [e])
    · rfl

theorem cellAt_foldl_untouched (tr : List DynWrite) : ∀ (c : List plan_cell_t) (k : Int),
    DynWrite.hit k ∉ tr → (∀ v, DynWrite.relax k v ∉ tr) →
    cellAt (tr.foldl applyWrite c) k = cellAt c k := by
  induction tr with
  | nil => intro c k _ _; rfl
  | cons w tr ih =>
    intro c k h1 h2
    simp only [List.foldl_cons]
    rw [ih _ k (fun h => h1 (List.mem_cons_of_mem _ h))
      (fun v h => h2 v (List.mem_cons_of_mem _ h))]
    apply cellAt_applyWrite_untouched
    · intro e; exact h1 (by rw [e]; exact List.mem_cons_self _ _)
    · intro v e; exact h2 v (by rw [e]; exact List.mem_cons_self _ _)

theorem obstacle_valid_iff (p : plan_t) (obs : List ℚ) (t : Nat) :
    obstacle_valid p obs t = true ↔ p.VALID (obstacle_gx p obs t) (obstacle_gy p obs t) = true :=
  Iff.rfl

/-- C9 as amended. On an initialised allocated grid with valid bounds, after
`set_obstacles` every in-grid cell outside the active bounds that no point of the list maps
to has `occ_dist_dyn = occ_dist`, its static distance. -/
theorem set_obstacles_outside_bounds (p : plan_t) (hal : GridAllocated p)
    (hidx : CellsIndexed p) (hb : ValidBounds p) (obs : List ℚ) (num : Nat) (i j : Int)
    (hv : p.VALID i j = true) (hnb : p.VALID_BOUNDS i j = false)
    (hno : ∀ t, t < num → ¬ (obstacle_gx p obs t = i ∧ obstacle_gy p obs t = j)) :
    (cellAt (p.set_obstacles obs num).cells (p.INDEX i j)).occ_dist_dyn =
        (cellAt (p.set_obstacles obs num).cells (p.INDEX i j)).occ_dist ∧
    (cellAt (p.set_obstacles obs num).cells (p.INDEX i j)).occ_dist_dyn =
        (cellAt p.cells (p.INDEX i j)).occ_dist := by
  obtain ⟨tr, htr, hq⟩ := set_obstacles_trace_of p obs num
  have hv' := (VALID_iff p i j).1 hv
  have hinj : ∀ i' j', p.VALID i' j' = true → p.INDEX i j = p.INDEX i' j' → i = i' ∧ j = j' := by
    intro i' j' h' e
    exact index_inj p.size_x i j i' j' hv'.1 ((VALID_iff p i' j').1 h').1 e
  have h1 : DynWrite.hit (p.INDEX i j) ∉ tr := by
    intro h
    obtain ⟨t, ht, hvt, e⟩ := htr.hit_sound _ h
    obtain ⟨e1, e2⟩ := hinj _ _ hvt e
    exact hno t ht ⟨e1.symm, e2.symm⟩
  have h2 : ∀ v, DynWrite.relax (p.INDEX i j) v ∉ tr := by
    intro v h
    obtain ⟨t, _, hvt, hsp⟩ := htr.relax_sound _ v h
    have hvt' := (obstacle_valid_iff p obs t).1 hvt
    have e1 : (cellAt p.cells (obstacle_cell p obs t)).ci = obstacle_gx p obs t :=
      hidx.ci_indexed _ _ hvt'
    have e2 : (cellAt p.cells (obstacle_cell p obs t)).cj = obstacle_gy p obs t :=
      hidx.cj_indexed _ _ hvt'
    rw [e1, e2] at hsp
    obtain ⟨ti, tj, hvb, e⟩ := splatOps_target p _ _ _ v hsp
    obtain ⟨e3, e4⟩ := hinj ti tj (VALID_of_VALID_BOUNDS p hb ti tj hvb) e
    rw [← e3, ← e4, hnb] at hvb
    exact absurd hvb (by decide)
  rw [hq, cellAt_foldl_untouched tr _ _ h1 h2, reset_dyn_cells p hal]
  exact ⟨rfl, rfl⟩

/-! ## The dynamic distance inside the bounds -/

theorem Distance.le_def (a b : Distance) : a ≤ b ↔ a.sq ≤ b.sq := Iff.rfl

theorem Distance.zero_sq : Distance.zero.sq = 0 := by
  simp [Distance.zero, Distance.ofRat]

theorem Distance.hypot_scaled_nonneg (i j : Int) (scale : ℚ) (hs : 0 ≤ scale) :
    Distance.zero ≤ Distance.hypot_scaled i j scale := by
  rw [Distance.le_def, Distance.zero_sq]
  exact mul_nonneg (add_nonneg (mul_self_nonneg _) (mul_self_nonneg _))
    (mul_nonneg hs (abs_nonneg _))

theorem Distance.hypot_scaled_zero (scale : ℚ) :
    Distance.hypot_scaled 0 0 scale = Distance.zero := by
  simp [Distance.hypot_scaled, Distance.zero, Distance.ofRat]

theorem Distance.zero_le_default : Distance.zero ≤ (default : Distance) := by
  rw [Distance.le_def, Distance.zero_sq]
  exact le_rfl

theorem fill_kernel_nonneg (lo hi : Int) (scale : ℚ) (hs : 0 ≤ scale) (buf : List Distance)
    (hbuf : ∀ idx, Distance.zero ≤ buf.getD idx default) (idx : Nat) :
    Distance.zero ≤ (fill_kernel lo hi scale buf).getD idx default := by
  unfold fill_kernel
  have key := forRange_inv lo hi (fun j (st : List Distance × Nat) =>
      forRange lo hi (fun i (st : List Distance × Nat) =>
        (st.1.set st.2 (Distance.hypot_scaled i j scale), st.2 + 1)) st)
    (fun _ st => ∀ idx, Distance.zero ≤ st.1.getD idx default) (buf, 0) hbuf
    (by
      intro b _ st hst
      exact forRange_inv lo hi (fun i (st : List Distance × Nat) =>
          (st.1.set st.2 (Distance.hypot_scaled i (lo + b) scale), st.2 + 1))
        (fun _ st => ∀ idx, Distance.zero ≤ st.1.getD idx default) st hst
        (by
          intro a _ st' hst' idx'
          simp only
          rw [getD_set_dist]
          split
          · exact Distance.hypot_scaled_nonneg _ _ _ hs
          · exact hst' idx'))
  exact key idx

theorem kernel_nonneg (p : plan_t) (hk : KernelBuilt p) (hs : 0 ≤ p.scale) (idx : Nat) :
    Distance.zero ≤ p.dist_kernel.getD idx default := by
  rw [hk.2]
  simp only [plan_t.compute_dist_kernel]
  apply fill_kernel_nonneg _ _ _ hs
  intro idx'
  by_cases h : idx' < (List.replicate ((1 + 2 * ⌈p.max_radius / p.scale⌉) *
      (1 + 2 * ⌈p.max_radius / p.scale⌉)).toNat (default : Distance)).length
  · rw [List.getD_eq_getElem _ _ h, List.getElem_replicate]
    exact Distance.zero_le_default
  · rw [List.getD_eq_default _ _ (not_lt.1 h)]
    exact Distance.zero_le_default

theorem splatOps_nonneg (p : plan_t) (hk : KernelBuilt p) (hs : 0 ≤ p.scale)
    (i j cell k : Int) (v : Distance) (h : SplatOps p i j cell k v) : Distance.zero ≤ v := by
  simp only [SplatOps] at h
  obtain ⟨b, a, _, _, _, _, hv⟩ := h
  rw [hv]
  exact kernel_nonneg p hk hs _

/-- The effect of one write on the dynamic distance of an in-range cell `k`, when that
distance is non-negative. -/
theorem dyn_applyWrite_isMinOf (c : List plan_cell_t) (w : DynWrite) (k : Int)
    (hk0 : 0 ≤ k) (hk1 : k < c.length) (h0 : Distance.zero ≤ (cellAt c k).occ_dist_dyn) :
    IsMinOf (cellAt (applyWrite c w) k).occ_dist_dyn (cellAt c k).occ_dist_dyn
      (fun v => (w = DynWrite.hit k ∧ v = Distance.zero) ∨ w = DynWrite.relax k v) := by
  cases w with
  | hit cell =>
    simp only [applyWrite, cellAt_setCellAt]
    by_cases hc : cell = k
    · subst hc
      rw [if_pos ⟨rfl, hk0, hk1⟩]
      intro x
      simp only [true_and, reduceCtorEq, or_false, forall_eq]
      exact ⟨fun h => ⟨le_trans h h0, h⟩, fun h => h.2⟩
    · rw [if_neg (fun h => hc h.1)]
      intro x
      have : ∀ v, ¬ ((DynWrite.hit cell = DynWrite.hit k ∧ v = Distance.zero) ∨
          DynWrite.hit cell = DynWrite.relax k v) := by
        rintro v (⟨h, _⟩ | h)
        · injection h with h; exact hc h
        · cases h
      exact ⟨fun h => ⟨h, fun v hv => absurd hv (this v)⟩, fun h => h.1⟩
  | relax k' v =>
    simp only [applyWrite]
    by_cases hc : k' = k
    · subst hc
      have hS : ∀ u, ((DynWrite.relax k' v = DynWrite.hit k' ∧ u = Distance.zero) ∨
          DynWrite.relax k' v = DynWrite.relax k' u) ↔ u = v := by
        intro u
        constructor
        · rintro (⟨h, _⟩ | h)
          · cases h
          · injection h with _ h; exact h.symm
        · rintro rfl; exact Or.inr rfl
      intro x
      simp only [hS, forall_eq]
      split
      · rename_i hv
        rw [cellAt_setCellAt_same _ _ _ hk0 hk1]
        exact ⟨fun h => ⟨le_trans h (le_of_lt hv), h⟩, fun h => h.2⟩
      · rename_i hv
        exact ⟨fun h => ⟨h, le_trans h (not_lt.1 hv)⟩, fun h => h.1⟩
    · have hS : ∀ u, ¬ ((DynWrite.relax k' v = DynWrite.hit k ∧ u = Distance.zero) ∨
          DynWrite.relax k' v = DynWrite.relax k u) := by
        rintro u (⟨h, _⟩ | h)
        · cases h
        · injection h with h _; exact hc h
      have e : (cellAt (if v < (cellAt c k').occ_dist_dyn then
          setCellAt c k' { cellAt c k' with occ_dist_dyn := v } else c) k).occ_dist_dyn =
          (cellAt c k).occ_dist_dyn := by
        split
        · rw [cellAt_setCellAt_ne _ _ _ _ hc]
        · rfl
      rw [e]
      intro x
      exact ⟨fun h => ⟨h, fun u hu => absurd hu (hS u)⟩, fun h => h.1⟩

/-- The dynamic distance of an in-range cell after a trace of writes with non-negative
values, started from non-negative distances: the minimum of the old distance, of `0` if the
cell is hit, and of the values min-combined into it. -/
theorem dyn_foldl_isMinOf (tr : List DynWrite) : ∀ (c : List plan_cell_t) (k : Int),
    0 ≤ k → k < c.length → Distance.zero ≤ (cellAt c k).occ_dist_dyn →
    (∀ k' v, DynWrite.relax k' v ∈ tr → Distance.zero ≤ v) →
    IsMinOf (cellAt (tr.foldl applyWrite c) k).occ_dist_dyn (cellAt c k).occ_dist_dyn
      (fun v => (DynWrite.hit k ∈ tr ∧ v = Distance.zero) ∨ DynWrite.relax k v ∈ tr) := by
  induction tr with
  | nil =>
    intro c k _ _ _ _ x
    simp
  | cons w tr ih =>
    intro c k hk0 hk1 h0 hv
    simp only [List.foldl_cons]
    have h1 := dyn_applyWrite_isMinOf c w k hk0 hk1 h0
    have h0' : Distance.zero ≤ (cellAt (applyWrite c w) k).occ_dist_dyn := by
      rw [h1 Distance.zero]
      refine ⟨h0, ?_⟩
      rintro v (⟨_, rfl⟩ | h)
      · exact le_rfl
      · exact hv k v (by rw [h]; exact List.mem_cons_self _ _)
    have h2 := ih (applyWrite c w) k hk0 (by rw [length_applyWrite]; exact hk1) h0'
      (fun k' v h => hv k' v (List.mem_cons_of_mem _ h))
    refine h1.trans_min h2 ?_
    intro v
    simp only [List.mem_cons]
    constructor
    · rintro (⟨h | h, hz⟩ | h | h)
      · exact Or.inl (Or.inl ⟨h.symm, hz⟩)
      · exact Or.inr (Or.inl ⟨h, hz⟩)
      · exact Or.inl (Or.inr h.symm)
      · exact Or.inr (Or.inr h)
    · rintro ((⟨h, hz⟩ | h) | (⟨h, hz⟩ | h))
      · exact Or.inl ⟨Or.inl h.symm, hz⟩
      · exact Or.inr (Or.inl h.symm)
      · exact Or.inl ⟨Or.inr h, hz⟩
      · exact Or.inr (Or.inr h)

theorem occ_state_dyn_applyWrite (c : List plan_cell_t) (w : DynWrite) (k : Int)
    (hk0 : 0 ≤ k) (hk1 : k < c.length)
    (h : (cellAt c k).occ_state_dyn = 1 ∨ w = DynWrite.hit k) :
    (cellAt (applyWrite c w) k).occ_state_dyn = 1 := by
  cases w with
  | hit cell =>
    simp only [applyWrite, cellAt_setCellAt]
    split
    · rfl
    · rename_i hc
      rcases h with h | h
      · exact h
      · injection h with h
        exact absurd ⟨h, by rw [h]; exact hk0, by rw [h]; exact hk1⟩ hc
  | relax k' v =>
    rcases h with h | h
    · simp only [applyWrite]
      split
      · rw [cellAt_setCellAt]
        split
        · rename_i hc; rw [← hc.1] at h; exact h
        · exact h
      · exact h
    · cases h

theorem occ_state_dyn_foldl (tr : List DynWrite) : ∀ (c : List plan_cell_t) (k : Int),
    0 ≤ k → k < c.length →
    ((cellAt c k).occ_state_dyn = 1 ∨ DynWrite.hit k ∈ tr) →
    (cellAt (tr.foldl applyWrite c) k).occ_state_dyn = 1 := by
  induction tr with
  | nil =>
    intro c k _ _ h
    rcases h with h | h
    · exact h
    · exact absurd h (List.not_mem_nil _)
  | cons w tr ih =>
    intro c k hk0 hk1 h
    simp only [List.foldl_cons]
    apply ih _ k hk0 (by rw [length_applyWrite]; exact hk1)
    rcases h with h | h
    · exact Or.inl (occ_state_dyn_applyWrite c w k hk0 hk1 (Or.inl h))
    · rcases List.mem_cons.1 h with h | h
      · exact Or.inl (occ_state_dyn_applyWrite c w k hk0 hk1 (Or.inr h.symm))
      · exact Or.inr h

theorem mem_obstacle_cells (p : plan_t) (obs : List ℚ) (num : Nat) (s : Int × Int) :
    s ∈ obstacle_cells p obs num ↔
      ∃ t, t < num ∧ obstacle_valid p obs t = true ∧
        s = (obstacle_gx p obs t, obstacle_gy p obs t) := by
  simp only [obstacle_cells, List.mem_filter, List.mem_map, List.mem_range]
  constructor
  · rintro ⟨⟨t, ht, rfl⟩, hv⟩
    exact ⟨t, ht, hv, rfl⟩
  · rintro ⟨t, ht, hv, rfl⟩
    exact ⟨⟨t, ht, rfl⟩, hv⟩

/-- The facts about the state after `set_obstacles` that the in-bounds characterisation
rests on: the trace, and for every in-range cell the minimum description of its dynamic
distance. -/
theorem set_obstacles_isMinOf (p : plan_t) (hal : GridAllocated p)
    (hd : ∀ c ∈ p.cells, Distance.zero ≤ c.occ_dist) (hs : 0 < p.scale) (hk : KernelBuilt p)
    (obs : List ℚ) (num : Nat) :
    ∃ tr, ObstacleTrace p obs num tr ∧
      (p.set_obstacles obs num).cells = tr.foldl applyWrite (reset_dyn p).cells ∧
      (∀ k v, DynWrite.relax k v ∈ tr → Distance.zero ≤ v) ∧
      ∀ k : Int, 0 ≤ k → k < p.cells.length →
        IsMinOf (cellAt (p.set_obstacles obs num).cells k).occ_dist_dyn
          (cellAt p.cells k).occ_dist
          (fun v => (DynWrite.hit k ∈ tr ∧ v = Distance.zero) ∨ DynWrite.relax k v ∈ tr) := by
  obtain ⟨tr, htr, hq⟩ := set_obstacles_trace_of p obs num
  have hnn : ∀ k v, DynWrite.relax k v ∈ tr → Distance.zero ≤ v := by
    intro k v h
    obtain ⟨t, _, _, hsp⟩ := htr.relax_sound k v h
    exact splatOps_nonneg p hk (le_of_lt hs) _ _ _ k v hsp
  refine ⟨tr, htr, hq, hnn, fun k hk0 hk1 => ?_⟩
  have hlen : (reset_dyn p).cells.length = p.cells.length := by
    obtain ⟨c', h1, h2, _⟩ := reset_dyn_spec p
    rw [h1]; exact h2
  have hr := reset_dyn_cells p hal k
  have h0 : Distance.zero ≤ (cellAt (reset_dyn p).cells k).occ_dist_dyn := by
    rw [hr]
    exact cellAt_nonneg_of_mem p.cells hd k
  have key := dyn_foldl_isMinOf tr (reset_dyn p).cells k hk0 (by rw [hlen]; exact hk1) h0 hnn
  rw [hr] at key
  rw [hq]
  exact key

/-- C8 as amended. On an initialised allocated grid with valid bounds, non-negative static
distances, `scale > 0` and the kernel built, after `set_obstacles`: if `max_radius >= 0`,
the dynamic distance of every cell inside the bounds is the minimum of its static distance
and of `hypot(di, dj) * scale` over the in-grid point cells within the kernel half-width;
and every in-grid point cell has `occ_state_dyn = 1` and `occ_dist_dyn = 0`. -/
theorem set_obstacles_in_bounds (p : plan_t) (hal : GridAllocated p) (hidx : CellsIndexed p)
    (hb : ValidBounds p) (hd : ∀ c ∈ p.cells, Distance.zero ≤ c.occ_dist) (hs : 0 < p.scale)
    (hk : KernelBuilt p) (obs : List ℚ) (num : Nat) :
    (0 ≤ p.max_radius → ∀ i j, p.VALID_BOUNDS i j = true →
      (cellAt (p.set_obstacles obs num).cells (p.INDEX i j)).occ_dist_dyn =
        dynamic_dist_spec p obs num i j) ∧
    ∀ s ∈ obstacle_cells p obs num,
      (cellAt (p.set_obstacles obs num).cells (p.INDEX s.1 s.2)).occ_state_dyn = 1 ∧
      (cellAt (p.set_obstacles obs num).cells (p.INDEX s.1 s.2)).occ_dist_dyn =
        Distance.zero := by
  obtain ⟨tr, htr, hq, hnn, hmin⟩ := set_obstacles_isMinOf p hal hd hs hk obs num
  have hrange : ∀ i j, p.VALID i j = true →
      0 ≤ p.INDEX i j ∧ p.INDEX i j < p.cells.length := by
    intro i j hv
    have hv' := (VALID_iff p i j).1 hv
    have := index_in_range p.size_x p.size_y i j hv'.1 hv'.2
    unfold GridAllocated at hal
    rw [hal]
    exact this
  constructor
  · intro hr i j hvb
    have hv := VALID_of_VALID_BOUNDS p hb i j hvb
    have hv' := (VALID_iff p i j).1 hv
    obtain ⟨hk0, hk1⟩ := hrange i j hv
    have hinj : ∀ i' j', p.VALID i' j' = true → p.INDEX i j = p.INDEX i' j' →
        i = i' ∧ j = j' := by
      intro i' j' h' e
      exact index_inj p.size_x i j i' j' hv'.1 ((VALID_iff p i' j').1 h').1 e
    have hc := ceil_radius_nonneg p hr hs
    apply (hmin _ hk0 hk1).unique_min (foldl_min_isMinOf _ _ _)
    intro v
    simp only [List.mem_filter, mem_obstacle_cells, Bool.and_eq_true, decide_eq_true_eq,
      kernel_width_built p hk, tdiv_odd _ hc, abs_le]
    constructor
    · rintro (⟨hhit, hvz⟩ | hrel)
      · obtain ⟨t, ht, hvt, e⟩ := htr.hit_sound _ hhit
        obtain ⟨e1, e2⟩ := hinj _ _ ((obstacle_valid_iff p obs t).1 hvt) e
        refine ⟨(obstacle_gx p obs t, obstacle_gy p obs t), ⟨⟨t, ht, hvt, rfl⟩, ?_, ?_⟩, ?_⟩
        · simp only; omega
        · simp only; omega
        · simp only
          rw [hvz, ← e1, ← e2, sub_self, sub_self, Distance.hypot_scaled_zero]
      · obtain ⟨t, ht, hvt, hsp⟩ := htr.relax_sound _ v hrel
        have hvt' := (obstacle_valid_iff p obs t).1 hvt
        have e1 : (cellAt p.cells (obstacle_cell p obs t)).ci = obstacle_gx p obs t :=
          hidx.ci_indexed _ _ hvt'
        have e2 : (cellAt p.cells (obstacle_cell p obs t)).cj = obstacle_gy p obs t :=
          hidx.cj_indexed _ _ hvt'
        rw [e1, e2, splatOps_built p hk hr hs] at hsp
        obtain ⟨di, dj, hdi, hdj, hvb', hk', hv''⟩ := hsp
        have e : p.INDEX i j = p.INDEX (obstacle_gx p obs t + di) (obstacle_gy p obs t + dj) := by
          rw [hk']
          simp only [obstacle_cell, plan_t.INDEX]
          ring
        obtain ⟨e3, e4⟩ := hinj _ _ (VALID_of_VALID_BOUNDS p hb _ _ hvb') e
        refine ⟨(obstacle_gx p obs t, obstacle_gy p obs t), ⟨⟨t, ht, hvt, rfl⟩, ?_, ?_⟩, ?_⟩
        · simp only; omega
        · simp only; omega
        · simp only
          rw [hv'']
          congr 1 <;> omega
    · rintro ⟨⟨si, sj⟩, ⟨⟨t, ht, hvt, est⟩, hdi, hdj⟩, hv''⟩
      simp only [Prod.mk.injEq] at est
      obtain ⟨rfl, rfl⟩ := est
      simp only at hdi hdj hv''
      right
      apply htr.relax_complete t ht hvt
      have hvt' := (obstacle_valid_iff p obs t).1 hvt
      have e1 : (cellAt p.cells (obstacle_cell p obs t)).ci = obstacle_gx p obs t :=
        hidx.ci_indexed _ _ hvt'
      have e2 : (cellAt p.cells (obstacle_cell p obs t)).cj = obstacle_gy p obs t :=
        hidx.cj_indexed _ _ hvt'
      rw [e1, e2, splatOps_built p hk hr hs]
      refine ⟨i - obstacle_gx p obs t, j - obstacle_gy p obs t, by omega, by omega, ?_, ?_, hv''⟩
      · have a1 : obstacle_gx p obs t + (i - obstacle_gx p obs t) = i := by ring
        have a2 : obstacle_gy p obs t + (j - obstacle_gy p obs t) = j := by ring
        rw [a1, a2]; exact hvb
      · simp only [obstacle_cell, plan_t.INDEX]
        ring
  · intro s hsmem
    obtain ⟨t, ht, hvt, rfl⟩ := (mem_obstacle_cells p obs num s).1 hsmem
    have hvt' := (obstacle_valid_iff p obs t).1 hvt
    obtain ⟨hk0, hk1⟩ := hrange _ _ hvt'
    have hhit := htr.hit_complete t ht hvt
    have hlen : (reset_dyn p).cells.length = p.cells.length := by
      obtain ⟨c', h1, h2, _⟩ := reset_dyn_spec p
      rw [h1]; exact h2
    constructor
    · rw [hq]
      exact occ_state_dyn_foldl tr _ _ hk0 (by rw [hlen]; exact hk1) (Or.inr hhit)
    · have hm := hmin _ hk0 hk1
      apply le_antisymm
      · exact hm.le_of (Or.inl ⟨hhit, rfl⟩)
      · rw [hm Distance.zero]
        refine ⟨cellAt_nonneg_of_mem p.cells hd _, ?_⟩
        rintro v (⟨_, rfl⟩ | h)
        · exact le_rfl
        · exact hnn _ v h

/-! ## Concrete runs of `set_obstacles` -/

set_option maxRecDepth 10000 in
theorem scenario_initialised : CellsIndexed scenario ∧ ValidBounds scenario ∧
    (∀ c ∈ scenario.cells, Distance.zero ≤ c.occ_dist) := by
  with_unfolding_all decide

set_option maxRecDepth 10000 in
theorem strip_offset_initialised : GridAllocated strip_offset ∧ CellsIndexed strip_offset ∧
    ValidBounds strip_offset ∧ KernelBuilt strip_offset ∧
    (∀ c ∈ strip_offset.cells, Distance.zero ≤ c.occ_dist) ∧ 0 < strip_offset.scale := by
  with_unfolding_all decide

/-- Witness for C6: the scenario grid, also after an earlier call with the point
`(3.0, 3.0)`. -/
theorem set_obstacles_empty_resets_witness :
    (∀ c ∈ (scenario.set_obstacles [] 0).cells,
      c.occ_dist_dyn = c.occ_dist ∧ c.occ_state_dyn = c.occ_state ∧ c.mark = false) ∧
    (∀ c ∈ ((scenario.set_obstacles [3, 3] 1).set_obstacles [] 0).cells,
      c.occ_dist_dyn = c.occ_dist ∧ c.occ_state_dyn = c.occ_state ∧ c.mark = false) :=
  set_obstacles_empty_resets scenario scenario_facts.1 [3, 3] 1

/-- Witness for C7: the scenario grid with the point `(3.0, 3.0)`. -/
theorem set_obstacles_tightens_witness :
    (∀ c ∈ (scenario.set_obstacles [3, 3] 1).cells, c.occ_dist_dyn ≤ c.occ_dist) ∧
    ∀ k : Int, (cellAt (scenario.set_obstacles [3, 3] 1).cells k).occ_dist_dyn ≤
      (cellAt (scenario.set_obstacles [] 0).cells k).occ_dist_dyn :=
  set_obstacles_tightens scenario scenario_facts.1 scenario_initialised.2.2 [3, 3] 1

set_option maxRecDepth 10000 in
/-- Counterexample to C8 as stated. With `max_radius = -2` (and `scale = 1`, all static
distances `9`, the grid initialised, the bounds the full grid) the point `(1.0, 0.0)` sets
the dynamic distance of cell `(1,0)` to `0`, while the stated minimum ranges over no cell
(`h = kernel_width / 2 = -1`) and equals the static distance `9`. -/
theorem set_obstacles_in_bounds_counterexample :
    GridAllocated strip_negative_radius ∧ CellsIndexed strip_negative_radius ∧
    ValidBounds strip_negative_radius ∧ KernelBuilt strip_negative_radius ∧
    (∀ c ∈ strip_negative_radius.cells, Distance.zero ≤ c.occ_dist) ∧
    0 < strip_negative_radius.scale ∧
    strip_negative_radius.VALID_BOUNDS 1 0 = true ∧
    (cellAt (strip_negative_radius.set_obstacles [1, 0] 1).cells
      (strip_negative_radius.INDEX 1 0)).occ_dist_dyn = Distance.zero ∧
    dynamic_dist_spec strip_negative_radius [1, 0] 1 1 0 = Distance.ofRat 9 ∧
    (cellAt (strip_negative_radius.set_obstacles [1, 0] 1).cells
      (strip_negative_radius.INDEX 1 0)).occ_dist_dyn ≠
      dynamic_dist_spec strip_negative_radius [1, 0] 1 1 0 := by
  with_unfolding_all decide

set_option maxRecDepth 10000 in
/-- Witness for C8 as amended: on the scenario grid the point `(3.0, 3.0)` makes cell `(3,3)`
occupied with dynamic distance `0`, and its neighbour `(4,3)` gets distance `1`. -/
theorem set_obstacles_in_bounds_witness :
    (cellAt (scenario.set_obstacles [3, 3] 1).cells (scenario.INDEX 3 3)).occ_state_dyn = 1 ∧
    (cellAt (scenario.set_obstacles [3, 3] 1).cells (scenario.INDEX 3 3)).occ_dist_dyn =
      Distance.zero ∧
    (cellAt (scenario.set_obstacles [3, 3] 1).cells (scenario.INDEX 4 3)).occ_dist_dyn =
      Distance.ofRat 1 :=
  ⟨((set_obstacles_in_bounds scenario scenario_facts.1 scenario_initialised.1
      scenario_initialised.2.1 scenario_initialised.2.2 scenario_facts.2.2.2.1
      scenario_facts.2.1 [3, 3] 1).2 (3, 3) (by with_unfolding_all decide)).1,
   ((set_obstacles_in_bounds scenario scenario_facts.1 scenario_initialised.1
      scenario_initialised.2.1 scenario_initialised.2.2 scenario_facts.2.2.2.1
      scenario_facts.2.1 [3, 3] 1).2 (3, 3) (by with_unfolding_all decide)).2,
   ((set_obstacles_in_bounds scenario scenario_facts.1 scenario_initialised.1
      scenario_initialised.2.1 scenario_initialised.2.2 scenario_facts.2.2.2.1
      scenario_facts.2.1 [3, 3] 1).1 scenario_facts.2.2.2.2.1 4 3
      (by with_unfolding_all decide)).trans (by with_unfolding_all rfl)⟩

set_option maxRecDepth 10000 in
/-- Counterexample to C9 as stated. On the initialised strip with bounds `(1,0)-(2,0)` the
point `(0.0, 0.0)` maps to cell `(0,0)`, which is in the grid but outside the bounds; after
`set_obstacles` its dynamic distance is `0` while its static distance is `9`. -/
theorem set_obstacles_outside_bounds_counterexample :
    GridAllocated strip_offset ∧ CellsIndexed strip_offset ∧ ValidBounds strip_offset ∧
    KernelBuilt strip_offset ∧
    strip_offset.VALID 0 0 = true ∧ strip_offset.VALID_BOUNDS 0 0 = false ∧
    (cellAt (strip_offset.set_obstacles [0, 0] 1).cells
      (strip_offset.INDEX 0 0)).occ_dist_dyn = Distance.zero ∧
    (cellAt (strip_offset.set_obstacles [0, 0] 1).cells
      (strip_offset.INDEX 0 0)).occ_dist = Distance.ofRat 9 ∧
    (cellAt (strip_offset.set_obstacles [0, 0] 1).cells
      (strip_offset.INDEX 0 0)).occ_dist_dyn ≠
    (cellAt (strip_offset.set_obstacles [0, 0] 1).cells
      (strip_offset.INDEX 0 0)).occ_dist := by
  with_unfolding_all decide

set_option maxRecDepth 10000 in
/-- Witness for C9 as amended: on the strip with bounds `(1,0)-(2,0)` and the single point
`(2.0, 0.0)`, cell `(0,0)` is outside the bounds and no point maps to it. -/
theorem set_obstacles_outside_bounds_witness :
    (cellAt (strip_offset.set_obstacles [2, 0] 1).cells
        (strip_offset.INDEX 0 0)).occ_dist_dyn =
      (cellAt (strip_offset.set_obstacles [2, 0] 1).cells (strip_offset.INDEX 0 0)).occ_dist ∧
    (cellAt (strip_offset.set_obstacles [2, 0] 1).cells
        (strip_offset.INDEX 0 0)).occ_dist_dyn =
      (cellAt strip_offset.cells (strip_offset.INDEX 0 0)).occ_dist :=
  set_obstacles_outside_bounds strip_offset strip_offset_initialised.1
    strip_offset_initialised.2.1 strip_offset_initialised.2.2.1 [2, 0] 1 0 0
    (by with_unfolding_all decide) (by with_unfolding_all decide)
    (by with_unfolding_all decide)

/-! ## `set_bounds` -/

theorem clamp_into_eq (lo hi x : Int) (h : lo ≤ hi) :
    min hi (max lo x) = clamp_into lo hi x := by
  unfold clamp_into
  split
  · rw [max_eq_left (by omega), min_eq_right h]
  · split
    · rw [max_eq_right (by omega), min_eq_left (by omega)]
    · rw [max_eq_right (by omega), min_eq_right (by omega)]

theorem set_bounds_eq_some (p : plan_t) (a b c d : Int) (hac : a ≤ c) (hbd : b ≤ d) :
    p.set_bounds a b c d = some { p with
      min_x := min (p.size_x - 1) (max 0 a)
      min_y := min (p.size_y - 1) (max 0 b)
      max_x := min (p.size_x - 1) (max 0 c)
      max_y := min (p.size_y - 1) (max 0 d) } := by
  simp only [plan_t.set_bounds, hac, hbd, not_true_eq_false, if_false]

/-- C11. Bounds clamp: on a grid with `width, height >= 1`, `set_bounds(a, b, c, d)` with
`a <= c` and `b <= d` succeeds, changes nothing but the bounds, stores each argument
clamped into `[0, width-1]` resp. `[0, height-1]`, and the stored bounds satisfy
`0 <= min_x <= max_x <= width-1` and `0 <= min_y <= max_y <= height-1`. -/
theorem set_bounds_clamps (p : plan_t) (hw : 1 ≤ p.size_x) (hh : 1 ≤ p.size_y)
    (a b c d : Int) (hac : a ≤ c) (hbd : b ≤ d) :
    ∃ q, p.set_bounds a b c d = some q ∧
      q = { p with min_x := q.min_x, min_y := q.min_y, max_x := q.max_x, max_y := q.max_y } ∧
      q.min_x = clamp_into 0 (p.size_x - 1) a ∧ q.min_y = clamp_into 0 (p.size_y - 1) b ∧
      q.max_x = clamp_into 0 (p.size_x - 1) c ∧ q.max_y = clamp_into 0 (p.size_y - 1) d ∧
      (0 ≤ q.min_x ∧ q.min_x ≤ q.max_x ∧ q.max_x ≤ p.size_x - 1) ∧
      (0 ≤ q.min_y ∧ q.min_y ≤ q.max_y ∧ q.max_y ≤ p.size_y - 1) := by
  refine ⟨_, set_bounds_eq_some p a b c d hac hbd, rfl, ?_, ?_, ?_, ?_, ?_, ?_⟩
  · exact clamp_into_eq 0 _ a (by omega)
  · exact clamp_into_eq 0 _ b (by omega)
  · exact clamp_into_eq 0 _ c (by omega)
  · exact clamp_into_eq 0 _ d (by omega)
  · simp only
    omega
  · simp only
    omega

/-- Witness for C11: `set_bounds(-5, 2, 40, 3)` on the scenario grid. -/
theorem set_bounds_clamps_witness :
    ∃ q, scenario.set_bounds (-5) 2 40 3 = some q ∧
      q = { scenario with min_x := q.min_x, min_y := q.min_y, max_x := q.max_x,
                          max_y := q.max_y } ∧
      q.min_x = clamp_into 0 (scenario.size_x - 1) (-5) ∧
      q.min_y = clamp_into 0 (scenario.size_y - 1) 2 ∧
      q.max_x = clamp_into 0 (scenario.size_x - 1) 40 ∧
      q.max_y = clamp_into 0 (scenario.size_y - 1) 3 ∧
      (0 ≤ q.min_x ∧ q.min_x ≤ q.max_x ∧ q.max_x ≤ scenario.size_x - 1) ∧
      (0 ≤ q.min_y ∧ q.min_y ≤ q.max_y ∧ q.max_y ≤ scenario.size_y - 1) :=
  set_bounds_clamps scenario (by with_unfolding_all decide) (by with_unfolding_all decide)
    (-5) 2 40 3 (by decide) (by decide)

theorem set_bounds_steps_of_le (p : plan_t) (a b c d : Int) (hac : a ≤ c) (hbd : b ≤ d) :
    p.set_bounds_steps a b c d = Except.ok { p with
      min_x := min (p.size_x - 1) (max 0 a)
      min_y := min (p.size_y - 1) (max 0 b)
      max_x := min (p.size_x - 1) (max 0 c)
      max_y := min (p.size_y - 1) (max 0 d) } := by
  simp [plan_t.set_bounds_steps, assert_stmt, Except.bind, hac, hbd]

theorem set_bounds_steps_of_not_le (p : plan_t) (a b c d : Int) (h : ¬ (a ≤ c ∧ b ≤ d)) :
    p.set_bounds_steps a b c d = Except.error p := by
  by_cases hac : a ≤ c
  · have hbd : ¬ b ≤ d := fun hbd => h ⟨hac, hbd⟩
    simp [plan_t.set_bounds_steps, assert_stmt, Except.bind, hac, hbd]
  · simp [plan_t.set_bounds_steps, assert_stmt, Except.bind, hac]

theorem set_bounds_of_not_le (p : plan_t) (a b c d : Int) (h : ¬ (a ≤ c ∧ b ≤ d)) :
    p.set_bounds a b c d = none := by
  by_cases hac : a ≤ c
  · have hbd : ¬ b ≤ d := fun hbd => h ⟨hac, hbd⟩
    simp [plan_t.set_bounds, hac, hbd]
  · simp [plan_t.set_bounds, hac]

/-- The `Option`-valued `set_bounds` is the statement-by-statement one with the state at a
failed assertion dropped. -/
theorem set_bounds_steps_agree (p : plan_t) (a b c d : Int) :
    p.set_bounds a b c d =
      match p.set_bounds_steps a b c d with
      | Except.ok s => some s
      | Except.error _ => none := by
  by_cases h : a ≤ c ∧ b ≤ d
  · rw [set_bounds_steps_of_le p a b c d h.1 h.2, set_bounds_eq_some p a b c d h.1 h.2]
  · rw [set_bounds_steps_of_not_le p a b c d h, set_bounds_of_not_le p a b c d h]

/-- C12. `set_bounds` rejects malformed rectangles atomically: it fails exactly when
`a > c` or `b > d`, and the planner at the failed assertion is the planner before the call,
so none of `min_x`, `min_y`, `max_x`, `max_y` has been written. -/
theorem set_bounds_rejects_atomically (p : plan_t) (a b c d : Int) :
    (p.set_bounds a b c d = none ↔ (a > c ∨ b > d)) ∧
    ((∃ s, p.set_bounds_steps a b c d = Except.error s) ↔ (a > c ∨ b > d)) ∧
    ∀ s, p.set_bounds_steps a b c d = Except.error s →
      s = p ∧ s.min_x = p.min_x ∧ s.min_y = p.min_y ∧ s.max_x = p.max_x ∧
        s.max_y = p.max_y := by
  by_cases h : a ≤ c ∧ b ≤ d
  · have h1 : ¬ (a > c ∨ b > d) := by omega
    rw [set_bounds_steps_of_le p a b c d h.1 h.2, set_bounds_eq_some p a b c d h.1 h.2]
    refine ⟨?_, ?_, ?_⟩
    · simp [h1]
    · simp [h1]
    · intro s hs
      cases hs
  · have h1 : (a > c ∨ b > d) := by omega
    rw [set_bounds_steps_of_not_le p a b c d h, set_bounds_of_not_le p a b c d h]
    refine ⟨?_, ?_, ?_⟩
    · simp [h1]
    · exact ⟨fun _ => h1, fun _ => ⟨p, rfl⟩⟩
    · intro s hs
      injection hs with hs
      subst hs
      exact ⟨rfl, rfl, rfl, rfl, rfl⟩

/-- Witness for C12: `set_bounds(5, 0, 2, 0)` on the scenario grid fails and leaves the
planner as it was. -/
theorem set_bounds_rejects_atomically_witness :
    scenario.set_bounds 5 0 2 0 = none ∧
      scenario.set_bounds_steps 5 0 2 0 = Except.error scenario :=
  ⟨(set_bounds_rejects_atomically scenario 5 0 2 0).1.2 (Or.inl (by decide)),
    match (set_bounds_rejects_atomically scenario 5 0 2 0).2.1.2 (Or.inl (by decide)) with
    | ⟨s, hs⟩ => ((set_bounds_rejects_atomically scenario 5 0 2 0).2.2 s hs).1 ▸ hs⟩

/-! ## World and grid coordinates -/

theorem trunc_of_nonneg (x : ℚ) (h : 0 ≤ x) : trunc x = ⌊x⌋ := by
  simp [trunc, h]

theorem trunc_int_add_half (i : Int) (h : 0 ≤ i) : trunc ((i : ℚ) + 1 / 2) = i := by
  rw [trunc_of_nonneg _ (by positivity), Int.floor_int_add]
  have : ⌊(1 : ℚ) / 2⌋ = 0 := by
    rw [Int.floor_eq_iff]
    norm_num
  rw [this, add_zero]

/-- Where the rounded expression is non-negative, `GXWX` is the floor the specification
names. -/
theorem GXWX_eq_floor_of_nonneg (p : plan_t) (x : ℚ)
    (h : 0 ≤ (x - p.origin_x) / p.scale + 1 / 2) :
    p.GXWX x = ⌊(x - p.origin_x) / p.scale + 1 / 2⌋ :=
  trunc_of_nonneg _ h

set_option maxRecDepth 10000 in
/-- C15 (code defect). On the scenario grid (`origin = 0`, `scale = 1`) the world
coordinate `-1.0`, which is the centre of grid column `-1`, is mapped by `GXWX` to column
`0`, and likewise by `GYWY` to row `0`, while `floor((x - origin) / scale + 0.5)` is `-1`:
the cast `(int)` truncates toward zero where `floor` rounds down. -/
theorem GXWX_truncates_toward_zero :
    0 < scenario.scale ∧ scenario.WXGX (-1) = -1 ∧
    scenario.GXWX (-1) = 0 ∧ ⌊((-1 : ℚ) - scenario.origin_x) / scenario.scale + 1 / 2⌋ = -1 ∧
    scenario.GYWY (-1) = 0 ∧ ⌊((-1 : ℚ) - scenario.origin_y) / scenario.scale + 1 / 2⌋ = -1 ∧
    scenario.VALID (scenario.GXWX (-1)) (scenario.GYWY (-1)) = true := by
  with_unfolding_all decide

/-- C16. Coordinate round trip: with `scale != 0`, for every in-grid `(i, j)`,
`GXWX(WXGX(i)) = i` and `GYWY(WYGY(j)) = j`. -/
theorem grid_world_round_trip (p : plan_t) (hs : p.scale ≠ 0) (i j : Int)
    (hv : p.VALID i j = true) :
    p.GXWX (p.WXGX i) = i ∧ p.GYWY (p.WYGY j) = j := by
  rw [VALID_iff] at hv
  constructor
  · have e : (p.WXGX i - p.origin_x) / p.scale + 1 / 2 = (i : ℚ) + 1 / 2 := by
      unfold plan_t.WXGX
      field_simp
    unfold plan_t.GXWX
    rw [e]
    exact trunc_int_add_half i hv.1.1
  · have e : (p.WYGY j - p.origin_y) / p.scale + 1 / 2 = (j : ℚ) + 1 / 2 := by
      unfold plan_t.WYGY
      field_simp
    unfold plan_t.GYWY
    rw [e]
    exact trunc_int_add_half j hv.2.1

set_option maxRecDepth 10000 in
/-- Witness for C16: cell `(7, 2)` of the scenario grid. -/
theorem grid_world_round_trip_witness :
    scenario.GXWX (scenario.WXGX 7) = 7 ∧ scenario.GYWY (scenario.WYGY 2) = 2 :=
  grid_world_round_trip scenario (by with_unfolding_all decide) 7 2
    (by with_unfolding_all decide)

/-! ## Kernel symmetry -/

theorem Distance.hypot_scaled_neg (i j : Int) (scale : ℚ) :
    Distance.hypot_scaled (-i) (-j) scale = Distance.hypot_scaled i j scale := by
  simp only [Distance.hypot_scaled, Int.cast_neg, neg_mul_neg]

theorem Distance.hypot_scaled_swap (i j : Int) (scale : ℚ) :
    Distance.hypot_scaled j i scale = Distance.hypot_scaled i j scale := by
  simp only [Distance.hypot_scaled, add_comm]

theorem KernelBuilt_compute_dist_kernel (p : plan_t) : KernelBuilt p.compute_dist_kernel :=
  ⟨rfl, rfl⟩

/-- The built kernel read at an offset within the half-width. -/
theorem kernel_at_built (p : plan_t) (hk : KernelBuilt p) (hr : 0 ≤ p.max_radius)
    (hs : 0 < p.scale) (di dj : Int)
    (hdi : |di| ≤ Int.tdiv p.dist_kernel_width 2) (hdj : |dj| ≤ Int.tdiv p.dist_kernel_width 2) :
    p.kernel_at di dj = Distance.hypot_scaled di dj p.scale := by
  have hc := ceil_radius_nonneg p hr hs
  have hget := kernel_built_getD p hk hr hs
  unfold plan_t.kernel_at
  rw [kernel_width_built p hk] at hdi hdj ⊢
  generalize ⌈p.max_radius / p.scale⌉ = c at *
  rw [tdiv_odd c hc] at hdi hdj ⊢
  rw [abs_le] at hdi hdj
  have e : ((dj + c) * (1 + 2 * c) + (di + c)).toNat =
      (dj + c).toNat * (1 + 2 * c).toNat + (di + c).toNat := by
    have h1 : ((dj + c).toNat : Int) = dj + c := Int.toNat_of_nonneg (by omega)
    have h2 : ((di + c).toNat : Int) = di + c := Int.toNat_of_nonneg (by omega)
    have h3 : ((1 + 2 * c).toNat : Int) = 1 + 2 * c := Int.toNat_of_nonneg (by omega)
    have h4 : (dj + c) * (1 + 2 * c) + (di + c) =
        (((dj + c).toNat * (1 + 2 * c).toNat + (di + c).toNat : Nat) : Int) := by
      push_cast
      rw [h1, h2, h3]
    rw [h4, Int.toNat_ofNat]
  rw [e, hget _ _ (by omega) (by omega)]
  congr 1 <;> omega

theorem kernel_3x3_at_built (p : plan_t) (h3 : p.dist_kernel_3x3.length = 9) (di dj : Int)
    (hdi : |di| ≤ 1) (hdj : |dj| ≤ 1) :
    p.compute_dist_kernel.kernel_3x3_at di dj = Distance.hypot_scaled di dj p.scale := by
  rw [abs_le] at hdi hdj
  unfold plan_t.kernel_3x3_at
  simp only [plan_t.compute_dist_kernel]
  have e : ((dj + 1) * 3 + (di + 1)).toNat = (dj + 1).toNat * 3 + (di + 1).toNat := by omega
  have hn : ((1 : Int) + 1 - -1).toNat = 3 := by decide
  have := fill_kernel_getD (-1) 1 p.scale p.dist_kernel_3x3 (di + 1).toNat (dj + 1).toNat
    (by rw [hn]; omega) (by rw [hn]; omega) (by rw [hn, h3])
  rw [hn] at this
  rw [e, this]
  congr 1 <;> omega

/-- C17. Kernel symmetry: with `max_radius >= 0` and `scale > 0` the kernel written by
`compute_dist_kernel` has the odd width `1 + 2 * ceil(max_radius / scale)`; read as
`K(di, dj) = dist_kernel[(dj + h) * kernel_width + (di + h)]` on offsets in `[-h, h]²` it
satisfies `K(di, dj) = K(-di, -dj) = K(dj, di)` and `K(0, 0) = 0`; the `3 × 3` kernel (an
array of `9` floats) satisfies the same on offsets `-1..1`. -/
theorem compute_dist_kernel_symmetric (p : plan_t) (hr : 0 ≤ p.max_radius) (hs : 0 < p.scale)
    (h3 : p.dist_kernel_3x3.length = 9) :
    p.compute_dist_kernel.dist_kernel_width = 1 + 2 * ⌈p.max_radius / p.scale⌉ ∧
    p.compute_dist_kernel.dist_kernel_width % 2 = 1 ∧
    (∀ di dj : Int, |di| ≤ Int.tdiv p.compute_dist_kernel.dist_kernel_width 2 →
      |dj| ≤ Int.tdiv p.compute_dist_kernel.dist_kernel_width 2 →
      p.compute_dist_kernel.kernel_at di dj = p.compute_dist_kernel.kernel_at (-di) (-dj) ∧
      p.compute_dist_kernel.kernel_at di dj = p.compute_dist_kernel.kernel_at dj di) ∧
    p.compute_dist_kernel.kernel_at 0 0 = Distance.zero ∧
    (∀ di dj : Int, |di| ≤ 1 → |dj| ≤ 1 →
      p.compute_dist_kernel.kernel_3x3_at di dj =
        p.compute_dist_kernel.kernel_3x3_at (-di) (-dj) ∧
      p.compute_dist_kernel.kernel_3x3_at di dj = p.compute_dist_kernel.kernel_3x3_at dj di) ∧
    p.compute_dist_kernel.kernel_3x3_at 0 0 = Distance.zero := by
  have hk := KernelBuilt_compute_dist_kernel p
  have hr' : 0 ≤ p.compute_dist_kernel.max_radius := hr
  have hs' : 0 < p.compute_dist_kernel.scale := hs
  have hc := ceil_radius_nonneg p hr hs
  have hw : p.compute_dist_kernel.dist_kernel_width = 1 + 2 * ⌈p.max_radius / p.scale⌉ := rfl
  have hh : 0 ≤ Int.tdiv p.compute_dist_kernel.dist_kernel_width 2 := by
    rw [hw, tdiv_odd _ hc]; exact hc
  refine ⟨hw, by rw [hw]; omega, ?_, ?_, ?_, ?_⟩
  · intro di dj hdi hdj
    rw [kernel_at_built _ hk hr' hs' di dj hdi hdj,
      kernel_at_built _ hk hr' hs' (-di) (-dj) (by rw [abs_neg]; exact hdi)
        (by rw [abs_neg]; exact hdj),
      kernel_at_built _ hk hr' hs' dj di hdj hdi, Distance.hypot_scaled_neg,
      Distance.hypot_scaled_swap dj di]
    exact ⟨rfl, rfl⟩
  · rw [kernel_at_built _ hk hr' hs' 0 0 (by simpa using hh) (by simpa using hh),
      Distance.hypot_scaled_zero]
  · intro di dj hdi hdj
    rw [kernel_3x3_at_built p h3 di dj hdi hdj,
      kernel_3x3_at_built p h3 (-di) (-dj) (by rw [abs_neg]; exact hdi)
        (by rw [abs_neg]; exact hdj),
      kernel_3x3_at_built p h3 dj di hdj hdi, Distance.hypot_scaled_neg,
      Distance.hypot_scaled_swap dj di]
    exact ⟨rfl, rfl⟩
  · rw [kernel_3x3_at_built p h3 0 0 (by simp) (by simp), Distance.hypot_scaled_zero]

set_option maxRecDepth 10000 in
/-- Witness for C17: the scenario grid before `init()` (`max_radius = 2`, `scale = 1`):
the kernel has width `5`, and for instance `K(1, 2) = K(-1, -2) = K(2, 1)`. -/
theorem compute_dist_kernel_symmetric_witness :
    scenario_loaded.compute_dist_kernel.dist_kernel_width = 5 ∧
    scenario_loaded.compute_dist_kernel.kernel_at 1 2 =
      scenario_loaded.compute_dist_kernel.kernel_at (-1) (-2) ∧
    scenario_loaded.compute_dist_kernel.kernel_at 1 2 =
      scenario_loaded.compute_dist_kernel.kernel_at 2 1 ∧
    scenario_loaded.compute_dist_kernel.kernel_at 0 0 = Distance.zero :=
  ⟨by with_unfolding_all rfl,
    ((compute_dist_kernel_symmetric scenario_loaded (by with_unfolding_all decide)
      (by with_unfolding_all decide) (by with_unfolding_all decide)).2.2.1 1 2
      (by with_unfolding_all decide) (by with_unfolding_all decide)).1,
    ((compute_dist_kernel_symmetric scenario_loaded (by with_unfolding_all decide)
      (by with_unfolding_all decide) (by with_unfolding_all decide)).2.2.1 1 2
      (by with_unfolding_all decide) (by with_unfolding_all decide)).2,
    (compute_dist_kernel_symmetric scenario_loaded (by with_unfolding_all decide)
      (by with_unfolding_all decide) (by with_unfolding_all decide)).2.2.2.1⟩

/-! ## `reset` -/

theorem clearCell_clearCell (M : Distance) (c : plan_cell_t) :
    clearCell M (clearCell M c) = clearCell M c := rfl

theorem ClearedOn.refl_cleared (M : Distance) (c : List plan_cell_t) :
    ClearedOn M (fun _ => False) c c :=
  ⟨rfl, fun _ h => absurd h not_false, fun _ _ => rfl⟩

theorem ClearedOn.either {M : Distance} {T : Int → Prop} {c c' : List plan_cell_t}
    (h : ClearedOn M T c c') (k : Int) :
    cellAt c' k = cellAt c k ∨ cellAt c' k = clearCell M (cellAt c k) := by
  by_cases hT : T k
  · by_cases hk : 0 ≤ k ∧ k < c.length
    · exact Or.inr (h.cleared k hT hk.1 hk.2)
    · left
      rw [cellAt_out_of_range _ _ hk, cellAt_out_of_range _ _ (by rw [h.length_eq]; exact hk)]
  · exact Or.inl (h.kept k hT)

theorem ClearedOn.trans_cleared {M : Distance} {T1 T2 T : Int → Prop}
    {c c' c'' : List plan_cell_t} (h1 : ClearedOn M T1 c c') (h2 : ClearedOn M T2 c' c'')
    (hT : ∀ k, T k ↔ T1 k ∨ T2 k) : ClearedOn M T c c'' := by
  refine ⟨h2.length_eq.trans h1.length_eq, fun k hk hk0 hk1 => ?_, fun k hk => ?_⟩
  · by_cases h2k : T2 k
    · rw [h2.cleared k h2k hk0 (by rw [h1.length_eq]; exact hk1)]
      rcases h1.either k with e | e
      · rw [e]
      · rw [e, clearCell_clearCell]
    · have h1k : T1 k := by
        rcases (hT k).1 hk with h | h
        · exact h
        · exact absurd h h2k
      rw [h2.kept k h2k, h1.cleared k h1k hk0 hk1]
  · have hn : ¬ T1 k ∧ ¬ T2 k := by
      constructor
      · exact fun h => hk ((hT k).2 (Or.inl h))
      · exact fun h => hk ((hT k).2 (Or.inr h))
    rw [h2.kept k hn.2, h1.kept k hn.1]

theorem ClearedOn.step_cleared (M : Distance) (c : List plan_cell_t) (k0 : Int) :
    ClearedOn M (fun k => k = k0) c (setCellAt c k0 (clearCell M (cellAt c k0))) := by
  refine ⟨length_setCellAt _ _ _, fun k hk hk0 hk1 => ?_, fun k hk => ?_⟩
  · subst hk
    rw [cellAt_setCellAt_same _ _ _ hk0 hk1]
  · exact cellAt_setCellAt_ne _ _ _ _ (Ne.symm hk)

theorem PlanCleared.refl_cleared_plan (M : Distance) (p : plan_t) :
    PlanCleared M (fun _ => False) p p :=
  ⟨p.cells, rfl, ClearedOn.refl_cleared M _⟩

theorem PlanCleared.trans_cleared_plan {M : Distance} {T1 T2 T : Int → Prop}
    {p p' p'' : plan_t} (h1 : PlanCleared M T1 p p') (h2 : PlanCleared M T2 p' p'')
    (hT : ∀ k, T k ↔ T1 k ∨ T2 k) : PlanCleared M T p p'' := by
  obtain ⟨c1, rfl, hc1⟩ := h1
  obtain ⟨c2, rfl, hc2⟩ := h2
  exact ⟨c2, rfl, hc1.trans_cleared hc2 hT⟩

theorem PlanCleared.congr_cleared_plan {M : Distance} {T T' : Int → Prop} {p p' : plan_t}
    (h : PlanCleared M T p p') (hT : ∀ k, T' k ↔ T k) : PlanCleared M T' p p' :=
  h.trans_cleared_plan (PlanCleared.refl_cleared_plan M p') (by simpa using hT)

theorem reset_row (M : Distance) (p0 : plan_t) (j lo hi : Int) :
    PlanCleared M (fun k => ∃ a : Nat, a < (hi + 1 - lo).toNat ∧ k = p0.INDEX (lo + a) j) p0
      (forRange lo hi (fun i plan =>
        let c1 := clearCell M (cellAt plan.cells (plan.INDEX i j))
        { plan with cells := setCellAt plan.cells (plan.INDEX i j) c1 }) p0) := by
  refine forRange_inv lo hi _
    (fun a q => PlanCleared M (fun k => ∃ a' : Nat, a' < a ∧ k = p0.INDEX (lo + a') j) p0 q) p0
    ((PlanCleared.refl_cleared_plan M p0).congr_cleared_plan (by simp)) ?_
  intro a _ q hq
  obtain ⟨c, rfl, hc⟩ := hq
  refine PlanCleared.trans_cleared_plan ⟨c, rfl, hc⟩
    ⟨_, rfl, ClearedOn.step_cleared M c (p0.INDEX (lo + a) j)⟩ ?_
  intro k
  constructor
  · rintro ⟨a', ha', hk⟩
    rcases Nat.lt_succ_iff_lt_or_eq.1 ha' with h | h
    · exact Or.inl ⟨a', h, hk⟩
    · subst h; exact Or.inr hk
  · rintro (⟨a', ha', hk⟩ | hk)
    · exact ⟨a', Nat.lt_succ_of_lt ha', hk⟩
    · exact ⟨a, Nat.lt_succ_self a, hk⟩

theorem reset_cleared (M : Distance) (p0 : plan_t) :
    ∃ c', p0.reset M = { p0 with cells := c', waypoints := [] } ∧
      ClearedOn M (fun k => ∃ i j, p0.VALID_BOUNDS i j = true ∧ k = p0.INDEX i j) p0.cells
        c' := by
  have key := forRange_inv p0.min_y p0.max_y (fun j plan =>
      forRange plan.min_x plan.max_x (fun i plan =>
        let c1 := clearCell M (cellAt plan.cells (plan.INDEX i j))
        { plan with cells := setCellAt plan.cells (plan.INDEX i j) c1 }) plan)
    (fun b q => PlanCleared M (fun k => ∃ b' a : Nat, b' < b ∧
      a < (p0.max_x + 1 - p0.min_x).toNat ∧ k = p0.INDEX (p0.min_x + a) (p0.min_y + b')) p0 q)
    p0 ((PlanCleared.refl_cleared_plan M p0).congr_cleared_plan (by simp))
    (by
      intro b _ q hq
      obtain ⟨c, rfl, hc⟩ := hq
      have hr := reset_row M { p0 with cells := c } (p0.min_y + b) p0.min_x p0.max_x
      refine PlanCleared.trans_cleared_plan ⟨c, rfl, hc⟩ hr ?_
      intro k
      constructor
      · rintro ⟨b', a, hb', ha, hk⟩
        rcases Nat.lt_succ_iff_lt_or_eq.1 hb' with h | h
        · exact Or.inl ⟨b', a, h, ha, hk⟩
        · subst h; exact Or.inr ⟨a, ha, hk⟩
      · rintro (⟨b', a, hb', ha, hk⟩ | ⟨a, ha, hk⟩)
        · exact ⟨b', a, Nat.lt_succ_of_lt hb', ha, hk⟩
        · exact ⟨b, a, Nat.lt_succ_self b, ha, hk⟩)
  obtain ⟨c', hq, hc⟩ := key
  refine ⟨c', ?_, ?_⟩
  · have e := congrArg (fun q : plan_t => ({ q with waypoints := [] } : plan_t)) hq
    exact e
  · refine ⟨hc.length_eq, fun k hk => hc.cleared k ?_, fun k hk => hc.kept k ?_⟩
    · obtain ⟨i, j, hvb, e⟩ := hk
      rw [VALID_BOUNDS_iff] at hvb
      refine ⟨(j - p0.min_y).toNat, (i - p0.min_x).toNat, by omega, by omega, ?_⟩
      rw [e]
      congr 1 <;> omega
    · rintro ⟨b, a, hb, ha, e⟩
      exact hk ⟨_, _, (VALID_BOUNDS_iff p0 _ _).2 (by omega), e⟩

/-- C18. `reset()` is a bounded planning-field reset: on an allocated grid with valid
bounds, after `reset()` every cell inside the bounds has `plan_cost = PLAN_MAX_COST`,
`plan_next = NULL`, `mark = false` and its other fields as before; `occ_state`, `occ_dist`,
`occ_state_dyn`, `occ_dist_dyn` of every cell are unchanged; every in-grid cell outside the
bounds is unchanged in every field; and of the planner only `cells` and `waypoints`
change. -/
theorem reset_bounded (M : Distance) (p : plan_t) (hal : GridAllocated p)
    (hb : ValidBounds p) :
    (∀ i j, p.VALID_BOUNDS i j = true →
      cellAt (p.reset M).cells (p.INDEX i j) =
        { cellAt p.cells (p.INDEX i j) with
          plan_cost := M, plan_next := none, mark := false }) ∧
    (∀ k : Int, (cellAt (p.reset M).cells k).occ_state = (cellAt p.cells k).occ_state ∧
      (cellAt (p.reset M).cells k).occ_dist = (cellAt p.cells k).occ_dist ∧
      (cellAt (p.reset M).cells k).occ_state_dyn = (cellAt p.cells k).occ_state_dyn ∧
      (cellAt (p.reset M).cells k).occ_dist_dyn = (cellAt p.cells k).occ_dist_dyn) ∧
    (∀ i j, p.VALID i j = true → p.VALID_BOUNDS i j = false →
      cellAt (p.reset M).cells (p.INDEX i j) = cellAt p.cells (p.INDEX i j)) ∧
    p.reset M = { p with cells := (p.reset M).cells, waypoints := [] } ∧
    (p.reset M).cells.length = p.cells.length := by
  obtain ⟨c', hq, hc⟩ := reset_cleared M p
  rw [hq]
  refine ⟨fun i j hvb => ?_, fun k => ?_, fun i j hv hnb => ?_, rfl, hc.length_eq⟩
  · have hv := VALID_of_VALID_BOUNDS p hb i j hvb
    have hv' := (VALID_iff p i j).1 hv
    have hr := index_in_range p.size_x p.size_y i j hv'.1 hv'.2
    unfold GridAllocated at hal
    exact hc.cleared _ ⟨i, j, hvb, rfl⟩ hr.1 (by rw [hal]; exact hr.2)
  · show (cellAt c' k).occ_state = _ ∧ _
    rcases hc.either k with e | e <;> rw [e] <;> exact ⟨rfl, rfl, rfl, rfl⟩
  · apply hc.kept
    rintro ⟨i', j', hvb, e⟩
    have hv' := (VALID_iff p i j).1 hv
    have hv2 := (VALID_iff p i' j').1 (VALID_of_VALID_BOUNDS p hb i' j' hvb)
    obtain ⟨e1, e2⟩ := index_inj p.size_x i j i' j' hv'.1 hv2.1 e
    rw [← e1, ← e2, hnb] at hvb
    exact absurd hvb (by decide)

set_option maxRecDepth 10000 in
/-- Witness for C18: the strip with bounds `(1,0)-(2,0)`: cell `(1,0)` is cleared, cell
`(0,0)` is untouched. -/
theorem reset_bounded_witness :
    (cellAt (strip_offset.reset (Distance.ofRat 100)).cells (strip_offset.INDEX 1 0)).plan_cost
      = Distance.ofRat 100 ∧
    cellAt (strip_offset.reset (Distance.ofRat 100)).cells (strip_offset.INDEX 0 0) =
      cellAt strip_offset.cells (strip_offset.INDEX 0 0) :=
  ⟨congrArg plan_cell_t.plan_cost
      ((reset_bounded (Distance.ofRat 100) strip_offset strip_offset_initialised.1
        strip_offset_initialised.2.2.1).1 1 0 (by with_unfolding_all decide)),
    (reset_bounded (Distance.ofRat 100) strip_offset strip_offset_initialised.1
      strip_offset_initialised.2.2.1).2.2.1 0 0 (by with_unfolding_all decide)
      (by with_unfolding_all decide)⟩

/-! ## `set_bbox` -/

theorem ceil_half_pos (d : Int) (h : 1 ≤ d) : 1 ≤ ⌈(d : ℚ) / 2⌉ := by
  have : (0 : ℚ) < (d : ℚ) / 2 := by
    have : (1 : ℚ) ≤ (d : ℚ) := by exact_mod_cast h
    linarith
  have := Int.ceil_pos.2 this
  omega

/-- The facts the growing loop maintains about its state `(min, max, s)`. -/
theorem grow_step_inv (gmin size : Int) (st : Int × Int × Int) :
    0 ≤ (grow_step gmin size st).1 ∧ (grow_step gmin size st).2.1 ≤ size - 1 ∧
      (grow_step gmin size st).2.2 = (grow_step gmin size st).2.1 - (grow_step gmin size st).1 :=
  ⟨le_max_right _ _, min_le_right _ _, rfl⟩

theorem padded_axis_inv (size gpadding g0 g1 : Int) :
    0 ≤ (padded_axis size gpadding g0 g1).1 ∧ (padded_axis size gpadding g0 g1).2.1 ≤ size - 1 ∧
      (padded_axis size gpadding g0 g1).2.2 =
        (padded_axis size gpadding g0 g1).2.1 - (padded_axis size gpadding g0 g1).1 :=
  ⟨le_max_right _ _, min_le_right _ _, rfl⟩

/-- While the loop condition holds, `min + (size - 1 - max)` strictly decreases. -/
theorem grow_step_decreases (gmin size : Int) (st : Int × Int × Int) (h0 : 0 ≤ st.1)
    (h1 : st.2.1 ≤ size - 1) (hs : st.2.2 = st.2.1 - st.1) (hg : gmin ≤ size - 1)
    (hc : st.2.2 < gmin) :
    (grow_step gmin size st).1 + (size - 1 - (grow_step gmin size st).2.1) <
      st.1 + (size - 1 - st.2.1) := by
  have hd := ceil_half_pos (gmin - st.2.2) (by omega)
  obtain ⟨mn, mx, s⟩ := st
  simp only [grow_step] at *
  generalize ⌈((gmin - s : Int) : ℚ) / 2⌉ = d at hd ⊢
  omega

theorem grow_axis_exits (gmin size : Int) (hg : gmin ≤ size - 1) :
    ∀ (fuel : Nat) (st : Int × Int × Int), 0 ≤ st.1 → st.2.1 ≤ size - 1 →
      st.2.2 = st.2.1 - st.1 → axis_fuel size st ≤ fuel →
      ∃ r, grow_axis gmin size fuel st = some r ∧ 0 ≤ r.1 ∧ r.2.1 ≤ size - 1 ∧
        r.2.2 = r.2.1 - r.1 ∧ gmin ≤ r.2.2 := by
  intro fuel
  induction fuel with
  | zero =>
    intro st h0 h1 hs hf
    have hc : ¬ st.2.2 < gmin := by
      unfold axis_fuel at hf
      omega
    exact ⟨st, by simp [grow_axis, hc], h0, h1, hs, by omega⟩
  | succ n ih =>
    intro st h0 h1 hs hf
    by_cases hc : st.2.2 < gmin
    · have hdec := grow_step_decreases gmin size st h0 h1 hs hg hc
      obtain ⟨i0, i1, i2⟩ := grow_step_inv gmin size st
      have hf' : axis_fuel size (grow_step gmin size st) ≤ n := by
        unfold axis_fuel at hf ⊢
        omega
      obtain ⟨r, hr, hrest⟩ := ih (grow_step gmin size st) i0 i1 i2 hf'
      exact ⟨r, by simp [grow_axis, hc, hr], hrest⟩
    · exact ⟨st, by simp [grow_axis, hc], h0, h1, hs, by omega⟩

theorem gmin_size_le (p : plan_t) (min_size : ℚ) :
    p.gmin_size min_size ≤ p.size_x - 1 ∧ p.gmin_size min_size ≤ p.size_y - 1 := by
  unfold plan_t.gmin_size
  omega

theorem gmin_size_nonneg (p : plan_t) (min_size : ℚ) (hw : 1 ≤ p.size_x) (hh : 1 ≤ p.size_y)
    (hs : 0 < p.scale) (hm : 0 ≤ min_size) : 0 ≤ p.gmin_size min_size := by
  have : 0 ≤ ⌈min_size / p.scale⌉ := Int.ceil_nonneg (div_nonneg hm hs.le)
  unfold plan_t.gmin_size
  omega

/-- With enough fuel both loops exit, and the rectangle found lies between the clamps and
is at least `gmin_size` wide and high. -/
theorem bbox_rect_exits (p : plan_t) (padding min_size x0 y0 x1 y1 : ℚ) (fuel : Nat)
    (hf : p.bbox_fuel padding x0 y0 x1 y1 ≤ fuel) :
    ∃ r, p.bbox_rect fuel padding min_size x0 y0 x1 y1 = some r ∧
      0 ≤ r.1 ∧ r.2.2.1 ≤ p.size_x - 1 ∧ p.gmin_size min_size ≤ r.2.2.1 - r.1 ∧
      0 ≤ r.2.1 ∧ r.2.2.2 ≤ p.size_y - 1 ∧ p.gmin_size min_size ≤ r.2.2.2 - r.2.1 := by
  obtain ⟨gx, gy⟩ := gmin_size_le p min_size
  unfold plan_t.bbox_fuel at hf
  obtain ⟨a0, a1, a2⟩ := padded_axis_inv p.size_x ⌈padding / p.scale⌉ (p.GXWX x0) (p.GXWX x1)
  obtain ⟨b0, b1, b2⟩ := padded_axis_inv p.size_y ⌈padding / p.scale⌉ (p.GYWY y0) (p.GYWY y1)
  obtain ⟨rx, hrx, x0', x1', x2', x3'⟩ := grow_axis_exits _ _ gx fuel _ a0 a1 a2
    (le_trans (le_max_left _ _) hf)
  obtain ⟨ry, hry, y0', y1', y2', y3'⟩ := grow_axis_exits _ _ gy fuel _ b0 b1 b2
    (le_trans (le_max_right _ _) hf)
  refine ⟨(rx.1, ry.1, rx.2.1, ry.2.1), ?_, x0', x1', ?_, y0', y1', ?_⟩
  · simp only [plan_t.bbox_rect, hrx, hry]
  · show p.gmin_size min_size ≤ rx.2.1 - rx.1
    omega
  · show p.gmin_size min_size ≤ ry.2.1 - ry.1
    omega

theorem grow_axis_fuel_add (gmin size : Int) :
    ∀ (fuel : Nat) (st r : Int × Int × Int), grow_axis gmin size fuel st = some r →
      ∀ k : Nat, grow_axis gmin size (fuel + k) st = some r := by
  intro fuel
  induction fuel with
  | zero =>
    intro st r h k
    by_cases hc : st.2.2 < gmin
    · simp [grow_axis, hc] at h
    · cases k with
      | zero => exact h
      | succ k =>
        simp only [grow_axis, hc, if_false] at h
        simp only [Nat.zero_add, grow_axis, hc, if_false, h]
  | succ n ih =>
    intro st r h k
    rw [Nat.add_right_comm]
    by_cases hc : st.2.2 < gmin
    · simp only [grow_axis, hc, if_true] at h ⊢
      exact ih _ _ h k
    · simp only [grow_axis, hc, if_false] at h ⊢
      exact h

theorem bbox_rect_fuel_add (p : plan_t) (padding min_size x0 y0 x1 y1 : ℚ) (fuel k : Nat)
    (r : Int × Int × Int × Int) (h : p.bbox_rect fuel padding min_size x0 y0 x1 y1 = some r) :
    p.bbox_rect (fuel + k) padding min_size x0 y0 x1 y1 = some r := by
  unfold plan_t.bbox_rect at h ⊢
  simp only at h ⊢
  split at h
  · exact absurd h (by simp)
  · rename_i rx hrx
    split at h
    · exact absurd h (by simp)
    · rename_i ry hry
      rw [grow_axis_fuel_add _ _ _ _ _ hrx k, grow_axis_fuel_add _ _ _ _ _ hry k]
      exact h

theorem set_bounds_of_well_formed (p : plan_t) (a b c d : Int) (ha : 0 ≤ a) (hac : a ≤ c)
    (hc : c ≤ p.size_x - 1) (hb : 0 ≤ b) (hbd : b ≤ d) (hd : d ≤ p.size_y - 1) :
    p.set_bounds a b c d = some { p with min_x := a, min_y := b, max_x := c, max_y := d } ∧
    p.set_bounds_steps a b c d =
      Except.ok { p with min_x := a, min_y := b, max_x := c, max_y := d } := by
  have e1 : min (p.size_x - 1) (max 0 a) = a := by omega
  have e2 : min (p.size_y - 1) (max 0 b) = b := by omega
  have e3 : min (p.size_x - 1) (max 0 c) = c := by omega
  have e4 : min (p.size_y - 1) (max 0 d) = d := by omega
  rw [set_bounds_eq_some p a b c d hac hbd, set_bounds_steps_of_le p a b c d hac hbd,
    e1, e2, e3, e4]
  exact ⟨rfl, rfl⟩

/-- C14. `set_bbox` always terminates: for every grid, padding, `min_size` and pair of
world points there is one rectangle that both box-growing loops reach whenever they are
given at least `bbox_fuel` iterations (the larger of the two initial values of
`min + (size - 1 - max)`); and on each axis an iteration of the loop, from a state with
`0 <= min`, `max <= size - 1`, `s = max - min` in which the loop condition `s < gmin_size`
holds, leads to a state with the same three facts in which `min + (size - 1 - max)` is
strictly smaller and not negative. -/
theorem set_bbox_loops_terminate (p : plan_t) (padding min_size x0 y0 x1 y1 : ℚ) :
    (∃ r, ∀ fuel, p.bbox_fuel padding x0 y0 x1 y1 ≤ fuel →
      p.bbox_rect fuel padding min_size x0 y0 x1 y1 = some r) ∧
    (∀ size, size = p.size_x ∨ size = p.size_y → ∀ st : Int × Int × Int,
      0 ≤ st.1 → st.2.1 ≤ size - 1 → st.2.2 = st.2.1 - st.1 →
      st.2.2 < p.gmin_size min_size →
      (0 ≤ (grow_step (p.gmin_size min_size) size st).1 ∧
        (grow_step (p.gmin_size min_size) size st).2.1 ≤ size - 1 ∧
        (grow_step (p.gmin_size min_size) size st).2.2 =
          (grow_step (p.gmin_size min_size) size st).2.1 -
            (grow_step (p.gmin_size min_size) size st).1) ∧
      0 ≤ (grow_step (p.gmin_size min_size) size st).1 +
          (size - 1 - (grow_step (p.gmin_size min_size) size st).2.1) ∧
      (grow_step (p.gmin_size min_size) size st).1 +
          (size - 1 - (grow_step (p.gmin_size min_size) size st).2.1) <
        st.1 + (size - 1 - st.2.1)) := by
  constructor
  · obtain ⟨r, hr, _⟩ := bbox_rect_exits p padding min_size x0 y0 x1 y1 _ (le_refl _)
    refine ⟨r, fun fuel hf => ?_⟩
    obtain ⟨k, rfl⟩ := Nat.exists_eq_add_of_le hf
    exact bbox_rect_fuel_add p padding min_size x0 y0 x1 y1 _ k r hr
  · intro size hsz st h0 h1 hs hc
    have hg : p.gmin_size min_size ≤ size - 1 := by
      obtain ⟨gx, gy⟩ := gmin_size_le p min_size
      rcases hsz with e | e <;> rw [e] <;> assumption
    have hinv := grow_step_inv (p.gmin_size min_size) size st
    have hdec := grow_step_decreases (p.gmin_size min_size) size st h0 h1 hs hg hc
    exact ⟨hinv, by omega, hdec⟩

set_option maxRecDepth 10000 in
/-- Witness for C14: the `10 × 3` grid, both points at `(100, 100)`, far outside the grid, and
`min_size = 50`, larger than the grid; and one iteration from the state `(100, 9, -91)`. -/
theorem set_bbox_loops_terminate_witness :
    (∃ r, ∀ fuel, wide.bbox_fuel 0 100 100 100 100 ≤ fuel →
      wide.bbox_rect fuel 0 50 100 100 100 100 = some r) ∧
    (grow_step (wide.gmin_size 50) wide.size_x (100, 9, -91)).1 +
        (wide.size_x - 1 - (grow_step (wide.gmin_size 50) wide.size_x (100, 9, -91)).2.1) <
      (100 : Int) + (wide.size_x - 1 - 9) :=
  ⟨(set_bbox_loops_terminate wide 0 50 100 100 100 100).1,
    ((set_bbox_loops_terminate wide 0 50 100 100 100 100).2 wide.size_x (Or.inl rfl)
      (100, 9, -91) (by decide) (by with_unfolding_all decide) (by decide)
      (by with_unfolding_all decide)).2.2⟩

/-- C20. `set_bbox` commits a well-formed rectangle meeting the clamped minimum size: on a
grid with `width, height >= 1`, `scale > 0`, for `min_size >= 0`, any padding and any two
world points, once the loops are given at least `bbox_fuel` iterations the rectangle
passed to `set_bounds` satisfies `0 <= min_x <= max_x <= width-1` and
`0 <= min_y <= max_y <= height-1`, both `max_x - min_x` and `max_y - min_y` are at least
`gmin_size = min(ceil(min_size/scale), width-1, height-1)`, the assertions of `set_bounds`
pass and its clamp is the identity: `set_bbox` stores exactly that rectangle and changes
nothing else. -/
theorem set_bbox_commits_rectangle (p : plan_t) (padding min_size x0 y0 x1 y1 : ℚ)
    (hw : 1 ≤ p.size_x) (hh : 1 ≤ p.size_y) (hs : 0 < p.scale) (hm : 0 ≤ min_size)
    (fuel : Nat) (hf : p.bbox_fuel padding x0 y0 x1 y1 ≤ fuel) :
    ∃ r, p.bbox_rect fuel padding min_size x0 y0 x1 y1 = some r ∧
      (0 ≤ r.1 ∧ r.1 ≤ r.2.2.1 ∧ r.2.2.1 ≤ p.size_x - 1) ∧
      (0 ≤ r.2.1 ∧ r.2.1 ≤ r.2.2.2 ∧ r.2.2.2 ≤ p.size_y - 1) ∧
      min ⌈min_size / p.scale⌉ (min (p.size_x - 1) (p.size_y - 1)) ≤ r.2.2.1 - r.1 ∧
      min ⌈min_size / p.scale⌉ (min (p.size_x - 1) (p.size_y - 1)) ≤ r.2.2.2 - r.2.1 ∧
      p.set_bounds_steps r.1 r.2.1 r.2.2.1 r.2.2.2 =
        Except.ok { p with min_x := r.1, min_y := r.2.1, max_x := r.2.2.1, max_y := r.2.2.2 } ∧
      p.set_bbox fuel padding min_size x0 y0 x1 y1 =
        some { p with min_x := r.1, min_y := r.2.1, max_x := r.2.2.1, max_y := r.2.2.2 } := by
  obtain ⟨r, hr, a0, a1, a2, b0, b1, b2⟩ :=
    bbox_rect_exits p padding min_size x0 y0 x1 y1 fuel hf
  have hg := gmin_size_nonneg p min_size hw hh hs hm
  have hwf := set_bounds_of_well_formed p r.1 r.2.1 r.2.2.1 r.2.2.2 a0 (by omega) a1 b0
    (by omega) b1
  refine ⟨r, hr, ⟨a0, by omega, a1⟩, ⟨b0, by omega, b1⟩, a2, b2, hwf.2, ?_⟩
  simp only [plan_t.set_bbox, hr]
  exact hwf.1

set_option maxRecDepth 10000 in
/-- Witness for C20: the scenario grid, points `(-3, 4)` and `(20, 4.2)`, padding `-2`,
`min_size = 4`. -/
theorem set_bbox_commits_rectangle_witness :
    ∃ r, scenario.bbox_rect 20 (-2) 4 (-3) 4 20 (21 / 5) = some r ∧
      (0 ≤ r.1 ∧ r.1 ≤ r.2.2.1 ∧ r.2.2.1 ≤ scenario.size_x - 1) ∧
      (0 ≤ r.2.1 ∧ r.2.1 ≤ r.2.2.2 ∧ r.2.2.2 ≤ scenario.size_y - 1) ∧
      min ⌈(4 : ℚ) / scenario.scale⌉ (min (scenario.size_x - 1) (scenario.size_y - 1)) ≤
        r.2.2.1 - r.1 ∧
      min ⌈(4 : ℚ) / scenario.scale⌉ (min (scenario.size_x - 1) (scenario.size_y - 1)) ≤
        r.2.2.2 - r.2.1 ∧
      scenario.set_bounds_steps r.1 r.2.1 r.2.2.1 r.2.2.2 =
        Except.ok { scenario with
          min_x := r.1, min_y := r.2.1, max_x := r.2.2.1, max_y := r.2.2.2 } ∧
      scenario.set_bbox 20 (-2) 4 (-3) 4 20 (21 / 5) =
        some { scenario with
          min_x := r.1, min_y := r.2.1, max_x := r.2.2.1, max_y := r.2.2.2 } :=
  set_bbox_commits_rectangle scenario (-2) 4 (-3) 4 20 (21 / 5)
    (by with_unfolding_all decide) (by with_unfolding_all decide)
    (by with_unfolding_all decide) (by norm_num) 20 (by with_unfolding_all decide)

set_option maxRecDepth 10000 in
/-- C13, counterexample. On the `10 × 3` grid with `scale = 1`, `set_bbox` with padding `0`,
`min_size = 5` and both points at the origin commits the bounds `(0,0)-(2,2)`:
`max_x - min_x = 2`, while `min(min_cells, width - 1) = min(5, 9) = 5`. -/
theorem set_bbox_min_size_counterexample :
    1 ≤ wide.size_x ∧ 1 ≤ wide.size_y ∧ 0 < wide.scale ∧
    wide.bbox_fuel 0 0 0 0 0 ≤ 9 ∧
    (wide.set_bbox 9 0 5 0 0 0 0).map (fun q => (q.min_x, q.min_y, q.max_x, q.max_y)) =
      some (0, 0, 2, 2) ∧
    min ⌈(5 : ℚ) / wide.scale⌉ (wide.size_x - 1) = 5 ∧
    ¬ ((2 : Int) - 0 ≥ min ⌈(5 : ℚ) / wide.scale⌉ (wide.size_x - 1)) := by
  with_unfolding_all decide

/-- C13, amended. On a grid with `width, height >= 1`, `scale > 0`, for `min_size >= 0`
and any padding and points, once the loops are given at least `bbox_fuel` iterations
`set_bbox` returns, and the bounds it stores satisfy
`max_x - min_x >= min(min_cells, width-1, height-1)` and
`max_y - min_y >= min(min_cells, width-1, height-1)` with `min_cells = ceil(min_size/scale)`;
so `max_x - min_x >= min(min_cells, width-1)` when `width <= height` and
`max_y - min_y >= min(min_cells, height-1)` when `height <= width`. -/
theorem set_bbox_min_size (p : plan_t) (padding min_size x0 y0 x1 y1 : ℚ)
    (hw : 1 ≤ p.size_x) (hh : 1 ≤ p.size_y) (hs : 0 < p.scale) (hm : 0 ≤ min_size)
    (fuel : Nat) (hf : p.bbox_fuel padding x0 y0 x1 y1 ≤ fuel) :
    ∃ q, p.set_bbox fuel padding min_size x0 y0 x1 y1 = some q ∧
      q.max_x - q.min_x ≥ min ⌈min_size / p.scale⌉ (min (p.size_x - 1) (p.size_y - 1)) ∧
      q.max_y - q.min_y ≥ min ⌈min_size / p.scale⌉ (min (p.size_x - 1) (p.size_y - 1)) ∧
      (p.size_x ≤ p.size_y →
        q.max_x - q.min_x ≥ min ⌈min_size / p.scale⌉ (p.size_x - 1)) ∧
      (p.size_y ≤ p.size_x →
        q.max_y - q.min_y ≥ min ⌈min_size / p.scale⌉ (p.size_y - 1)) := by
  obtain ⟨r, hr, a0, a1, a2, b0, b1, b2⟩ :=
    bbox_rect_exits p padding min_size x0 y0 x1 y1 fuel hf
  have hg := gmin_size_nonneg p min_size hw hh hs hm
  have hwf := set_bounds_of_well_formed p r.1 r.2.1 r.2.2.1 r.2.2.2 a0 (by omega) a1 b0
    (by omega) b1
  have hq : p.set_bbox fuel padding min_size x0 y0 x1 y1 = p.set_bounds r.1 r.2.1 r.2.2.1
      r.2.2.2 := by
    simp only [plan_t.set_bbox, hr]
  rw [hwf.1] at hq
  refine ⟨_, hq, ?_, ?_, ?_, ?_⟩
  · exact a2
  · exact b2
  · intro hle
    have e : min (p.size_x - 1) (p.size_y - 1) = p.size_x - 1 := by omega
    have a2' := a2
    unfold plan_t.gmin_size at a2'
    rw [e] at a2'
    exact a2'
  · intro hle
    have e : min (p.size_x - 1) (p.size_y - 1) = p.size_y - 1 := by omega
    have b2' := b2
    unfold plan_t.gmin_size at b2'
    rw [e] at b2'
    exact b2'

set_option maxRecDepth 10000 in
/-- Witness for C13, amended: the `10 × 3` grid, `min_size = 5`, both points at the origin. -/
theorem set_bbox_min_size_witness :
    ∃ q, wide.set_bbox 9 0 5 0 0 0 0 = some q ∧
      q.max_x - q.min_x ≥ min ⌈(5 : ℚ) / wide.scale⌉ (min (wide.size_x - 1) (wide.size_y - 1)) ∧
      q.max_y - q.min_y ≥ min ⌈(5 : ℚ) / wide.scale⌉ (min (wide.size_x - 1) (wide.size_y - 1)) ∧
      (wide.size_x ≤ wide.size_y →
        q.max_x - q.min_x ≥ min ⌈(5 : ℚ) / wide.scale⌉ (wide.size_x - 1)) ∧
      (wide.size_y ≤ wide.size_x →
        q.max_y - q.min_y ≥ min ⌈(5 : ℚ) / wide.scale⌉ (wide.size_y - 1)) :=
  set_bbox_min_size wide 0 5 0 0 0 0 (by with_unfolding_all decide)
    (by with_unfolding_all decide) (by with_unfolding_all decide) (by norm_num) 9
    (by with_unfolding_all decide)

/-! ## `set_obstacles` depends on the set of point cells only -/

theorem hitCell_congr {a b : plan_cell_t} (h : staticPart a = staticPart b) :
    hitCell a = hitCell b := by
  cases a; cases b
  simp only [staticPart, plan_cell_t.mk.injEq] at h
  simp [hitCell, h]

/-- One write other than `hit k` leaves `mark` and `occ_state_dyn` of cell `k` alone and
min-combines its value into the dynamic distance of `k` if it is a `relax k`. -/
theorem applyWrite_no_hit (c : List plan_cell_t) (w : DynWrite) (k : Int) (hk0 : 0 ≤ k)
    (hk1 : k < c.length) (h : w ≠ DynWrite.hit k) :
    (cellAt (applyWrite c w) k).mark = (cellAt c k).mark ∧
    (cellAt (applyWrite c w) k).occ_state_dyn = (cellAt c k).occ_state_dyn ∧
    IsMinOf (cellAt (applyWrite c w) k).occ_dist_dyn (cellAt c k).occ_dist_dyn
      (fun v => w = DynWrite.relax k v) := by
  cases w with
  | hit cell =>
    have hc : cell ≠ k := fun e => h (by rw [e])
    simp only [applyWrite]
    rw [cellAt_setCellAt_ne _ _ _ _ hc]
    refine ⟨rfl, rfl, fun x => ?_⟩
    exact ⟨fun hx => ⟨hx, fun v hv => by cases hv⟩, fun hx => hx.1⟩
  | relax k' v =>
    simp only [applyWrite]
    by_cases hc : k' = k
    · subst hc
      have hS : ∀ u, DynWrite.relax k' v = DynWrite.relax k' u ↔ u = v := by
        intro u
        constructor
        · intro e; injection e with _ e; exact e.symm
        · rintro rfl; rfl
      split
      · rename_i hv
        rw [cellAt_setCellAt_same _ _ _ hk0 hk1]
        refine ⟨rfl, rfl, fun x => ?_⟩
        simp only [hS, forall_eq]
        exact ⟨fun hx => ⟨le_trans hx (le_of_lt hv), hx⟩, fun hx => hx.2⟩
      · rename_i hv
        refine ⟨rfl, rfl, fun x => ?_⟩
        simp only [hS, forall_eq]
        exact ⟨fun hx => ⟨hx, le_trans hx (not_lt.1 hv)⟩, fun hx => hx.1⟩
    · have e : cellAt (if v < (cellAt c k').occ_dist_dyn then
          setCellAt c k' { cellAt c k' with occ_dist_dyn := v } else c) k = cellAt c k := by
        split
        · rw [cellAt_setCellAt_ne _ _ _ _ hc]
        · rfl
      rw [e]
      refine ⟨rfl, rfl, fun x => ?_⟩
      refine ⟨fun hx => ⟨hx, fun u hu => ?_⟩, fun hx => hx.1⟩
      injection hu with hu _
      exact absurd hu hc

/-- A cell no write of the trace hits keeps `mark` and `occ_state_dyn`, and its dynamic
distance becomes the minimum of the old one and of the values min-combined into it. -/
theorem foldl_applyWrite_no_hit (tr : List DynWrite) : ∀ (c : List plan_cell_t) (k : Int),
    0 ≤ k → k < c.length → DynWrite.hit k ∉ tr →
    (cellAt (tr.foldl applyWrite c) k).mark = (cellAt c k).mark ∧
    (cellAt (tr.foldl applyWrite c) k).occ_state_dyn = (cellAt c k).occ_state_dyn ∧
    IsMinOf (cellAt (tr.foldl applyWrite c) k).occ_dist_dyn (cellAt c k).occ_dist_dyn
      (fun v => DynWrite.relax k v ∈ tr) := by
  induction tr with
  | nil =>
    intro c k _ _ _
    refine ⟨rfl, rfl, fun x => ?_⟩
    simp
  | cons w tr ih =>
    intro c k hk0 hk1 hh
    simp only [List.foldl_cons]
    have hw : w ≠ DynWrite.hit k := fun e => hh (by rw [e]; exact List.mem_cons_self _ _)
    obtain ⟨a1, a2, a3⟩ := applyWrite_no_hit c w k hk0 hk1 hw
    obtain ⟨b1, b2, b3⟩ := ih (applyWrite c w) k hk0 (by rw [length_applyWrite]; exact hk1)
      (fun e => hh (List.mem_cons_of_mem _ e))
    refine ⟨b1.trans a1, b2.trans a2, a3.trans_min b3 ?_⟩
    intro v
    simp only [List.mem_cons]
    constructor
    · rintro (e | e)
      · exact Or.inl e.symm
      · exact Or.inr e
    · rintro (e | e)
      · exact Or.inl e.symm
      · exact Or.inr e

/-- A cell at dynamic distance `0` that no later write hits is left alone by min-combines
of non-negative values. -/
theorem foldl_applyWrite_zero_stable (tr : List DynWrite) (c : List plan_cell_t) (k : Int)
    (hk0 : 0 ≤ k) (hk1 : k < c.length) (hz : (cellAt c k).occ_dist_dyn = Distance.zero)
    (hh : DynWrite.hit k ∉ tr) (hnn : ∀ k' v, DynWrite.relax k' v ∈ tr → Distance.zero ≤ v) :
    cellAt (tr.foldl applyWrite c) k = cellAt c k := by
  obtain ⟨h1, h2, h3⟩ := foldl_applyWrite_no_hit tr c k hk0 hk1 hh
  have h4 : (cellAt (tr.foldl applyWrite c) k).occ_dist_dyn = (cellAt c k).occ_dist_dyn := by
    apply le_antisymm h3.le
    rw [h3 _]
    refine ⟨le_rfl, fun v hv => ?_⟩
    rw [hz]
    exact hnn k v hv
  have h5 := eq_of_staticPart (staticPart_foldl_applyWrite tr c k)
  rw [h1, h2, h4] at h5
  exact h5

/-- A cell some write of the trace hits ends as the hit left it, when the min-combined
values are non-negative. -/
theorem foldl_applyWrite_hit (tr : List DynWrite) : ∀ (c : List plan_cell_t) (k : Int),
    0 ≤ k → k < c.length → (∀ k' v, DynWrite.relax k' v ∈ tr → Distance.zero ≤ v) →
    DynWrite.hit k ∈ tr → cellAt (tr.foldl applyWrite c) k = hitCell (cellAt c k) := by
  induction tr with
  | nil => intro c k _ _ _ h; exact absurd h (List.not_mem_nil _)
  | cons w tr ih =>
    intro c k hk0 hk1 hnn hh
    simp only [List.foldl_cons]
    have hk1' : k < (applyWrite c w).length := by rw [length_applyWrite]; exact hk1
    have hnn' : ∀ k' v, DynWrite.relax k' v ∈ tr → Distance.zero ≤ v :=
      fun k' v h => hnn k' v (List.mem_cons_of_mem _ h)
    by_cases ht : DynWrite.hit k ∈ tr
    · rw [ih (applyWrite c w) k hk0 hk1' hnn' ht]
      exact hitCell_congr (staticPart_applyWrite c w k)
    · have hw : w = DynWrite.hit k := by
        rcases List.mem_cons.1 hh with e | e
        · exact e.symm
        · exact absurd e ht
      subst hw
      have e : cellAt (applyWrite c (DynWrite.hit k)) k = hitCell (cellAt c k) := by
        simp only [applyWrite]
        exact cellAt_setCellAt_same _ _ _ hk0 hk1
      rw [foldl_applyWrite_zero_stable tr _ k hk0 hk1' (by rw [e]; rfl) ht hnn', e]

/-- Two traces with the same writes, in whatever order and multiplicity, lead to the same
cell array, when the min-combined values are non-negative. -/
theorem foldl_applyWrite_congr (tr1 tr2 : List DynWrite) (c : List plan_cell_t)
    (h : ∀ w, w ∈ tr1 ↔ w ∈ tr2)
    (hnn : ∀ k v, DynWrite.relax k v ∈ tr1 → Distance.zero ≤ v) :
    tr1.foldl applyWrite c = tr2.foldl applyWrite c := by
  have hnn2 : ∀ k v, DynWrite.relax k v ∈ tr2 → Distance.zero ≤ v :=
    fun k v hv => hnn k v ((h _).2 hv)
  apply cells_ext
  · rw [length_foldl_applyWrite, length_foldl_applyWrite]
  · intro k hk0 hk1
    rw [length_foldl_applyWrite] at hk1
    by_cases hh : DynWrite.hit k ∈ tr1
    · rw [foldl_applyWrite_hit tr1 c k hk0 hk1 hnn hh,
        foldl_applyWrite_hit tr2 c k hk0 hk1 hnn2 ((h _).1 hh)]
    · obtain ⟨a1, a2, a3⟩ := foldl_applyWrite_no_hit tr1 c k hk0 hk1 hh
      obtain ⟨b1, b2, b3⟩ := foldl_applyWrite_no_hit tr2 c k hk0 hk1
        (fun e => hh ((h _).2 e))
      have e3 := a3.unique_min b3 (fun v => h _)
      have s1 := eq_of_staticPart (staticPart_foldl_applyWrite tr1 c k)
      have s2 := eq_of_staticPart (staticPart_foldl_applyWrite tr2 c k)
      rw [a1, a2, e3] at s1
      rw [b1, b2] at s2
      rw [s1]
      exact s2.symm

theorem obstacle_cell_of_pair (p : plan_t) (obs1 obs2 : List ℚ) (i t : Nat)
    (e : (obstacle_gx p obs1 i, obstacle_gy p obs1 i) =
      (obstacle_gx p obs2 t, obstacle_gy p obs2 t)) :
    obstacle_cell p obs1 i = obstacle_cell p obs2 t := by
  injection e with e1 e2
  simp only [obstacle_cell, e1, e2]

theorem ObstacleTrace.mem_of_subset {p : plan_t} {obs1 obs2 : List ℚ} {num1 num2 : Nat}
    {tr1 tr2 : List DynWrite} (h1 : ObstacleTrace p obs1 num1 tr1)
    (h2 : ObstacleTrace p obs2 num2 tr2)
    (h : ∀ s, s ∈ obstacle_cells p obs1 num1 → s ∈ obstacle_cells p obs2 num2)
    (w : DynWrite) (hw : w ∈ tr1) : w ∈ tr2 := by
  cases w with
  | hit c =>
    obtain ⟨i, hi, hv, hc⟩ := h1.hit_sound c hw
    obtain ⟨t, ht, hvt, e⟩ := (mem_obstacle_cells p obs2 num2 _).1
      (h _ ((mem_obstacle_cells p obs1 num1 _).2 ⟨i, hi, hv, rfl⟩))
    rw [hc, obstacle_cell_of_pair p obs1 obs2 i t e]
    exact h2.hit_complete t ht hvt
  | relax k v =>
    obtain ⟨i, hi, hv, hsp⟩ := h1.relax_sound k v hw
    obtain ⟨t, ht, hvt, e⟩ := (mem_obstacle_cells p obs2 num2 _).1
      (h _ ((mem_obstacle_cells p obs1 num1 _).2 ⟨i, hi, hv, rfl⟩))
    rw [obstacle_cell_of_pair p obs1 obs2 i t e] at hsp
    exact h2.relax_complete t ht hvt k v hsp

theorem set_obstacles_eq_reset_with (p : plan_t) (obs : List ℚ) (num : Nat) :
    p.set_obstacles obs num = { reset_dyn p with cells := (p.set_obstacles obs num).cells } := by
  obtain ⟨tr, _, hq⟩ := set_obstacles_trace p obs num
  rw [hq]

/-- C19. The dynamic update depends only on the set of in-grid cells hit: on a grid with
the kernel built by `init()` and `scale > 0`, two point lists that map (through
`GXWX`/`GYWY`, dropping the points that fail `VALID`) to the same set of grid cells,
whatever their order, their duplicates and their out-of-grid points, lead `set_obstacles`
to the same planner state: the same `occ_dist_dyn`, `occ_state_dyn` and `mark` (and every
other field) in every cell. -/
theorem set_obstacles_depends_on_cell_set (p : plan_t) (hk : KernelBuilt p)
    (hs : 0 < p.scale) (obs1 obs2 : List ℚ) (num1 num2 : Nat)
    (h : ∀ s, s ∈ obstacle_cells p obs1 num1 ↔ s ∈ obstacle_cells p obs2 num2) :
    p.set_obstacles obs1 num1 = p.set_obstacles obs2 num2 := by
  obtain ⟨tr1, htr1, hq1⟩ := set_obstacles_trace_of p obs1 num1
  obtain ⟨tr2, htr2, hq2⟩ := set_obstacles_trace_of p obs2 num2
  have hnn : ∀ k v, DynWrite.relax k v ∈ tr1 → Distance.zero ≤ v := by
    intro k v hv
    obtain ⟨t, _, _, hsp⟩ := htr1.relax_sound k v hv
    exact splatOps_nonneg p hk (le_of_lt hs) _ _ _ k v hsp
  have hmem : ∀ w, w ∈ tr1 ↔ w ∈ tr2 := fun w =>
    ⟨htr1.mem_of_subset htr2 (fun s => (h s).1) w, htr2.mem_of_subset htr1 (fun s => (h s).2) w⟩
  have hc : (p.set_obstacles obs1 num1).cells = (p.set_obstacles obs2 num2).cells := by
    rw [hq1, hq2]
    exact foldl_applyWrite_congr tr1 tr2 _ hmem hnn
  rw [set_obstacles_eq_reset_with p obs1 num1, set_obstacles_eq_reset_with p obs2 num2, hc]

set_option maxRecDepth 10000 in
theorem scenario_point_cells :
    obstacle_cells scenario [3, 3, 3, 3, 20, 20, 5, 5] 4 = [(3, 3), (3, 3), (5, 5)] ∧
    obstacle_cells scenario [5, 5, 3, 3] 2 = [(5, 5), (3, 3)] := by
  with_unfolding_all decide

/-- Witness for C19: on the scenario grid the points `(3,3), (3,3), (20,20), (5,5)` and the
points `(5,5), (3,3)` lead to the same state. -/
theorem set_obstacles_depends_on_cell_set_witness :
    scenario.set_obstacles [3, 3, 3, 3, 20, 20, 5, 5] 4 =
      scenario.set_obstacles [5, 5, 3, 3] 2 :=
  set_obstacles_depends_on_cell_set scenario scenario_facts.2.1 scenario_facts.2.2.2.1
    [3, 3, 3, 3, 20, 20, 5, 5] [5, 5, 3, 3] 4 2 (by
      intro s
      rw [scenario_point_cells.1, scenario_point_cells.2]
      simp only [List.mem_cons, List.mem_singleton, List.not_mem_nil, or_false]
      constructor
      · rintro (h | h | h)
        · exact Or.inr h
        · exact Or.inr h
        · exact Or.inl h
      · rintro (h | h)
        · exact Or.inr (Or.inr h)
        · exact Or.inl h)

/-! ## Checked accesses -/

/-- Loop rule for a loop with a body that may fail: while an invariant indexed by the
number of completed iterations holds, the checked body succeeds with the result of the
unchecked body. -/
theorem loopFrom_foldl_checked {σ : Type} (bodyc : Int → σ → Option σ) (body : Int → σ → σ)
    (n : Nat) :
    ∀ (Inv : Nat → σ → Prop) (lo : Int) (s : σ), Inv 0 s →
      (∀ a : Nat, a < n → ∀ s, Inv a s →
        bodyc (lo + a) s = some (body (lo + a) s) ∧ Inv (a + 1) (body (lo + a) s)) →
      (loopFrom lo n).foldl (fun s d => s.bind (bodyc d)) (some s) =
          some ((loopFrom lo n).foldl (fun s d => body d s) s) ∧
        Inv n ((loopFrom lo n).foldl (fun s d => body d s) s) := by
  induction n with
  | zero => intro Inv lo s h0 _; exact ⟨rfl, by simpa [loopFrom] using h0⟩
  | succ n ih =>
    intro Inv lo s h0 hstep
    simp only [loopFrom, List.foldl_cons]
    have h1 := hstep 0 (Nat.succ_pos n) s h0
    simp only [Nat.cast_zero, add_zero, zero_add] at h1
    rw [Option.some_bind, h1.1]
    apply ih (fun a s => Inv (a + 1) s) (lo + 1) (body lo s) h1.2
    intro a ha s hs
    have := hstep (a + 1) (Nat.succ_lt_succ ha) s hs
    have e : lo + ((a + 1 : Nat) : Int) = lo + 1 + (a : Int) := by push_cast; ring
    rw [e] at this
    exact this

theorem forRangeOpt_eq {σ : Type} (lo hi : Int) (bodyc : Int → σ → Option σ)
    (body : Int → σ → σ) (Inv : Nat → σ → Prop) (s : σ) (h0 : Inv 0 s)
    (hstep : ∀ a : Nat, a < (hi + 1 - lo).toNat → ∀ s, Inv a s →
      bodyc (lo + a) s = some (body (lo + a) s) ∧ Inv (a + 1) (body (lo + a) s)) :
    forRangeOpt lo hi bodyc s = some (forRange lo hi body s) ∧
      Inv (hi + 1 - lo).toNat (forRange lo hi body s) :=
  loopFrom_foldl_checked bodyc body _ Inv lo s h0 hstep

theorem cell_read_in_range (q : plan_t) (k : Int) (c : plan_cell_t)
    (h : q.cell_read k = some c) :
    (0 ≤ k ∧ k < q.size_x * q.size_y) ∧ k.toNat < q.cells.length := by
  unfold plan_t.cell_read at h
  split at h
  · rename_i hr
    refine ⟨hr, ?_⟩
    by_contra hlen
    rw [List.getElem?_eq_none (not_lt.1 hlen)] at h
    exact absurd h (by simp)
  · exact absurd h (by simp)

theorem cell_write_in_range (q q' : plan_t) (k : Int) (c : plan_cell_t)
    (h : q.cell_write k c = some q') :
    (0 ≤ k ∧ k < q.size_x * q.size_y) ∧ k.toNat < q.cells.length := by
  unfold plan_t.cell_write at h
  split at h
  · rename_i hr
    exact ⟨⟨hr.1, hr.2.1⟩, hr.2.2⟩
  · exact absurd h (by simp)

theorem kernel_read_in_range (q : plan_t) (n : Nat) (v : Distance)
    (h : q.kernel_read n = some v) :
    (n : Int) < q.dist_kernel_width * q.dist_kernel_width ∧ n < q.dist_kernel.length := by
  unfold plan_t.kernel_read at h
  split at h
  · rename_i hr
    refine ⟨hr, ?_⟩
    by_contra hlen
    rw [List.getElem?_eq_none (not_lt.1 hlen)] at h
    exact absurd h (by simp)
  · exact absurd h (by simp)

theorem cell_read_eq (q : plan_t) (hal : GridAllocated q) (k : Int) (h0 : 0 ≤ k)
    (h1 : k < q.size_x * q.size_y) : q.cell_read k = some (cellAt q.cells k) := by
  unfold GridAllocated at hal
  have hlen : k.toNat < q.cells.length := by omega
  unfold plan_t.cell_read cellAt
  rw [if_pos ⟨h0, h1⟩, if_pos h0, List.getElem?_eq_getElem hlen,
    List.getD_eq_getElem _ _ hlen]

theorem cell_write_eq (q : plan_t) (hal : GridAllocated q) (k : Int) (c : plan_cell_t)
    (h0 : 0 ≤ k) (h1 : k < q.size_x * q.size_y) :
    q.cell_write k c = some { q with cells := setCellAt q.cells k c } := by
  unfold GridAllocated at hal
  have hlen : k.toNat < q.cells.length := by omega
  unfold plan_t.cell_write setCellAt
  rw [if_pos ⟨h0, h1, hlen⟩, if_pos h0]

theorem kernel_read_eq (q : plan_t) (n : Nat)
    (hl : q.dist_kernel.length = (q.dist_kernel_width * q.dist_kernel_width).toNat)
    (h : (n : Int) < q.dist_kernel_width * q.dist_kernel_width) :
    q.kernel_read n = some (q.dist_kernel.getD n default) := by
  have hlen : n < q.dist_kernel.length := by omega
  unfold plan_t.kernel_read
  rw [if_pos h, List.getElem?_eq_getElem hlen, List.getD_eq_getElem _ _ hlen]

/-! ## The grid shape is kept -/

theorem SameGrid.refl_grid (p : plan_t) : SameGrid p p :=
  ⟨p.cells, rfl, rfl, fun _ => ⟨rfl, rfl⟩⟩

theorem SameGrid.write {p q : plan_t} (h : SameGrid p q) (k : Int) (c : plan_cell_t)
    (hci : c.ci = (cellAt q.cells k).ci) (hcj : c.cj = (cellAt q.cells k).cj) :
    SameGrid p { q with cells := setCellAt q.cells k c } := by
  obtain ⟨c', rfl, hlen, hij⟩ := h
  refine ⟨setCellAt c' k c, rfl, by rw [length_setCellAt]; exact hlen, fun k' => ?_⟩
  rw [cellAt_setCellAt]
  split
  · rename_i hk
    rw [← hk.1]
    exact ⟨hci.trans (hij k).1, hcj.trans (hij k).2⟩
  · exact hij k'

theorem SameGrid.allocated {p q : plan_t} (h : SameGrid p q) (hal : GridAllocated p) :
    GridAllocated q := by
  obtain ⟨c', rfl, hlen, _⟩ := h
  unfold GridAllocated at hal ⊢
  simp only
  rw [hlen]
  exact hal

/-! ## The kernel pointer stays inside the kernel -/

theorem length_fill_kernel (lo hi : Int) (scale : ℚ) (buf : List Distance) :
    (fill_kernel lo hi scale buf).length = buf.length := by
  unfold fill_kernel
  have key := forRange_inv lo hi (fun j (st : List Distance × Nat) =>
      forRange lo hi (fun i (st : List Distance × Nat) =>
        (st.1.set st.2 (Distance.hypot_scaled i j scale), st.2 + 1)) st)
    (fun _ st => st.1.length = buf.length) (buf, 0) rfl
    (by
      intro b _ st hst
      exact forRange_inv lo hi (fun i (st : List Distance × Nat) =>
          (st.1.set st.2 (Distance.hypot_scaled i (lo + b) scale), st.2 + 1))
        (fun _ st => st.1.length = buf.length) st hst
        (by
          intro a _ st' hst'
          simp only [List.length_set]
          exact hst'))
  exact key

theorem length_kernel_built (p : plan_t) (hk : KernelBuilt p) :
    p.dist_kernel.length = (p.dist_kernel_width * p.dist_kernel_width).toNat := by
  rw [hk.2, hk.1]
  simp only [plan_t.compute_dist_kernel]
  rw [length_fill_kernel, List.length_replicate]

theorem tdiv_neg_odd_of_neg (c : Int) (h : c < 0) : Int.tdiv (-(1 + 2 * c)) 2 = -c - 1 := by
  rw [Int.tdiv_eq_ediv (by omega) (by omega)]; omega

theorem tdiv_odd_of_neg (c : Int) (h : c < 0) : Int.tdiv (1 + 2 * c) 2 = c + 1 := by
  have e : (1 + 2 * c) = -(-(1 + 2 * c)) := by ring
  rw [e, Int.neg_tdiv, tdiv_neg_odd_of_neg c h]
  ring

/-- The kernel loops run `n` times per axis with `n * n <= kernel_width * kernel_width`,
whatever the sign of the width `1 + 2 * c`. -/
theorem kernel_iterations_sq_le (c : Int) :
    (((Int.tdiv (1 + 2 * c) 2 + 1 - Int.tdiv (-(1 + 2 * c)) 2).toNat : Nat) : Int) *
      ((Int.tdiv (1 + 2 * c) 2 + 1 - Int.tdiv (-(1 + 2 * c)) 2).toNat : Nat) ≤
      (1 + 2 * c) * (1 + 2 * c) := by
  rcases le_or_lt 0 c with h | h
  · rw [tdiv_odd c h, tdiv_neg_odd c h]
    have e : (((c + 1 - -c).toNat : Nat) : Int) = 1 + 2 * c := by omega
    rw [e]
  · rw [tdiv_odd_of_neg c h, tdiv_neg_odd_of_neg c h]
    rcases lt_or_le c (-1) with h2 | h2
    · have e : (((c + 1 + 1 - (-c - 1)).toNat : Nat) : Int) = 0 := by omega
      rw [e]
      nlinarith
    · have e : c = -1 := by omega
      subst e
      decide

/-- Every value the kernel pointer takes in the kernel loops is the index of a kernel
entry. -/
theorem kernel_index_in_range (p : plan_t) (hk : KernelBuilt p) (a b : Nat)
    (ha : a < (Int.tdiv p.dist_kernel_width 2 + 1 - Int.tdiv (-p.dist_kernel_width) 2).toNat)
    (hb : b < (Int.tdiv p.dist_kernel_width 2 + 1 - Int.tdiv (-p.dist_kernel_width) 2).toNat) :
    ((b * (Int.tdiv p.dist_kernel_width 2 + 1 - Int.tdiv (-p.dist_kernel_width) 2).toNat + a :
      Nat) : Int) < p.dist_kernel_width * p.dist_kernel_width := by
  have hw := kernel_width_built p hk
  have hsq := kernel_iterations_sq_le ⌈p.max_radius / p.scale⌉
  rw [← hw] at hsq
  generalize (Int.tdiv p.dist_kernel_width 2 + 1 - Int.tdiv (-p.dist_kernel_width) 2).toNat = n
    at ha hb hsq
  have h1 : b * n + a < n * n := by
    calc b * n + a < b * n + n := by omega
      _ = (b + 1) * n := by ring
      _ ≤ n * n := Nat.mul_le_mul_right n hb
  have h2 : ((b * n + a : Nat) : Int) < ((n * n : Nat) : Int) := by exact_mod_cast h1
  have h3 : ((n * n : Nat) : Int) = (n : Int) * n := by push_cast; ring
  omega

theorem SameGrid.trans_grid {p q r : plan_t} (h1 : SameGrid p q) (h2 : SameGrid q r) :
    SameGrid p r := by
  obtain ⟨c1, rfl, l1, e1⟩ := h1
  obtain ⟨c2, rfl, l2, e2⟩ := h2
  exact ⟨c2, rfl, l2.trans l1,
    fun k => ⟨(e2 k).1.trans (e1 k).1, (e2 k).2.trans (e1 k).2⟩⟩

theorem SameGrid.kernel_built {p q : plan_t} (h : SameGrid p q) (hk : KernelBuilt p) :
    KernelBuilt q := by
  obtain ⟨c', rfl, _, _⟩ := h
  exact hk

theorem SameGrid.valid_bounds {p q : plan_t} (h : SameGrid p q) (hb : ValidBounds p) :
    ValidBounds q := by
  obtain ⟨c', rfl, _, _⟩ := h
  exact hb

/-! ## `compute_cspace` stays inside the arrays -/

theorem cspace_relax_checked_eq (q : plan_t) (hal : GridAllocated q) (hk : KernelBuilt q)
    (i j di dj : Int) (pk : Nat) (ncell : Int)
    (hpk : (pk : Int) < q.dist_kernel_width * q.dist_kernel_width)
    (hnc : q.VALID_BOUNDS (i + di) (j + dj) = true →
      0 ≤ ncell ∧ ncell < q.size_x * q.size_y) :
    cspace_relax_checked q i j di dj pk ncell = some (cspace_relax q i j di dj pk ncell) ∧
      SameGrid q (cspace_relax q i j di dj pk ncell) := by
  unfold cspace_relax_checked cspace_relax
  by_cases hvb : q.VALID_BOUNDS (i + di) (j + dj) = true
  · obtain ⟨h0, h1⟩ := hnc hvb
    simp only [hvb, Bool.not_true, Bool.false_eq_true, if_false]
    rw [kernel_read_eq q pk (length_kernel_built q hk) hpk, Option.some_bind,
      cell_read_eq q hal ncell h0 h1, Option.some_bind]
    split
    · rw [cell_write_eq q hal ncell _ h0 h1]
      exact ⟨rfl, (SameGrid.refl_grid q).write ncell _ rfl rfl⟩
    · exact ⟨rfl, SameGrid.refl_grid q⟩
  · have hvb' : q.VALID_BOUNDS (i + di) (j + dj) = false := by
      cases h : q.VALID_BOUNDS (i + di) (j + dj)
      · rfl
      · exact absurd h hvb
    rw [hvb']
    exact ⟨rfl, SameGrid.refl_grid q⟩

theorem cspace_row_checked (q : plan_t) (hal : GridAllocated q) (hk : KernelBuilt q)
    (i j cell lo hi : Int) (hlo : Int.tdiv (-q.dist_kernel_width) 2 = lo)
    (hhi : Int.tdiv q.dist_kernel_width 2 = hi) (b : Nat) (hb : b < (hi + 1 - lo).toNat)
    (htgt : ∀ di dj, q.VALID_BOUNDS (i + di) (j + dj) = true →
      0 ≤ cell + di + dj * q.size_x ∧ cell + di + dj * q.size_x < q.size_x * q.size_y)
    (q1 : plan_t) (h1 : SameGrid q q1) :
    forRangeOpt lo hi (fun di (st : plan_t × Nat × Int) =>
        (cspace_relax_checked st.1 i j di (lo + b) st.2.1 st.2.2).map fun r =>
          (r, st.2.1 + 1, st.2.2 + 1))
      (q1, b * (hi + 1 - lo).toNat, cell + lo + (lo + b) * q1.size_x) =
      some (forRange lo hi (fun di (st : plan_t × Nat × Int) =>
        (cspace_relax st.1 i j di (lo + b) st.2.1 st.2.2, st.2.1 + 1, st.2.2 + 1))
        (q1, b * (hi + 1 - lo).toNat, cell + lo + (lo + b) * q1.size_x)) ∧
    SameGrid q (forRange lo hi (fun di (st : plan_t × Nat × Int) =>
        (cspace_relax st.1 i j di (lo + b) st.2.1 st.2.2, st.2.1 + 1, st.2.2 + 1))
        (q1, b * (hi + 1 - lo).toNat, cell + lo + (lo + b) * q1.size_x)).1 ∧
    (forRange lo hi (fun di (st : plan_t × Nat × Int) =>
        (cspace_relax st.1 i j di (lo + b) st.2.1 st.2.2, st.2.1 + 1, st.2.2 + 1))
        (q1, b * (hi + 1 - lo).toNat, cell + lo + (lo + b) * q1.size_x)).2.1 =
      (b + 1) * (hi + 1 - lo).toNat := by
  have hsz : q1.size_x = q.size_x := by
    obtain ⟨c', rfl, _, _⟩ := h1
    rfl
  have key := forRangeOpt_eq lo hi (fun di (st : plan_t × Nat × Int) =>
        (cspace_relax_checked st.1 i j di (lo + b) st.2.1 st.2.2).map fun r =>
          (r, st.2.1 + 1, st.2.2 + 1))
    (fun di (st : plan_t × Nat × Int) =>
        (cspace_relax st.1 i j di (lo + b) st.2.1 st.2.2, st.2.1 + 1, st.2.2 + 1))
    (fun a st => SameGrid q st.1 ∧ st.2.1 = b * (hi + 1 - lo).toNat + a ∧
      st.2.2 = cell + lo + (lo + b) * q.size_x + a)
    (q1, b * (hi + 1 - lo).toNat, cell + lo + (lo + b) * q1.size_x)
    ⟨h1, rfl, by rw [hsz]; simp⟩
    (by
      rintro a ha ⟨s, pk, nc⟩ ⟨g1, g2, g3⟩
      simp only at g1 g2 g3 ⊢
      subst g2 g3
      have hf : s.dist_kernel_width = q.dist_kernel_width ∧ s.size_x = q.size_x ∧
          s.size_y = q.size_y ∧ ∀ x y, s.VALID_BOUNDS x y = q.VALID_BOUNDS x y := by
        obtain ⟨c', rfl, _, _⟩ := g1
        exact ⟨rfl, rfl, rfl, fun _ _ => rfl⟩
      have hstep := cspace_relax_checked_eq s (g1.allocated hal) (g1.kernel_built hk) i j
        (lo + a) (lo + b) (b * (hi + 1 - lo).toNat + a)
        (cell + lo + (lo + b) * q.size_x + a)
        (by
          rw [hf.1]
          subst hlo hhi
          exact kernel_index_in_range q hk a b ha hb)
        (by
          intro hvb
          rw [hf.2.2.2] at hvb
          have := htgt (lo + a) (lo + b) hvb
          rw [hf.2.1, hf.2.2.1]
          have e : cell + (lo + a) + (lo + b) * q.size_x =
              cell + lo + (lo + b) * q.size_x + a := by ring
          rw [e] at this
          exact this)
      rw [hstep.1]
      refine ⟨rfl, g1.trans_grid hstep.2, by omega, by push_cast; ring⟩)
  refine ⟨key.1, key.2.1, ?_⟩
  rw [key.2.2.1]
  ring

theorem cspace_splat_checked_eq (q : plan_t) (hal : GridAllocated q) (hk : KernelBuilt q)
    (i j cell : Int)
    (htgt : ∀ di dj, q.VALID_BOUNDS (i + di) (j + dj) = true →
      0 ≤ cell + di + dj * q.size_x ∧ cell + di + dj * q.size_x < q.size_x * q.size_y) :
    cspace_splat_checked q i j cell = some (cspace_splat q i j cell) ∧
      SameGrid q (cspace_splat q i j cell) := by
  unfold cspace_splat_checked cspace_splat
  generalize hlo : Int.tdiv (-q.dist_kernel_width) 2 = lo
  generalize hhi : Int.tdiv q.dist_kernel_width 2 = hi
  simp only
  have key := forRangeOpt_eq lo hi (fun dj (st : plan_t × Nat) =>
      (forRangeOpt lo hi (fun di (st : plan_t × Nat × Int) =>
        (cspace_relax_checked st.1 i j di dj st.2.1 st.2.2).map fun r =>
          (r, st.2.1 + 1, st.2.2 + 1))
        (st.1, st.2, cell + lo + dj * st.1.size_x)).map fun r => (r.1, r.2.1))
    (fun dj (st : plan_t × Nat) =>
      ((forRange lo hi (fun di (st : plan_t × Nat × Int) =>
        (cspace_relax st.1 i j di dj st.2.1 st.2.2, st.2.1 + 1, st.2.2 + 1))
        (st.1, st.2, cell + lo + dj * st.1.size_x)).1,
       (forRange lo hi (fun di (st : plan_t × Nat × Int) =>
        (cspace_relax st.1 i j di dj st.2.1 st.2.2, st.2.1 + 1, st.2.2 + 1))
        (st.1, st.2, cell + lo + dj * st.1.size_x)).2.1))
    (fun b st => SameGrid q st.1 ∧ st.2 = b * (hi + 1 - lo).toNat) (q, 0)
    ⟨SameGrid.refl_grid q, by simp⟩
    (by
      rintro b hb ⟨s, pk⟩ ⟨g1, g2⟩
      simp only at g1 g2 ⊢
      subst g2
      obtain ⟨r1, r2, r3⟩ := cspace_row_checked q hal hk i j cell lo hi hlo hhi b hb htgt s g1
      rw [r1]
      exact ⟨rfl, r2, r3⟩)
  rw [key.1]
  exact ⟨rfl, key.2.1⟩

theorem SameGrid.fields {p q : plan_t} (h : SameGrid p q) :
    q.size_x = p.size_x ∧ q.size_y = p.size_y ∧ q.min_x = p.min_x ∧ q.max_x = p.max_x ∧
      q.min_y = p.min_y ∧ q.max_y = p.max_y ∧
      (∀ x y, q.VALID_BOUNDS x y = p.VALID_BOUNDS x y) ∧
      (∀ x y, q.VALID x y = p.VALID x y) ∧ (∀ x y, q.INDEX x y = p.INDEX x y) ∧
      (∀ x, q.GXWX x = p.GXWX x) ∧ (∀ y, q.GYWY y = p.GYWY y) := by
  obtain ⟨c', rfl, _, _⟩ := h
  exact ⟨rfl, rfl, rfl, rfl, rfl, rfl, fun _ _ => rfl, fun _ _ => rfl, fun _ _ => rfl,
    fun _ => rfl, fun _ => rfl⟩

theorem cspace_source_row_checked (p : plan_t) (hal : GridAllocated p) (hk : KernelBuilt p)
    (hb : ValidBounds p) (j : Int) (hj : p.min_y ≤ j ∧ j ≤ p.max_y) (q1 : plan_t)
    (h1 : SameGrid p q1) :
    forRangeOpt q1.min_x q1.max_x (fun i (st : plan_t × Int) =>
        (st.1.cell_read st.2).bind fun c =>
        if c.occ_state < 0 then some (st.1, st.2 + 1)
        else (cspace_splat_checked st.1 i j st.2).map fun q => (q, st.2 + 1))
      (q1, q1.INDEX 0 j) =
      some (forRange q1.min_x q1.max_x (fun i (st : plan_t × Int) =>
        if (cellAt st.1.cells st.2).occ_state < 0 then (st.1, st.2 + 1)
        else (cspace_splat st.1 i j st.2, st.2 + 1)) (q1, q1.INDEX 0 j)) ∧
    SameGrid p (forRange q1.min_x q1.max_x (fun i (st : plan_t × Int) =>
        if (cellAt st.1.cells st.2).occ_state < 0 then (st.1, st.2 + 1)
        else (cspace_splat st.1 i j st.2, st.2 + 1)) (q1, q1.INDEX 0 j)).1 := by
  have hq1 := h1.fields
  unfold ValidBounds at hb
  have key := forRangeOpt_eq q1.min_x q1.max_x (fun i (st : plan_t × Int) =>
        (st.1.cell_read st.2).bind fun c =>
        if c.occ_state < 0 then some (st.1, st.2 + 1)
        else (cspace_splat_checked st.1 i j st.2).map fun q => (q, st.2 + 1))
    (fun i (st : plan_t × Int) =>
        if (cellAt st.1.cells st.2).occ_state < 0 then (st.1, st.2 + 1)
        else (cspace_splat st.1 i j st.2, st.2 + 1))
    (fun a st => SameGrid p st.1 ∧ st.2 = p.INDEX 0 j + a) (q1, q1.INDEX 0 j)
    ⟨h1, by rw [hq1.2.2.2.2.2.2.2.2.1]; simp⟩
    (by
      rintro a ha ⟨s, ptr⟩ ⟨g1, g2⟩
      simp only at g1 g2 ⊢
      subst g2
      have hs := g1.fields
      have hals := g1.allocated hal
      rw [hq1.2.2.1, hq1.2.2.2.1] at ha
      rw [hq1.2.2.1]
      have hptr : p.INDEX 0 j + a = (a : Int) + j * p.size_x := by
        simp only [plan_t.INDEX]; ring
      have hr := index_in_range p.size_x p.size_y a j (by omega) (by omega)
      rw [cell_read_eq s hals _ (by rw [hptr]; exact hr.1)
        (by rw [hptr, hs.1, hs.2.1]; exact hr.2), Option.some_bind]
      split
      · exact ⟨rfl, g1, by push_cast; ring⟩
      · have hsp := cspace_splat_checked_eq s hals (g1.kernel_built hk) (p.min_x + a) j
          (p.INDEX 0 j + a) (by
            intro di dj hvb
            rw [hs.2.2.2.2.2.2.1, VALID_BOUNDS_iff] at hvb
            have hr2 := index_in_range p.size_x p.size_y (a + di) (j + dj) (by omega)
              (by omega)
            have e : p.INDEX 0 j + a + di + dj * s.size_x =
                (a + di) + (j + dj) * p.size_x := by
              rw [hs.1]; simp only [plan_t.INDEX]; ring
            rw [e, hs.1, hs.2.1]
            exact hr2)
        rw [hsp.1]
        exact ⟨rfl, g1.trans_grid hsp.2, by push_cast; ring⟩)
  exact ⟨key.1, key.2.1⟩

theorem compute_cspace_checked_eq (p : plan_t) (hal : GridAllocated p) (hk : KernelBuilt p)
    (hb : ValidBounds p) :
    p.compute_cspace_checked = some p.compute_cspace ∧ SameGrid p p.compute_cspace := by
  unfold plan_t.compute_cspace_checked plan_t.compute_cspace
  have key := forRangeOpt_eq p.min_y p.max_y (fun j plan =>
      (forRangeOpt plan.min_x plan.max_x (fun i (st : plan_t × Int) =>
        (st.1.cell_read st.2).bind fun c =>
        if c.occ_state < 0 then some (st.1, st.2 + 1)
        else (cspace_splat_checked st.1 i j st.2).map fun q => (q, st.2 + 1))
        (plan, plan.INDEX 0 j)).map Prod.fst)
    (fun j plan =>
      (forRange plan.min_x plan.max_x (fun i (st : plan_t × Int) =>
        if (cellAt st.1.cells st.2).occ_state < 0 then (st.1, st.2 + 1)
        else (cspace_splat st.1 i j st.2, st.2 + 1)) (plan, plan.INDEX 0 j)).1)
    (fun _ q => SameGrid p q) p (SameGrid.refl_grid p)
    (by
      intro b hbj q hq
      obtain ⟨r1, r2⟩ := cspace_source_row_checked p hal hk hb (p.min_y + b) (by omega) q hq
      exact ⟨congrArg (Option.map Prod.fst) r1, r2⟩)
  exact key

/-! ## `set_obstacles` stays inside the arrays -/

theorem SameGrid.ci_cj {p q : plan_t} (h : SameGrid p q) (k : Int) :
    (cellAt q.cells k).ci = (cellAt p.cells k).ci ∧
      (cellAt q.cells k).cj = (cellAt p.cells k).cj := by
  obtain ⟨c', rfl, _, hij⟩ := h
  exact hij k

theorem SameGrid.cells_indexed {p q : plan_t} (h : SameGrid p q) (hidx : CellsIndexed p) :
    CellsIndexed q := by
  have hf := h.fields
  intro s hs
  have hs' : s ∈ grid_cells p := by
    rw [mem_grid_cells] at hs ⊢
    rw [hf.1, hf.2.1] at hs
    exact hs
  rw [hf.2.2.2.2.2.2.2.2.1, (h.ci_cj _).1, (h.ci_cj _).2]
  exact hidx s hs'

theorem reset_dyn_checked_eq (p : plan_t) (hal : GridAllocated p) :
    reset_dyn_checked p = some (reset_dyn p) ∧ SameGrid p (reset_dyn p) := by
  unfold reset_dyn_checked reset_dyn
  have key := forRangeOpt_eq 0 (p.size_y * p.size_x - 1) (fun _ (st : plan_t × Int) =>
      (st.1.cell_read st.2).bind fun cell =>
      (st.1.cell_write st.2 { cell with
        occ_state_dyn := cell.occ_state, occ_dist_dyn := cell.occ_dist, mark := false }).map
        fun q => (q, st.2 + 1))
    (fun _ (st : plan_t × Int) =>
      ({ st.1 with cells := setCellAt st.1.cells st.2 { cellAt st.1.cells st.2 with
          occ_state_dyn := (cellAt st.1.cells st.2).occ_state,
          occ_dist_dyn := (cellAt st.1.cells st.2).occ_dist, mark := false } }, st.2 + 1))
    (fun a st => SameGrid p st.1 ∧ st.2 = a) (p, 0) ⟨SameGrid.refl_grid p, rfl⟩
    (by
      rintro a ha ⟨s, ptr⟩ ⟨g1, g2⟩
      simp only at g1 g2 ⊢
      subst g2
      have hs := g1.fields
      have hals := g1.allocated hal
      have h0 : (0 : Int) ≤ a := by omega
      have h1 : (a : Int) < s.size_x * s.size_y := by
        rw [hs.1, hs.2.1, mul_comm]
        omega
      rw [cell_read_eq s hals _ h0 h1, Option.some_bind, cell_write_eq s hals _ _ h0 h1]
      exact ⟨rfl, g1.trans_grid ((SameGrid.refl_grid s).write _ _ rfl rfl), by push_cast; ring⟩)
  exact ⟨congrArg (Option.map Prod.fst) key.1, key.2.1⟩

theorem obstacle_relax_checked_eq (q : plan_t) (hal : GridAllocated q) (hk : KernelBuilt q)
    (cell di dj : Int) (pk : Nat) (ncell : Int)
    (hcell : 0 ≤ cell ∧ cell < q.size_x * q.size_y)
    (hpk : (pk : Int) < q.dist_kernel_width * q.dist_kernel_width)
    (hnc : q.VALID_BOUNDS ((cellAt q.cells cell).ci + di) ((cellAt q.cells cell).cj + dj) = true →
      0 ≤ ncell ∧ ncell < q.size_x * q.size_y) :
    obstacle_relax_checked q cell di dj pk ncell = some (obstacle_relax q cell di dj pk ncell) ∧
      SameGrid q (obstacle_relax q cell di dj pk ncell) := by
  unfold obstacle_relax_checked obstacle_relax
  rw [cell_read_eq q hal cell hcell.1 hcell.2, Option.some_bind]
  by_cases hvb : q.VALID_BOUNDS ((cellAt q.cells cell).ci + di)
      ((cellAt q.cells cell).cj + dj) = true
  · obtain ⟨h0, h1⟩ := hnc hvb
    simp only [hvb, Bool.not_true, Bool.false_eq_true, if_false]
    rw [kernel_read_eq q pk (length_kernel_built q hk) hpk, Option.some_bind,
      cell_read_eq q hal ncell h0 h1, Option.some_bind]
    split
    · rw [cell_write_eq q hal ncell _ h0 h1]
      exact ⟨rfl, (SameGrid.refl_grid q).write ncell _ rfl rfl⟩
    · exact ⟨rfl, SameGrid.refl_grid q⟩
  · have hvb' : q.VALID_BOUNDS ((cellAt q.cells cell).ci + di)
        ((cellAt q.cells cell).cj + dj) = false := by
      cases h : q.VALID_BOUNDS ((cellAt q.cells cell).ci + di) ((cellAt q.cells cell).cj + dj)
      · rfl
      · exact absurd h hvb
    simp only
    rw [hvb']
    exact ⟨rfl, SameGrid.refl_grid q⟩

theorem obstacle_row_checked (q : plan_t) (hal : GridAllocated q) (hk : KernelBuilt q)
    (cell lo hi : Int) (hlo : Int.tdiv (-q.dist_kernel_width) 2 = lo)
    (hhi : Int.tdiv q.dist_kernel_width 2 = hi) (b : Nat) (hb : b < (hi + 1 - lo).toNat)
    (hcell : 0 ≤ cell ∧ cell < q.size_x * q.size_y)
    (htgt : ∀ di dj,
      q.VALID_BOUNDS ((cellAt q.cells cell).ci + di) ((cellAt q.cells cell).cj + dj) = true →
      0 ≤ cell + di + dj * q.size_x ∧ cell + di + dj * q.size_x < q.size_x * q.size_y)
    (q1 : plan_t) (h1 : SameGrid q q1) :
    forRangeOpt lo hi (fun di (st : plan_t × Nat × Int) =>
        (obstacle_relax_checked st.1 cell di (lo + b) st.2.1 st.2.2).map fun r =>
          (r, st.2.1 + 1, st.2.2 + 1))
      (q1, b * (hi + 1 - lo).toNat, cell + lo + (lo + b) * q1.size_x) =
      some (forRange lo hi (fun di (st : plan_t × Nat × Int) =>
        (obstacle_relax st.1 cell di (lo + b) st.2.1 st.2.2, st.2.1 + 1, st.2.2 + 1))
        (q1, b * (hi + 1 - lo).toNat, cell + lo + (lo + b) * q1.size_x)) ∧
    SameGrid q (forRange lo hi (fun di (st : plan_t × Nat × Int) =>
        (obstacle_relax st.1 cell di (lo + b) st.2.1 st.2.2, st.2.1 + 1, st.2.2 + 1))
        (q1, b * (hi + 1 - lo).toNat, cell + lo + (lo + b) * q1.size_x)).1 ∧
    (forRange lo hi (fun di (st : plan_t × Nat × Int) =>
        (obstacle_relax st.1 cell di (lo + b) st.2.1 st.2.2, st.2.1 + 1, st.2.2 + 1))
        (q1, b * (hi + 1 - lo).toNat, cell + lo + (lo + b) * q1.size_x)).2.1 =
      (b + 1) * (hi + 1 - lo).toNat := by
  have hsz : q1.size_x = q.size_x := h1.fields.1
  have key := forRangeOpt_eq lo hi (fun di (st : plan_t × Nat × Int) =>
        (obstacle_relax_checked st.1 cell di (lo + b) st.2.1 st.2.2).map fun r =>
          (r, st.2.1 + 1, st.2.2 + 1))
    (fun di (st : plan_t × Nat × Int) =>
        (obstacle_relax st.1 cell di (lo + b) st.2.1 st.2.2, st.2.1 + 1, st.2.2 + 1))
    (fun a st => SameGrid q st.1 ∧ st.2.1 = b * (hi + 1 - lo).toNat + a ∧
      st.2.2 = cell + lo + (lo + b) * q.size_x + a)
    (q1, b * (hi + 1 - lo).toNat, cell + lo + (lo + b) * q1.size_x)
    ⟨h1, rfl, by rw [hsz]; simp⟩
    (by
      rintro a ha ⟨s, pk, nc⟩ ⟨g1, g2, g3⟩
      simp only at g1 g2 g3 ⊢
      subst g2 g3
      have hf := g1.fields
      have hw : s.dist_kernel_width = q.dist_kernel_width := by
        obtain ⟨c', rfl, _, _⟩ := g1
        rfl
      have hstep := obstacle_relax_checked_eq s (g1.allocated hal) (g1.kernel_built hk) cell
        (lo + a) (lo + b) (b * (hi + 1 - lo).toNat + a)
        (cell + lo + (lo + b) * q.size_x + a)
        (by rw [hf.1, hf.2.1]; exact hcell)
        (by
          rw [hw]
          subst hlo hhi
          exact kernel_index_in_range q hk a b ha hb)
        (by
          intro hvb
          rw [hf.2.2.2.2.2.2.1, (g1.ci_cj cell).1, (g1.ci_cj cell).2] at hvb
          have := htgt (lo + a) (lo + b) hvb
          rw [hf.1, hf.2.1]
          have e : cell + (lo + a) + (lo + b) * q.size_x =
              cell + lo + (lo + b) * q.size_x + a := by ring
          rw [e] at this
          exact this)
      rw [hstep.1]
      refine ⟨rfl, g1.trans_grid hstep.2, by omega, by push_cast; ring⟩)
  refine ⟨key.1, key.2.1, ?_⟩
  rw [key.2.2.1]
  ring

theorem obstacle_splat_checked_eq (q : plan_t) (hal : GridAllocated q) (hk : KernelBuilt q)
    (cell : Int) (hcell : 0 ≤ cell ∧ cell < q.size_x * q.size_y)
    (htgt : ∀ di dj,
      q.VALID_BOUNDS ((cellAt q.cells cell).ci + di) ((cellAt q.cells cell).cj + dj) = true →
      0 ≤ cell + di + dj * q.size_x ∧ cell + di + dj * q.size_x < q.size_x * q.size_y) :
    obstacle_splat_checked q cell = some (obstacle_splat q cell) ∧
      SameGrid q (obstacle_splat q cell) := by
  unfold obstacle_splat_checked obstacle_splat
  generalize hlo : Int.tdiv (-q.dist_kernel_width) 2 = lo
  generalize hhi : Int.tdiv q.dist_kernel_width 2 = hi
  simp only
  have key := forRangeOpt_eq lo hi (fun dj (st : plan_t × Nat) =>
      (forRangeOpt lo hi (fun di (st : plan_t × Nat × Int) =>
        (obstacle_relax_checked st.1 cell di dj st.2.1 st.2.2).map fun r =>
          (r, st.2.1 + 1, st.2.2 + 1))
        (st.1, st.2, cell + lo + dj * st.1.size_x)).map fun r => (r.1, r.2.1))
    (fun dj (st : plan_t × Nat) =>
      ((forRange lo hi (fun di (st : plan_t × Nat × Int) =>
        (obstacle_relax st.1 cell di dj st.2.1 st.2.2, st.2.1 + 1, st.2.2 + 1))
        (st.1, st.2, cell + lo + dj * st.1.size_x)).1,
       (forRange lo hi (fun di (st : plan_t × Nat × Int) =>
        (obstacle_relax st.1 cell di dj st.2.1 st.2.2, st.2.1 + 1, st.2.2 + 1))
        (st.1, st.2, cell + lo + dj * st.1.size_x)).2.1))
    (fun b st => SameGrid q st.1 ∧ st.2 = b * (hi + 1 - lo).toNat) (q, 0)
    ⟨SameGrid.refl_grid q, by simp⟩
    (by
      rintro b hb ⟨s, pk⟩ ⟨g1, g2⟩
      simp only at g1 g2 ⊢
      subst g2
      obtain ⟨r1, r2, r3⟩ := obstacle_row_checked q hal hk cell lo hi hlo hhi b hb hcell htgt
        s g1
      rw [r1]
      exact ⟨rfl, r2, r3⟩)
  rw [key.1]
  exact ⟨rfl, key.2.1⟩

theorem obstacle_point_checked_eq (q : plan_t) (hal : GridAllocated q) (hk : KernelBuilt q)
    (hidx : CellsIndexed q) (hb : ValidBounds q) (x y : ℚ) :
    obstacle_point_checked q x y = some (obstacle_point q x y) ∧
      SameGrid q (obstacle_point q x y) := by
  unfold obstacle_point_checked obstacle_point
  simp only
  by_cases hv : q.VALID (q.GXWX x) (q.GYWY y) = true
  · have hv' := (VALID_iff q _ _).1 hv
    have hr := index_in_range q.size_x q.size_y _ _ hv'.1 hv'.2
    have hcell : 0 ≤ q.INDEX (q.GXWX x) (q.GYWY y) ∧
        q.INDEX (q.GXWX x) (q.GYWY y) < q.size_x * q.size_y := hr
    simp only [hv, Bool.not_true, Bool.false_eq_true, if_false]
    rw [cell_read_eq q hal _ hcell.1 hcell.2, Option.some_bind]
    split
    · exact ⟨rfl, SameGrid.refl_grid q⟩
    · rw [cell_write_eq q hal _ _ hcell.1 hcell.2, Option.some_bind]
      have hw := (SameGrid.refl_grid q).write (q.INDEX (q.GXWX x) (q.GYWY y))
        { cellAt q.cells (q.INDEX (q.GXWX x) (q.GYWY y)) with
          mark := true, occ_state_dyn := 1, occ_dist_dyn := Distance.zero } rfl rfl
      have hf := hw.fields
      have hsp := obstacle_splat_checked_eq _ (hw.allocated hal) (hw.kernel_built hk)
        (q.INDEX (q.GXWX x) (q.GYWY y)) (by rw [hf.1, hf.2.1]; exact hcell)
        (by
          intro di dj hvb
          rw [hf.2.2.2.2.2.2.1, (hw.ci_cj _).1, (hw.ci_cj _).2, hidx.ci_indexed _ _ hv,
            hidx.cj_indexed _ _ hv] at hvb
          have hv2 := (VALID_iff q _ _).1 (VALID_of_VALID_BOUNDS q hb _ _ hvb)
          have hr2 := index_in_range q.size_x q.size_y _ _ hv2.1 hv2.2
          rw [hf.1, hf.2.1]
          have e : q.INDEX (q.GXWX x) (q.GYWY y) + di + dj * q.size_x =
              (q.GXWX x + di) + (q.GYWY y + dj) * q.size_x := by
            simp only [plan_t.INDEX]; ring
          rw [e]
          exact hr2)
      rw [hsp.1]
      exact ⟨rfl, hw.trans_grid hsp.2⟩
  · have hv' : q.VALID (q.GXWX x) (q.GYWY y) = false := by
      cases h : q.VALID (q.GXWX x) (q.GYWY y)
      · rfl
      · exact absurd h hv
    rw [hv']
    exact ⟨rfl, SameGrid.refl_grid q⟩

theorem obstacle_loop_checked (p : plan_t) (hal : GridAllocated p) (hk : KernelBuilt p)
    (hidx : CellsIndexed p) (hb : ValidBounds p) (obs : List ℚ) (l : List Nat) :
    ∀ q, SameGrid p q →
      l.foldl (fun plan i => plan.bind fun q =>
          obstacle_point_checked q (obs.getD (2 * i) 0) (obs.getD (2 * i + 1) 0)) (some q) =
        some (l.foldl (fun plan i =>
          obstacle_point plan (obs.getD (2 * i) 0) (obs.getD (2 * i + 1) 0)) q) ∧
      SameGrid p (l.foldl (fun plan i =>
          obstacle_point plan (obs.getD (2 * i) 0) (obs.getD (2 * i + 1) 0)) q) := by
  induction l with
  | nil => intro q hq; exact ⟨rfl, hq⟩
  | cons i l ih =>
    intro q hq
    simp only [List.foldl_cons, Option.some_bind]
    have h := obstacle_point_checked_eq q (hq.allocated hal) (hq.kernel_built hk)
      (hq.cells_indexed hidx) (hq.valid_bounds hb) (obs.getD (2 * i) 0) (obs.getD (2 * i + 1) 0)
    rw [h.1]
    exact ih _ (hq.trans_grid h.2)

theorem set_obstacles_checked_eq (p : plan_t) (hal : GridAllocated p) (hk : KernelBuilt p)
    (hidx : CellsIndexed p) (hb : ValidBounds p) (obs : List ℚ) (num : Nat) :
    p.set_obstacles_checked obs num = some (p.set_obstacles obs num) := by
  unfold plan_t.set_obstacles_checked plan_t.set_obstacles
  obtain ⟨r1, r2⟩ := reset_dyn_checked_eq p hal
  rw [r1]
  exact (obstacle_loop_checked p hal hk hidx hb obs (List.range num) _ r2).1

/-- C21. Splat accesses stay inside the owned arrays: on an allocated grid whose cells
record their own coordinates, with the kernel built and bounds satisfying
`0 <= min <= max <= size-1` on both axes, `set_obstacles` and `compute_cspace` run with
every dereference of a cell or kernel pointer checked never take the failure branch and
return the state the unchecked functions return; a checked cell access succeeds only at a
linear index in `[0, width*height)` and a checked kernel read only at an index in
`[0, kernel_width*kernel_width)`. -/
theorem splat_accesses_in_range (p : plan_t) (hal : GridAllocated p) (hidx : CellsIndexed p)
    (hk : KernelBuilt p) (hb : ValidBounds p) (obs : List ℚ) (num : Nat) :
    p.set_obstacles_checked obs num = some (p.set_obstacles obs num) ∧
    p.compute_cspace_checked = some p.compute_cspace ∧
    (∀ (q : plan_t) (k : Int) (c : plan_cell_t), q.cell_read k = some c →
      (0 ≤ k ∧ k < q.size_x * q.size_y) ∧ k.toNat < q.cells.length) ∧
    (∀ (q r : plan_t) (k : Int) (c : plan_cell_t), q.cell_write k c = some r →
      (0 ≤ k ∧ k < q.size_x * q.size_y) ∧ k.toNat < q.cells.length) ∧
    (∀ (q : plan_t) (n : Nat) (v : Distance), q.kernel_read n = some v →
      (n : Int) < q.dist_kernel_width * q.dist_kernel_width ∧ n < q.dist_kernel.length) :=
  ⟨set_obstacles_checked_eq p hal hk hidx hb obs num,
    (compute_cspace_checked_eq p hal hk hb).1,
    cell_read_in_range, cell_write_in_range, kernel_read_in_range⟩

/-- Witness for C21: the strip with bounds `(1,0)-(2,0)`, with a point in cell `(2,0)` and
a point outside the grid. -/
theorem splat_accesses_in_range_witness :
    strip_offset.set_obstacles_checked [2, 0, 7, 7] 2 =
      some (strip_offset.set_obstacles [2, 0, 7, 7] 2) ∧
    strip_offset.compute_cspace_checked = some strip_offset.compute_cspace :=
  ⟨(splat_accesses_in_range strip_offset strip_offset_initialised.1
      strip_offset_initialised.2.1 strip_offset_initialised.2.2.2.1
      strip_offset_initialised.2.2.1 [2, 0, 7, 7] 2).1,
    (splat_accesses_in_range strip_offset strip_offset_initialised.1
      strip_offset_initialised.2.1 strip_offset_initialised.2.2.2.1
      strip_offset_initialised.2.2.1 [2, 0, 7, 7] 2).2.1⟩

end Wavefront
